import Mathlib

/-!
# Shadow-state test oracle for a key-value store (`leveldb/testutil/db.go`)

A shallow embedding of the `DBTesting` harness: the two shadow sets `Present`
and `Deleted`, the action record, the random source and the store under test
are explicit state; every method is a function from a state to an `Outcome`
(the result or the failure that aborted the call, together with the state
reached).  A failed `Expect` aborts the call, as does a runtime panic.

Keys range over any linearly ordered type `K` and values over any type `V`
with decidable equality; byte slices (`Bytes`) are the instance used in the
concrete scenarios.
-/

namespace testutil

/-! ## Data model -/

/-- Byte slices, the key and value type of the Go code, ordered lexicographically. -/
abbrev Bytes := List Nat

/-- Action kinds: the constants `DBNone`, `DBPut`, `DBOverwrite`, `DBDelete`, `DBDeleteNA`. -/
inductive DBAct where
  | DBNone
  | DBPut
  | DBOverwrite
  | DBDelete
  | DBDeleteNA
  deriving DecidableEq, Repr

/-- Rendering of an action, `func (a DBAct) String() string`. -/
def DBAct.String : DBAct → String
  | .DBNone => "none"
  | .DBPut => "put"
  | .DBOverwrite => "overwrite"
  | .DBDelete => "delete"
  | .DBDeleteNA => "delete_na"

/-- Errors a store call may return: the distinguished `util.ErrNotFound`, or any other error. -/
inductive DBError where
  | ErrNotFound
  | other (code : Nat)
  deriving DecidableEq, Repr

/-! ## Shadow set -/

/-- Modelled from the spec: the type `KeyValue` of the shadow sets is declared outside
`db.go`.  An ordered mapping from key to value with unique keys and insertion-independent
positions: the entries are kept in strictly increasing key order. -/
structure KeyValue (K V : Type) where
  entries : List (K × V)
  deriving DecidableEq, Repr

/-- Key lookup in an entry list: the value of the first entry carrying `key`. -/
def lookupEntry {K V : Type} [DecidableEq K] (key : K) : List (K × V) → Option V
  | [] => none
  | e :: rest => if e.1 = key then some e.2 else lookupEntry key rest

/-- Insert-or-update in a key-ordered entry list; the flag tells whether the key was new. -/
def insertEntry {K V : Type} [LinearOrder K] (key : K) (value : V) :
    List (K × V) → List (K × V) × Bool
  | [] => ([(key, value)], true)
  | e :: rest =>
    if key < e.1 then ((key, value) :: e :: rest, true)
    else if key = e.1 then ((key, value) :: rest, false)
    else ((e :: (insertEntry key value rest).1), (insertEntry key value rest).2)

/-- Remove-if-present in a key-ordered entry list; returns the prior value when the key existed. -/
def deleteEntry {K V : Type} [LinearOrder K] (key : K) :
    List (K × V) → List (K × V) × Option V
  | [] => ([], none)
  | e :: rest =>
    if key < e.1 then (e :: rest, none)
    else if key = e.1 then (rest, some e.2)
    else ((e :: (deleteEntry key rest).1), (deleteEntry key rest).2)

/-- Modelled from the spec: `Len() -> int`. -/
def KeyValue.Len {K V : Type} (kv : KeyValue K V) : Nat := kv.entries.length

/-- Modelled from the spec: `Index(i) -> (key,value)`; `none` stands for the out-of-range panic. -/
def KeyValue.Index {K V : Type} (kv : KeyValue K V) (i : Nat) : Option (K × V) := kv.entries[i]?

/-- Modelled from the spec: `KeyAt(i) -> key`; `none` stands for the out-of-range panic. -/
def KeyValue.KeyAt {K V : Type} (kv : KeyValue K V) (i : Nat) : Option K :=
  (kv.entries[i]?).map Prod.fst

/-- Modelled from the spec: key lookup of the mapping. -/
def KeyValue.Lookup {K V : Type} [DecidableEq K] (kv : KeyValue K V) (key : K) : Option V :=
  lookupEntry key kv.entries

/-- Modelled from the spec: `PutU(key, value) -> wasNew`, inserts or overwrites. -/
def KeyValue.PutU {K V : Type} [LinearOrder K] (kv : KeyValue K V) (key : K) (value : V) :
    KeyValue K V × Bool :=
  (⟨(insertEntry key value kv.entries).1⟩, (insertEntry key value kv.entries).2)

/-- Modelled from the spec: `Delete(key) -> (existed, oldValue)`; the old value is `none`
exactly when the key did not exist. -/
def KeyValue.Delete {K V : Type} [LinearOrder K] (kv : KeyValue K V) (key : K) :
    KeyValue K V × Option V :=
  (⟨(deleteEntry key kv.entries).1⟩, (deleteEntry key kv.entries).2)

/-- The keys of a shadow set, in positional order. -/
def KeyValue.keys {K V : Type} (kv : KeyValue K V) : List K := kv.entries.map Prod.fst

/-- Well-formedness of a shadow set: keys strictly increasing (hence unique). -/
def KeyValue.WF {K V : Type} [LinearOrder K] (kv : KeyValue K V) : Prop :=
  kv.keys.Pairwise (fun a b => a < b)

/-- The empty shadow set. -/
def KeyValue.empty {K V : Type} : KeyValue K V := ⟨[]⟩

/-! ## Random source -/

/-- The random source `*rand.Rand`: a stream of non-negative draws and a cursor. -/
structure RandSrc where
  draws : Nat → Nat
  pos : Nat

/-- The draw of `Rand.Int()`: a non-negative integer; the cursor advances. -/
def RandSrc.Int (r : RandSrc) : Nat × RandSrc :=
  (r.draws r.pos, { r with pos := r.pos + 1 })

/-- The draw of `Rand.Intn(n)`: a value in `[0, n)`; `none` stands for the panic on `n <= 0`. -/
def RandSrc.Intn (r : RandSrc) (n : Nat) : Option (Nat × RandSrc) :=
  if n = 0 then none else some (r.draws r.pos % n, { r with pos := r.pos + 1 })

/-! ## Store under test, harness state -/

/-- The store behind the `DB` field: the three interface methods `Get`, `Put`, `Delete`
as transitions of an arbitrary store state `σ`.  `Get` returns the pair `(value, err)`, as
at its call site `rvalue, err := t.DB.Get(key)`. -/
structure Store (σ K V : Type) where
  Get : σ → K → (V × Option DBError) × σ
  Put : σ → K → V → Option DBError × σ
  Delete : σ → K → Option DBError × σ

/-- One store call issued by the harness, with the response it got. -/
inductive Call (K V : Type) where
  | Get (key : K) (rvalue : V) (err : Option DBError)
  | Put (key : K) (value : V) (err : Option DBError)
  | Delete (key : K) (err : Option DBError)
  deriving DecidableEq, Repr

/-- The key a store call was issued for. -/
def Call.key {K V : Type} : Call K V → K
  | .Get key _ _ => key
  | .Put key _ _ => key
  | .Delete key _ => key

/-- The mutable part of `type DBTesting struct`: random source (`nil` is `none`), the state
of the store behind `DB`, both shadow sets and the action record.  `Calls` is a ghost
history of the store calls issued by the methods below, oldest first. -/
structure DBTesting (σ K V : Type) where
  Rand : Option RandSrc
  DB : σ
  Calls : List (Call K V)
  Deleted : KeyValue K V
  Present : KeyValue K V
  Act : DBAct
  LastAct : DBAct
  ActKey : K
  LastActKey : K

/-- Why a call was aborted: the four failed checks of the harness, a failure raised by
the post-action hook, or a runtime panic. -/
inductive FailureKind where
  | ReadError
  | ValueMismatch
  | NotFoundMismatch
  | WriteError
  | HookFailure
  | NilRand
  | IndexOutOfRange
  | IntnBound
  deriving DecidableEq, Repr

/-- An aborting failure with the description passed to `Expect`. -/
structure Failure where
  kind : FailureKind
  text : String
  deriving DecidableEq, Repr

/-- Modelled from the spec: the body of a post-action hook is supplied by the caller.
Per its interface contract a hook may act on the store and on the random source, and may
fail, with a message of its own; it does not touch the shadow sets or the action record. -/
structure HookOut (σ : Type) where
  failure : Option String
  DB : σ
  Rand : Option RandSrc

/-- The immutable part of the harness: the store's methods, the optional `PostFn`, the
`%q` rendering of a key, the rendering `fmt.Sprintf(format)` of a format string that
comes without operands, the generator `NewRand()` would return, and the random
permutation that `ShuffledIndex` applies to an index sequence. -/
structure Env (σ K V : Type) where
  DB : Store σ K V
  PostFn : Option (DBTesting σ K V → HookOut σ)
  quote : K → String
  Sprintf : String → String
  NewRand : RandSrc
  Shuffle : Option RandSrc → List Nat → List Nat × Option RandSrc

/-- Result of running a method: the value returned or the failure that aborted it, and
the state reached at that point. -/
structure Outcome (σ K V α : Type) where
  res : Except Failure α
  st : DBTesting σ K V

/-- Sequencing: a failure aborts what follows. -/
def Outcome.andThen {σ K V α β : Type} (o : Outcome σ K V α)
    (f : α → DBTesting σ K V → Outcome σ K V β) : Outcome σ K V β :=
  match o.res with
  | .error e => ⟨.error e, o.st⟩
  | .ok a => f a o.st

/-- Whether the call ran to completion. -/
def Outcome.completed {σ K V α : Type} (o : Outcome σ K V α) : Bool :=
  match o.res with
  | .error _ => false
  | .ok _ => true

/-! ## Methods of `DBTesting` -/

section Methods

variable {σ K V : Type}

/-- Runs the hook if one is configured, `func (t *DBTesting) post()`. -/
def DBTesting.post (env : Env σ K V) (t : DBTesting σ K V) : Outcome σ K V Unit :=
  match env.PostFn with
  | none => ⟨.ok (), t⟩
  | some fn =>
    match (fn t).failure with
    | some msg =>
      ⟨.error ⟨FailureKind.HookFailure, msg⟩, { t with DB := (fn t).DB, Rand := (fn t).Rand }⟩
    | none => ⟨.ok (), { t with DB := (fn t).DB, Rand := (fn t).Rand }⟩

/-- Shifts the record and stores the new action, `func (t *DBTesting) setAct(act, key)`. -/
def DBTesting.setAct (t : DBTesting σ K V) (act : DBAct) (key : K) : DBTesting σ K V :=
  { t with LastAct := t.Act, Act := act, LastActKey := t.ActKey, ActKey := key }

/-- Diagnostic text of the record, `func (t *DBTesting) text() string`. -/
def DBTesting.text (env : Env σ K V) (t : DBTesting σ K V) : String :=
  "last action was <" ++ t.LastAct.String ++ "> " ++ env.quote t.LastActKey ++
    ", <" ++ t.Act.String ++ "> " ++ env.quote t.ActKey

/-- Diagnostic text with its heading, `func (t *DBTesting) Text() string`. -/
def DBTesting.Text (env : Env σ K V) (t : DBTesting σ K V) : String :=
  "DBTesting " ++ DBTesting.text env t

/-- The check `Expect(..).Should(..)`: passes, or aborts with the given description, which
is the text the assertion library has rendered from the description arguments. -/
def Expect (passes : Bool) (kind : FailureKind) (description : String)
    (t : DBTesting σ K V) : Outcome σ K V Unit :=
  if passes then ⟨.ok (), t⟩ else ⟨.error ⟨kind, description⟩, t⟩

/-- The call `t.DB.Get(key)`: response, and the state with the store advanced and the call logged. -/
def DBTesting.dbGet (env : Env σ K V) (t : DBTesting σ K V) (key : K) :
    (V × Option DBError) × DBTesting σ K V :=
  ((env.DB.Get t.DB key).1,
    { t with DB := (env.DB.Get t.DB key).2,
             Calls := t.Calls ++ [Call.Get key (env.DB.Get t.DB key).1.1 (env.DB.Get t.DB key).1.2] })

/-- The call `t.DB.Put(key, value)`. -/
def DBTesting.dbPut (env : Env σ K V) (t : DBTesting σ K V) (key : K) (value : V) :
    Option DBError × DBTesting σ K V :=
  ((env.DB.Put t.DB key value).1,
    { t with DB := (env.DB.Put t.DB key value).2,
             Calls := t.Calls ++ [Call.Put key value (env.DB.Put t.DB key value).1] })

/-- The call `t.DB.Delete(key)`. -/
def DBTesting.dbDelete (env : Env σ K V) (t : DBTesting σ K V) (key : K) :
    Option DBError × DBTesting σ K V :=
  ((env.DB.Delete t.DB key).1,
    { t with DB := (env.DB.Delete t.DB key).2,
             Calls := t.Calls ++ [Call.Delete key (env.DB.Delete t.DB key).1] })

/-- Present-key check, `func (t *DBTesting) TestPresentKV(key, value []byte)`. -/
def DBTesting.TestPresentKV [DecidableEq V] (env : Env σ K V) (t : DBTesting σ K V)
    (key : K) (value : V) : Outcome σ K V Unit :=
  (Expect (DBTesting.dbGet env t key).1.2.isNone FailureKind.ReadError
      ("Get on key " ++ env.quote key ++ ", " ++ DBTesting.text env (DBTesting.dbGet env t key).2)
      (DBTesting.dbGet env t key).2).andThen fun _ t1 =>
  Expect (decide ((DBTesting.dbGet env t key).1.1 = value)) FailureKind.ValueMismatch
      ("Value for key " ++ env.quote key ++ ", " ++ DBTesting.text env t1) t1

/-- Deleted-key check, `func (t *DBTesting) TestDeletedKey(key []byte)`. -/
def DBTesting.TestDeletedKey (env : Env σ K V) (t : DBTesting σ K V) (key : K) :
    Outcome σ K V Unit :=
  Expect (decide ((DBTesting.dbGet env t key).1.2 = some DBError.ErrNotFound)) FailureKind.NotFoundMismatch
      ("Get on deleted key " ++ env.quote key ++ ", " ++ DBTesting.text env (DBTesting.dbGet env t key).2)
      (DBTesting.dbGet env t key).2

/-- Shadow and store update for a write, `func (t *DBTesting) Put(key, value []byte)`.
The write check is given `t.Text()` as its only description argument, which the assertion
library takes for a format string: the description is `fmt.Sprintf(t.Text())`. -/
def DBTesting.Put [LinearOrder K] [DecidableEq V] (env : Env σ K V) (t : DBTesting σ K V)
    (key : K) (value : V) : Outcome σ K V Unit :=
  let t1 : DBTesting σ K V := { t with Present := (t.Present.PutU key value).1 }
  let t2 := if (t.Present.PutU key value).2 then t1.setAct DBAct.DBPut key
            else t1.setAct DBAct.DBOverwrite key
  let t3 : DBTesting σ K V := { t2 with Deleted := (t2.Deleted.Delete key).1 }
  (Expect (DBTesting.dbPut env t3 key value).1.isNone FailureKind.WriteError
      (env.Sprintf (DBTesting.Text env (DBTesting.dbPut env t3 key value).2))
      (DBTesting.dbPut env t3 key value).2).andThen fun _ t4 =>
  (DBTesting.TestPresentKV env t4 key value).andThen fun _ t5 =>
  DBTesting.post env t5

/-- Re-insertion of a random deleted entry, `func (t *DBTesting) PutRandom() bool`. -/
def DBTesting.PutRandom [LinearOrder K] [DecidableEq V] (env : Env σ K V)
    (t : DBTesting σ K V) : Outcome σ K V Bool :=
  if t.Deleted.Len > 0 then
    match t.Rand with
    | none => ⟨.error ⟨FailureKind.NilRand, "nil pointer dereference"⟩, t⟩
    | some r =>
      match r.Intn t.Deleted.Len with
      | none => ⟨.error ⟨FailureKind.IntnBound, "invalid argument to Intn"⟩, t⟩
      | some d =>
        match t.Deleted.Index d.1 with
        | none =>
          ⟨.error ⟨FailureKind.IndexOutOfRange, "index out of range"⟩, { t with Rand := some d.2 }⟩
        | some e =>
          (DBTesting.Put env { t with Rand := some d.2 } e.1 e.2).andThen fun _ t1 =>
          ⟨.ok true, t1⟩
  else ⟨.ok false, t⟩

/-- Shadow and store update for a removal, `func (t *DBTesting) Delete(key []byte)`.
As in `Put`, the description of the write check is `fmt.Sprintf(t.Text())`. -/
def DBTesting.Delete [LinearOrder K] (env : Env σ K V) (t : DBTesting σ K V) (key : K) :
    Outcome σ K V Unit :=
  let t1 : DBTesting σ K V := { t with Present := (t.Present.Delete key).1 }
  let t2 : DBTesting σ K V :=
    match (t.Present.Delete key).2 with
    | some value =>
      { t1.setAct DBAct.DBDelete key with
        Deleted := ((t1.setAct DBAct.DBDelete key).Deleted.PutU key value).1 }
    | none => t1.setAct DBAct.DBDeleteNA key
  (Expect (DBTesting.dbDelete env t2 key).1.isNone FailureKind.WriteError
      (env.Sprintf (DBTesting.Text env (DBTesting.dbDelete env t2 key).2))
      (DBTesting.dbDelete env t2 key).2).andThen fun _ t3 =>
  (DBTesting.TestDeletedKey env t3 key).andThen fun _ t4 =>
  DBTesting.post env t4

/-- Removal of a random present key, `func (t *DBTesting) DeleteRandom() bool`. -/
def DBTesting.DeleteRandom [LinearOrder K] (env : Env σ K V) (t : DBTesting σ K V) :
    Outcome σ K V Bool :=
  if t.Present.Len > 0 then
    match t.Rand with
    | none => ⟨.error ⟨FailureKind.NilRand, "nil pointer dereference"⟩, t⟩
    | some r =>
      match r.Intn t.Present.Len with
      | none => ⟨.error ⟨FailureKind.IntnBound, "invalid argument to Intn"⟩, t⟩
      | some d =>
        match t.Present.KeyAt d.1 with
        | none =>
          ⟨.error ⟨FailureKind.IndexOutOfRange, "index out of range"⟩, { t with Rand := some d.2 }⟩
        | some key =>
          (DBTesting.Delete env { t with Rand := some d.2 } key).andThen fun _ t1 =>
          ⟨.ok true, t1⟩
  else ⟨.ok false, t⟩

/-- The loop of `RandomAct` with `n` iterations left: a coin draw, then `PutRandom` on an
even draw and `DeleteRandom` on an odd one, the returned flag being dropped. -/
def DBTesting.RandomActLoop [LinearOrder K] [DecidableEq V] (env : Env σ K V) :
    Nat → DBTesting σ K V → Outcome σ K V Unit
  | 0, t => ⟨.ok (), t⟩
  | n + 1, t =>
    match t.Rand with
    | none => ⟨.error ⟨FailureKind.NilRand, "nil pointer dereference"⟩, t⟩
    | some r =>
      (if r.Int.1 % 2 = 0 then DBTesting.PutRandom env { t with Rand := some r.Int.2 }
       else DBTesting.DeleteRandom env { t with Rand := some r.Int.2 }).andThen fun _ t1 =>
      DBTesting.RandomActLoop env n t1

/-- Random rounds, `func (t *DBTesting) RandomAct(round int)`: `i` runs from `0` while `i < round`. -/
def DBTesting.RandomAct [LinearOrder K] [DecidableEq V] (env : Env σ K V)
    (t : DBTesting σ K V) (round : Int) : Outcome σ K V Unit :=
  DBTesting.RandomActLoop env round.toNat t

/-- The warm-up loop `for i := ..; i >= 0; i--` of `DoDBTesting`, entered with counter `i`. -/
def warmupLoop [LinearOrder K] [DecidableEq V] (env : Env σ K V) :
    Nat → DBTesting σ K V → Outcome σ K V Unit
  | 0, t => (DBTesting.PutRandom env t).andThen fun _ t1 => ⟨.ok (), t1⟩
  | i + 1, t => (DBTesting.PutRandom env t).andThen fun _ t1 => warmupLoop env i t1

/-- The four literal warm-up calls and the warm-up loop of `DoDBTesting`, after the
random source has been installed. -/
def warmup [LinearOrder K] [DecidableEq V] (env : Env σ K V) (t : DBTesting σ K V) :
    Outcome σ K V Unit :=
  (DBTesting.DeleteRandom env t).andThen fun _ t1 =>
  (DBTesting.PutRandom env t1).andThen fun _ t2 =>
  (DBTesting.DeleteRandom env t2).andThen fun _ t3 =>
  (DBTesting.DeleteRandom env t3).andThen fun _ t4 =>
  warmupLoop env (t4.Deleted.Len / 2) t4

/-- The state after `if t.Rand == nil { t.Rand = NewRand() }`. -/
def installRand (env : Env σ K V) (t : DBTesting σ K V) : DBTesting σ K V :=
  match t.Rand with
  | none => { t with Rand := some env.NewRand }
  | some _ => t

/-- The orchestrator, `func DoDBTesting(t *DBTesting)`. -/
def DoDBTesting [LinearOrder K] [DecidableEq V] (env : Env σ K V) (t : DBTesting σ K V) :
    Outcome σ K V Unit :=
  (warmup env (installRand env t)).andThen fun _ t5 =>
  DBTesting.RandomAct env t5 (((t5.Deleted.Len + t5.Present.Len) * 10 : Nat) : Int)

/-! ## Verification sweeps -/

/-- Modelled from the spec: the index sequence `0, step, 2·step, …` below `n` that
`ShuffledIndex` permutes. -/
def stepIndices (n step : Nat) : List Nat :=
  (List.range n).filter fun i => i % step = 0

/-- Calls `fn` on each index of the list in turn; a failure aborts the remaining calls. -/
def forEachIndex (fn : Nat → DBTesting σ K V → Outcome σ K V Unit) :
    List Nat → DBTesting σ K V → Outcome σ K V Unit
  | [], t => ⟨.ok (), t⟩
  | i :: rest, t => (fn i t).andThen fun _ t1 => forEachIndex fn rest t1

/-- Modelled from the spec: `ShuffledIndex(rng, n, step, fn)` is declared outside `db.go`.
It draws a random permutation of the index sequence from the random source of the
harness and invokes `fn` once per permuted index. -/
def ShuffledIndex (env : Env σ K V) (n step : Nat)
    (fn : Nat → DBTesting σ K V → Outcome σ K V Unit) (t : DBTesting σ K V) :
    Outcome σ K V Unit :=
  forEachIndex fn (env.Shuffle t.Rand (stepIndices n step)).1
    { t with Rand := (env.Shuffle t.Rand (stepIndices n step)).2 }

/-- Modelled from the spec: `IterateShuffled(rng, fn)` of a shadow set visits every
`(index, key, value)` triple in a shuffled order of `[0, Len())`. -/
def KeyValue.IterateShuffled (env : Env σ K V) (kv : KeyValue K V)
    (fn : Nat → K → V → DBTesting σ K V → Outcome σ K V Unit) (t : DBTesting σ K V) :
    Outcome σ K V Unit :=
  ShuffledIndex env kv.Len 1 (fun i t1 =>
    match kv.Index i with
    | none => ⟨.error ⟨FailureKind.IndexOutOfRange, "index out of range"⟩, t1⟩
    | some e => fn i e.1 e.2 t1) t

/-- Sweep over the present entries, `func (t *DBTesting) TestAllPresent()`. -/
def DBTesting.TestAllPresent [DecidableEq V] (env : Env σ K V) (t : DBTesting σ K V) :
    Outcome σ K V Unit :=
  KeyValue.IterateShuffled env t.Present
    (fun _ key value t1 => DBTesting.TestPresentKV env t1 key value) t

/-- Sweep over the deleted entries, `func (t *DBTesting) TestAllDeleted()`. -/
def DBTesting.TestAllDeleted (env : Env σ K V) (t : DBTesting σ K V) : Outcome σ K V Unit :=
  KeyValue.IterateShuffled env t.Deleted
    (fun _ key _ t1 => DBTesting.TestDeletedKey env t1 key) t

/-- The callback of `TestAll` for index `i`, `dn` being `t.Deleted.Len()` at the start. -/
def TestAllVisit [DecidableEq V] (env : Env σ K V) (dn : Nat) (i : Nat)
    (t : DBTesting σ K V) : Outcome σ K V Unit :=
  if i ≥ dn then
    match t.Present.Index (i - dn) with
    | none => ⟨.error ⟨FailureKind.IndexOutOfRange, "index out of range"⟩, t⟩
    | some e => DBTesting.TestPresentKV env t e.1 e.2
  else
    match t.Deleted.KeyAt i with
    | none => ⟨.error ⟨FailureKind.IndexOutOfRange, "index out of range"⟩, t⟩
    | some key => DBTesting.TestDeletedKey env t key

/-- Combined sweep, `func (t *DBTesting) TestAll()`. -/
def DBTesting.TestAll [DecidableEq V] (env : Env σ K V) (t : DBTesting σ K V) :
    Outcome σ K V Unit :=
  ShuffledIndex env (t.Deleted.Len + t.Present.Len) 1 (TestAllVisit env t.Deleted.Len) t

/-! ## Call sequences, reference store -/

/-- A call of one of the mutating entry points of the harness. -/
inductive Op (K V : Type) where
  | Put (key : K) (value : V)
  | Delete (key : K)
  | PutRandom
  | DeleteRandom
  | RandomAct (round : Int)
  | DoDBTesting

/-- Runs one call; a returned flag is dropped. -/
def runOp [LinearOrder K] [DecidableEq V] (env : Env σ K V) (op : Op K V)
    (t : DBTesting σ K V) : Outcome σ K V Unit :=
  match op with
  | .Put key value => DBTesting.Put env t key value
  | .Delete key => DBTesting.Delete env t key
  | .PutRandom => (DBTesting.PutRandom env t).andThen fun _ t1 => ⟨.ok (), t1⟩
  | .DeleteRandom => (DBTesting.DeleteRandom env t).andThen fun _ t1 => ⟨.ok (), t1⟩
  | .RandomAct round => DBTesting.RandomAct env t round
  | .DoDBTesting => DoDBTesting env t

/-- Runs a finite sequence of calls; the first failure aborts the run, and the state
returned is then the one reached at the abort. -/
def runOps [LinearOrder K] [DecidableEq V] (env : Env σ K V) :
    List (Op K V) → DBTesting σ K V → Outcome σ K V Unit
  | [], t => ⟨.ok (), t⟩
  | op :: rest, t => (runOp env op t).andThen fun _ t1 => runOps env rest t1

/-- Present and Deleted share no key. -/
def DBTesting.Disjoint (t : DBTesting σ K V) : Prop :=
  ∀ k, k ∈ t.Present.keys → k ∉ t.Deleted.keys

/-- Position inside a format string: in plain text, or after a `%` in the flags, the
width or the precision of a directive. -/
inductive FormatPhase where
  | plain
  | flags
  | width
  | precision

/-- What `fmt.Sprintf` writes for a directive with verb `c` when no operand is left for
it: a percent sign for `%%`, otherwise the missing-operand marker. -/
def missingOperand (c : Char) : List Char :=
  if c = '%' then [c] else "%!".data ++ c :: "(MISSING)".data

/-- Scan of a format string without operands: plain text is copied, a directive is
replaced by what `missingOperand` gives for its verb, and a directive cut off by the end
of the format by the no-verb marker. -/
def sprintfChars : FormatPhase → List Char → List Char
  | .plain, [] => []
  | _, [] => "%!(NOVERB)".data
  | .plain, c :: rest =>
    if c = '%' then sprintfChars .flags rest else c :: sprintfChars .plain rest
  | .flags, c :: rest =>
    if c = '#' ∨ c = '0' ∨ c = '+' ∨ c = '-' ∨ c = ' ' then sprintfChars .flags rest
    else if c.isDigit then sprintfChars .width rest
    else if c = '.' then sprintfChars .precision rest
    else missingOperand c ++ sprintfChars .plain rest
  | .width, c :: rest =>
    if c.isDigit then sprintfChars .width rest
    else if c = '.' then sprintfChars .precision rest
    else missingOperand c ++ sprintfChars .plain rest
  | .precision, c :: rest =>
    if c.isDigit then sprintfChars .precision rest
    else missingOperand c ++ sprintfChars .plain rest

/-- Rendering `fmt.Sprintf(format)` of a format string without operands, for the sample
harnesses. It covers the directives made of flags, a decimal width, a decimal precision
and a verb; argument indexes `[n]`, the `*` width and numbers above a million are not
covered (their characters are read as verbs or digits). -/
def sprintfNoOperands (format : String) : String :=
  String.mk (sprintfChars .plain format.data)

/-- A store that behaves as a finite map, per the capability contract: `Put` sets, `Delete`
removes and succeeds also for an absent key, `Get` returns the value or not-found
(with the value `nil`). -/
def mapStore [DecidableEq K] (nil : V) : Store (K → Option V) K V where
  Get := fun s key =>
    match s key with
    | some v => ((v, none), s)
    | none => ((nil, some DBError.ErrNotFound), s)
  Put := fun s key value => (none, fun k => if k = key then some value else s k)
  Delete := fun s key => (none, fun k => if k = key then none else s k)

/-- The harness over the map store: no hook, keys rendered by `quote`, identity shuffle. -/
def mapEnv [DecidableEq K] (nil : V) (quote : K → String) : Env (K → Option V) K V where
  DB := mapStore nil
  PostFn := none
  quote := quote
  Sprintf := sprintfNoOperands
  NewRand := ⟨fun _ => 0, 0⟩
  Shuffle := fun r l => (l, r)

/-- A fresh harness state over the empty map store: both shadow sets empty, no action yet. -/
def emptyState (rnd : Option RandSrc) (nil : K) : DBTesting (K → Option V) K V where
  Rand := rnd
  DB := fun _ => none
  Calls := []
  Deleted := KeyValue.empty
  Present := KeyValue.empty
  Act := DBAct.DBNone
  LastAct := DBAct.DBNone
  ActKey := nil
  LastActKey := nil

/-- The part of the state that only `Put` and `Delete` write: shadow sets and action record. -/
def DBTesting.shadow (t : DBTesting σ K V) :
    KeyValue K V × KeyValue K V × DBAct × DBAct × K × K :=
  (t.Present, t.Deleted, t.Act, t.LastAct, t.ActKey, t.LastActKey)

/-- The state in which `Put` issues its store call: shadow sets and record updated. -/
def DBTesting.putShadow [LinearOrder K] (t : DBTesting σ K V) (key : K) (value : V) :
    DBTesting σ K V :=
  { Rand := t.Rand, DB := t.DB, Calls := t.Calls,
    Deleted := (t.Deleted.Delete key).1,
    Present := (t.Present.PutU key value).1,
    Act := if (t.Present.PutU key value).2 then DBAct.DBPut else DBAct.DBOverwrite,
    LastAct := t.Act, ActKey := key, LastActKey := t.ActKey }

/-- The state in which `Delete` issues its store call: shadow sets and record updated. -/
def DBTesting.deleteShadow [LinearOrder K] (t : DBTesting σ K V) (key : K) : DBTesting σ K V :=
  { Rand := t.Rand, DB := t.DB, Calls := t.Calls,
    Deleted := match (t.Present.Delete key).2 with
      | some value => (t.Deleted.PutU key value).1
      | none => t.Deleted,
    Present := (t.Present.Delete key).1,
    Act := match (t.Present.Delete key).2 with
      | some _ => DBAct.DBDelete
      | none => DBAct.DBDeleteNA,
    LastAct := t.Act, ActKey := key, LastActKey := t.ActKey }

/-- The store call that a passing `TestAll` callback issues for index `i`: below
`Deleted.Len()` the deleted-key check of the key at position `i` of `Deleted`, answered
not-found; from there on the present-key check of the entry at position
`i - Deleted.Len()` of `Present`, answered with its value and no error. -/
def VisitCall (deleted present : KeyValue K V) (i : Nat) (c : Call K V) : Prop :=
  if i < deleted.Len then
    ∃ key rvalue, deleted.KeyAt i = some key ∧
      c = Call.Get key rvalue (some DBError.ErrNotFound)
  else
    ∃ e, present.Index (i - deleted.Len) = some e ∧ c = Call.Get e.1 e.2 none

/-- Repeats a step `n` times; a failure aborts the remaining repetitions. -/
def repeatStep (step : DBTesting σ K V → Outcome σ K V Unit) :
    Nat → DBTesting σ K V → Outcome σ K V Unit
  | 0, t => ⟨.ok (), t⟩
  | n + 1, t => (step t).andThen fun _ t1 => repeatStep step n t1

/-- One round of `RandomAct` in the spec's words: one coin draw from the random source,
then an attempt of `PutRandom` on an even draw and of `DeleteRandom` on an odd one. -/
def coinRound [LinearOrder K] [DecidableEq V] (env : Env σ K V) (t : DBTesting σ K V) :
    Outcome σ K V Unit :=
  match t.Rand with
  | none => ⟨.error ⟨FailureKind.NilRand, "nil pointer dereference"⟩, t⟩
  | some r =>
    if r.draws r.pos % 2 = 0 then
      runOp env Op.PutRandom { t with Rand := some { r with pos := r.pos + 1 } }
    else
      runOp env Op.DeleteRandom { t with Rand := some { r with pos := r.pos + 1 } }

/-- The orchestrator in the spec's words: install the random source if absent, then
`DeleteRandom`, `PutRandom`, `DeleteRandom`, `DeleteRandom`, then `PutRandom` repeated
`floor(|Deleted| / 2) + 1` times, then `(|Deleted| + |Present|) * 10` random rounds. -/
def RunModelTest [LinearOrder K] [DecidableEq V] (env : Env σ K V) (t : DBTesting σ K V) :
    Outcome σ K V Unit :=
  (runOps env [Op.DeleteRandom, Op.PutRandom, Op.DeleteRandom, Op.DeleteRandom]
    (installRand env t)).andThen fun _ t4 =>
  (repeatStep (runOp env Op.PutRandom) (t4.Deleted.Len / 2 + 1) t4).andThen fun _ t5 =>
  repeatStep (coinRound env) ((t5.Deleted.Len + t5.Present.Len) * 10) t5

/-- The check that `TestAll` makes at index `i` passes, `g` giving the store's answer to
`Get` for each key: below `Deleted.Len()` the key at position `i` of `Deleted` is answered
not-found; from there on the entry at position `i - Deleted.Len()` of `Present` is
answered with its value and no error. -/
def VisitPasses (g : K → V × Option DBError) (deleted present : KeyValue K V) (i : Nat) :
    Prop :=
  if i < deleted.Len then
    ∃ key, deleted.KeyAt i = some key ∧ (g key).2 = some DBError.ErrNotFound
  else
    ∃ e, present.Index (i - deleted.Len) = some e ∧ g e.1 = (e.2, none)

/-- The store matches the shadow exactly, `g` giving the store's answer to `Get` for each
key: every present entry is answered with its value and no error, every deleted key is
answered not-found. -/
def ShadowMatches (g : K → V × Option DBError) (deleted present : KeyValue K V) : Prop :=
  (∀ e ∈ present.entries, g e.1 = (e.2, none)) ∧
    ∀ k ∈ deleted.keys, (g k).2 = some DBError.ErrNotFound

/-- `Act` is the given one, or one of the two classifications random actions produce. -/
def ActFrom (a : DBAct) (s : DBTesting σ K V) : Prop :=
  s.Act = a ∨ s.Act = DBAct.DBPut ∨ s.Act = DBAct.DBDelete

/-- The combined key-to-value mapping `Present ∪ Deleted`: the value a key has in
`Present`, else the one it has in `Deleted`. -/
def DBTesting.Universe [LinearOrder K] (t : DBTesting σ K V) (k : K) : Option V :=
  match t.Present.Lookup k with
  | some v => some v
  | none => t.Deleted.Lookup k

/-- The state `s` holds the same combined mapping as `t`, in as many entries. -/
def Conserved [LinearOrder K] (t s : DBTesting σ K V) : Prop :=
  (∀ k, s.Universe k = t.Universe k) ∧
    s.Present.Len + s.Deleted.Len = t.Present.Len + t.Deleted.Len

/-- The state `t'` differs from `t` at most in the action record: same random source,
store, call history and shadow sets. -/
def SameButRecord (t t' : DBTesting σ K V) : Prop :=
  t'.Rand = t.Rand ∧ t'.DB = t.DB ∧ t'.Calls = t.Calls ∧ t'.Deleted = t.Deleted ∧
    t'.Present = t.Present

/-- Two results agree up to the diagnostic text: the same value returned, or failures of
the same kind. -/
def SameRes {α : Type} : Except Failure α → Except Failure α → Prop
  | .ok a, .ok b => a = b
  | .error f, .error g => f.kind = g.kind
  | _, _ => False

/-- Two outcomes agree up to the action record and the diagnostic text. -/
def SameOutcome {α : Type} (o o' : Outcome σ K V α) : Prop :=
  SameButRecord o.st o'.st ∧ SameRes o.res o'.res

/-- The store behaves as a finite map, `view` reading the mapping off a store state:
`Get` leaves the mapping alone and returns the stored value with no error, or the
not-found error for an absent key; `Put` succeeds and sets the key; `Delete` succeeds,
also for an absent key, and removes the key. -/
def BehavesAsMap (db : Store σ K V) (view : σ → K → Option V) : Prop :=
  ∀ s key,
    (view (db.Get s key).2 = view s ∧
      (∀ v, view s key = some v → (db.Get s key).1 = (v, none)) ∧
      (view s key = none → (db.Get s key).1.2 = some DBError.ErrNotFound)) ∧
    (∀ value, (db.Put s key value).1 = none ∧
      view (db.Put s key value).2 key = some value ∧
      ∀ k, k ≠ key → view (db.Put s key value).2 k = view s k) ∧
    ((db.Delete s key).1 = none ∧ view (db.Delete s key).2 key = none ∧
      ∀ k, k ≠ key → view (db.Delete s key).2 k = view s k)

/-- The store agrees with the shadow: every `(k, v)` of `Present` is stored as `v`, and no
key of `Deleted` is stored. -/
def Agrees [LinearOrder K] (view : σ → K → Option V) (t : DBTesting σ K V) : Prop :=
  (∀ k v, t.Present.Lookup k = some v → view t.DB k = some v) ∧
    ∀ k ∈ t.Deleted.keys, view t.DB k = none

/-- The hook, if any, keeps to itself: it reports no failure, leaves the mapping held by
the store as it is, and does not remove the random source. -/
def QuietHook (env : Env σ K V) (view : σ → K → Option V) : Prop :=
  ∀ fn, env.PostFn = some fn →
    ∀ t, (fn t).failure = none ∧ view (fn t).DB = view t.DB ∧
      ((fn t).Rand = none → t.Rand = none)

/-- The harness state is sound against a map store: shadow sets well-formed, store in
agreement with the shadow, random source installed. -/
def Sound [LinearOrder K] (view : σ → K → Option V) (t : DBTesting σ K V) : Prop :=
  t.Present.WF ∧ t.Deleted.WF ∧ Agrees view t ∧ t.Rand ≠ none

/-- The harness state is consistent with a map store: shadow sets well-formed, store in
agreement with the shadow. -/
def Consistent [LinearOrder K] (view : σ → K → Option V) (t : DBTesting σ K V) : Prop :=
  t.Present.WF ∧ t.Deleted.WF ∧ Agrees view t

/-- The run was aborted, if at all, by the use of a nil random source, which is still nil
in the state reached. -/
def AbortsOnlyOnNilRand {α : Type} (o : Outcome σ K V α) : Prop :=
  ∀ f, o.res = .error f → f.kind = FailureKind.NilRand ∧ o.st.Rand = none

/-- The call sequence installs the random source before it needs one: the calls that
precede its first `DoDBTesting`, or all its calls if it has none, are `Put` and `Delete`
calls. -/
def installsRandFirst : List (Op K V) → Bool
  | [] => true
  | Op.Put _ _ :: rest => installsRandFirst rest
  | Op.Delete _ :: rest => installsRandFirst rest
  | Op.DoDBTesting :: _ => true
  | Op.PutRandom :: _ => false
  | Op.DeleteRandom :: _ => false
  | Op.RandomAct _ :: _ => false

/-- The invariant of the shadow sets: both well-formed, and no key in both. -/
def DBTesting.Inv [LinearOrder K] (t : DBTesting σ K V) : Prop :=
  t.Present.WF ∧ t.Deleted.WF ∧ t.Disjoint

/-- Rendering of a byte key for the diagnostics of the sample harness: the characters of
the key between double quotes, which is what `%q` gives for a key of printable ASCII
characters other than the double quote and the backslash. -/
def quoteBytes (key : Bytes) : String :=
  "\"" ++ String.mk (key.map Char.ofNat) ++ "\""

/-- The sample harness over byte keys and values, backed by the map store. -/
def demoEnv : Env (Bytes → Option Bytes) Bytes Bytes := mapEnv [] quoteBytes

/-- A store whose `Delete` always reports an error and whose `Get` finds nothing. -/
def failingDeleteStore : Store Unit Bytes Bytes where
  Get := fun s _ => (([], some DBError.ErrNotFound), s)
  Put := fun s _ _ => (none, s)
  Delete := fun s _ => (some (DBError.other 1), s)

/-- The sample harness over the store whose `Delete` fails. -/
def failingDeleteEnv : Env Unit Bytes Bytes where
  DB := failingDeleteStore
  PostFn := none
  quote := quoteBytes
  Sprintf := sprintfNoOperands
  NewRand := ⟨fun _ => 0, 0⟩
  Shuffle := fun r l => (l, r)

/-- A fresh harness state over the store whose `Delete` fails. -/
def failingDeleteState : DBTesting Unit Bytes Bytes where
  Rand := none
  DB := ()
  Calls := []
  Deleted := KeyValue.empty
  Present := KeyValue.empty
  Act := DBAct.DBNone
  LastAct := DBAct.DBNone
  ActKey := []
  LastActKey := []

/-- The sample harness with a shuffle that reverses the index sequence. -/
def reversingEnv : Env (Bytes → Option Bytes) Bytes Bytes :=
  { demoEnv with Shuffle := fun r l => (l.reverse, r) }

/-- The fresh sample state: empty shadow sets, empty map store, no random source yet. -/
def demoEmpty : DBTesting (Bytes → Option Bytes) Bytes Bytes := emptyState none []

/-- A populated sample state: key `a` present with value `1`, key `b` deleted (last value
`2`), the map store in agreement, and a random source drawing 0, 1, 2, … -/
def demoState : DBTesting (Bytes → Option Bytes) Bytes Bytes where
  Rand := some ⟨fun n => n, 0⟩
  DB := fun k => if k = [97] then some [49] else none
  Calls := []
  Deleted := ⟨[([98], [50])]⟩
  Present := ⟨[([97], [49])]⟩
  Act := DBAct.DBDelete
  LastAct := DBAct.DBPut
  ActKey := [98]
  LastActKey := [97]

/-- The populated sample state with another action record. -/
def demoStateRelabelled : DBTesting (Bytes → Option Bytes) Bytes Bytes :=
  { demoState with
    Act := DBAct.DBNone, LastAct := DBAct.DBOverwrite, ActKey := [1], LastActKey := [2] }

/-- A sample start on an empty store: nothing present, two candidate keys `a`, `b` in
`Deleted`, the map store empty, and a random source drawing 0, 1, 2, … -/
def demoTwoCandidates : DBTesting (Bytes → Option Bytes) Bytes Bytes where
  Rand := some ⟨fun n => n, 0⟩
  DB := fun _ => none
  Calls := []
  Deleted := ⟨[([97], [49]), ([98], [50])]⟩
  Present := KeyValue.empty
  Act := DBAct.DBNone
  LastAct := DBAct.DBNone
  ActKey := []
  LastActKey := []

/-- A sample start on an empty store without a random source: one candidate key `a` in
`Deleted`, nothing present. -/
def demoOneCandidate : DBTesting (Bytes → Option Bytes) Bytes Bytes where
  Rand := none
  DB := fun _ => none
  Calls := []
  Deleted := ⟨[([97], [49])]⟩
  Present := KeyValue.empty
  Act := DBAct.DBNone
  LastAct := DBAct.DBNone
  ActKey := []
  LastActKey := []

/-- A sample start on an empty store with three candidate keys `a`, `b`, `c` in `Deleted`. -/
def demoThreeCandidates : DBTesting (Bytes → Option Bytes) Bytes Bytes where
  Rand := none
  DB := fun _ => none
  Calls := []
  Deleted := ⟨[([97], [49]), ([98], [50]), ([99], [51])]⟩
  Present := KeyValue.empty
  Act := DBAct.DBNone
  LastAct := DBAct.DBNone
  ActKey := []
  LastActKey := []

end Methods

/-! ## Lemmas on key-ordered entry lists -/

section EntryLemmas
variable {K V : Type} [LinearOrder K]

theorem lookupEntry_insertEntry (key : K) (value : V) (k : K) (l : List (K × V)) :
    lookupEntry k (insertEntry key value l).1 = if k = key then some value else lookupEntry k l := by
  induction l with
  | nil => simp [insertEntry, lookupEntry, eq_comm]
  | cons e rest ih =>
    simp only [insertEntry]
    split_ifs with h1 h2 h3 h4 h5
    all_goals simp_all [lookupEntry, eq_comm]

theorem lookupEntry_eq_none_iff (k : K) (l : List (K × V)) :
    lookupEntry k l = none ↔ k ∉ l.map Prod.fst := by
  induction l with
  | nil => simp [lookupEntry]
  | cons e rest ih =>
    by_cases h : e.1 = k
    · simp [lookupEntry, h]
    · have h' : ¬ k = e.1 := fun hh => h hh.symm
      simp [lookupEntry, h, h', ih]

theorem mem_keys_insertEntry (key : K) (value : V) (k : K) (l : List (K × V)) :
    k ∈ (insertEntry key value l).1.map Prod.fst ↔ k = key ∨ k ∈ l.map Prod.fst := by
  induction l with
  | nil => simp [insertEntry]
  | cons e rest ih =>
    simp only [insertEntry]
    split_ifs with h1 h2
    · simp
    · simp [h2]
    · simp only [List.map_cons, List.mem_cons, ih]
      tauto

theorem insertEntry_new_iff (key : K) (value : V) (l : List (K × V))
    (hl : (l.map Prod.fst).Pairwise (fun a b => a < b)) :
    (insertEntry key value l).2 = true ↔ key ∉ l.map Prod.fst := by
  induction l with
  | nil => simp [insertEntry]
  | cons e rest ih =>
    simp only [List.map_cons, List.pairwise_cons] at hl
    simp only [insertEntry]
    split_ifs with h1 h2
    · simp only [List.map_cons, List.mem_cons, not_or, true_iff]
      refine ⟨ne_of_lt h1, fun hm => ?_⟩
      exact lt_asymm h1 (hl.1 _ hm)
    · simp [h2]
    · simp only [ih hl.2, List.map_cons, List.mem_cons, not_or]
      tauto

theorem pairwise_keys_insertEntry (key : K) (value : V) (l : List (K × V))
    (hl : (l.map Prod.fst).Pairwise (fun a b => a < b)) :
    ((insertEntry key value l).1.map Prod.fst).Pairwise (fun a b => a < b) := by
  induction l with
  | nil => simp [insertEntry]
  | cons e rest ih =>
    have hl' := hl
    simp only [List.map_cons, List.pairwise_cons] at hl
    simp only [insertEntry]
    split_ifs with h1 h2
    · simp only [List.map_cons, List.pairwise_cons]
      refine ⟨?_, hl⟩
      intro a ha
      rcases List.mem_cons.1 ha with rfl | ha
      · exact h1
      · exact lt_trans h1 (hl.1 a ha)
    · simpa [h2] using hl
    · simp only [List.map_cons, List.pairwise_cons]
      refine ⟨?_, ih hl.2⟩
      intro a ha
      rcases (mem_keys_insertEntry key value a rest).1 ha with rfl | ha
      · exact lt_of_le_of_ne (not_lt.1 h1) (Ne.symm h2)
      · exact hl.1 a ha

theorem deleteEntry_sublist (key : K) (l : List (K × V)) :
    (deleteEntry key l).1.Sublist l := by
  induction l with
  | nil => simp [deleteEntry]
  | cons e rest ih =>
    simp only [deleteEntry]
    split_ifs with h1 h2
    · exact List.Sublist.refl _
    · exact List.sublist_cons_self _ _
    · exact ih.cons₂ _

theorem pairwise_keys_deleteEntry (key : K) (l : List (K × V))
    (hl : (l.map Prod.fst).Pairwise (fun a b => a < b)) :
    ((deleteEntry key l).1.map Prod.fst).Pairwise (fun a b => a < b) :=
  hl.sublist ((deleteEntry_sublist key l).map _)

theorem deleteEntry_of_not_mem (key : K) (l : List (K × V)) (h : key ∉ l.map Prod.fst) :
    deleteEntry key l = (l, none) := by
  induction l with
  | nil => simp [deleteEntry]
  | cons e rest ih =>
    simp only [List.map_cons, List.mem_cons, not_or] at h
    simp only [deleteEntry]
    split_ifs with h1 h2
    · rfl
    · exact absurd h2 h.1
    · rw [ih h.2]

theorem deleteEntry_value (key : K) (l : List (K × V))
    (hl : (l.map Prod.fst).Pairwise (fun a b => a < b)) :
    (deleteEntry key l).2 = lookupEntry key l := by
  induction l with
  | nil => simp [deleteEntry, lookupEntry]
  | cons e rest ih =>
    simp only [List.map_cons, List.pairwise_cons] at hl
    simp only [deleteEntry, lookupEntry]
    split_ifs with h1 h2 h3 h4 h5
    · exact absurd h1 (by simp [h2])
    · symm
      rw [lookupEntry_eq_none_iff]
      intro hm
      exact lt_asymm h1 (hl.1 _ hm)
    · rfl
    · exact absurd h3.symm h4
    · exact absurd h5.symm h3
    · exact ih hl.2

theorem mem_keys_deleteEntry (key : K) (k : K) (l : List (K × V))
    (hl : (l.map Prod.fst).Pairwise (fun a b => a < b)) :
    k ∈ (deleteEntry key l).1.map Prod.fst ↔ k ≠ key ∧ k ∈ l.map Prod.fst := by
  induction l with
  | nil => simp [deleteEntry]
  | cons e rest ih =>
    have hl' := hl
    simp only [List.map_cons, List.pairwise_cons] at hl
    simp only [deleteEntry]
    split_ifs with h1 h2
    · simp only [List.map_cons, List.mem_cons, iff_and_self]
      rintro (rfl | hm)
      · exact ne_of_gt h1
      · exact ne_of_gt (lt_trans h1 (hl.1 _ hm))
    · subst h2
      simp only [List.map_cons, List.mem_cons]
      constructor
      · intro hm
        exact ⟨ne_of_gt (hl.1 _ hm), Or.inr hm⟩
      · rintro ⟨hne, rfl | hm⟩
        · exact absurd rfl hne
        · exact hm
    · simp only [List.map_cons, List.mem_cons, ih hl.2]
      constructor
      · rintro (rfl | ⟨hne, hm⟩)
        · exact ⟨fun h => h2 h.symm, Or.inl rfl⟩
        · exact ⟨hne, Or.inr hm⟩
      · rintro ⟨hne, rfl | hm⟩
        · exact Or.inl rfl
        · exact Or.inr ⟨hne, hm⟩

theorem lookupEntry_deleteEntry (key : K) (k : K) (l : List (K × V))
    (hl : (l.map Prod.fst).Pairwise (fun a b => a < b)) :
    lookupEntry k (deleteEntry key l).1 = if k = key then none else lookupEntry k l := by
  induction l with
  | nil => simp [deleteEntry, lookupEntry]
  | cons e rest ih =>
    have hl' := hl
    simp only [List.map_cons, List.pairwise_cons] at hl
    by_cases hk : k = key
    · subst hk
      rw [if_pos rfl, lookupEntry_eq_none_iff, mem_keys_deleteEntry _ _ _ hl']
      simp
    · rw [if_neg hk]
      simp only [deleteEntry]
      split_ifs with h1 h2
      · rfl
      · have : ¬ e.1 = k := fun h => hk (h.symm.trans h2.symm)
        simp [lookupEntry, this]
      · simp only [lookupEntry, ih hl.2, if_neg hk]

end EntryLemmas

/-! ## Frame lemmas: what the checks and the hook leave untouched -/

section FrameLemmas
variable {σ K V : Type}

theorem Expect_st (b : Bool) (kind : FailureKind) (d : String) (t : DBTesting σ K V) :
    (Expect b kind d t).st = t := by
  unfold Expect; split <;> rfl

theorem Expect_completed (b : Bool) (kind : FailureKind) (d : String) (t : DBTesting σ K V) :
    (Expect b kind d t).completed = b := by
  unfold Expect; cases b <;> rfl

theorem andThen_completed {α β : Type} (o : Outcome σ K V α)
    (f : α → DBTesting σ K V → Outcome σ K V β) :
    (o.andThen f).completed = true ↔
      ∃ a, o.res = .ok a ∧ (f a o.st).completed = true := by
  unfold Outcome.andThen
  cases h : o.res with
  | error e => simp [Outcome.completed]
  | ok a => simp

theorem andThen_shadow {α β : Type} (o : Outcome σ K V α)
    (f : α → DBTesting σ K V → Outcome σ K V β)
    (hf : ∀ a t, (f a t).st.shadow = t.shadow) :
    (o.andThen f).st.shadow = o.st.shadow := by
  unfold Outcome.andThen
  cases h : o.res with
  | error e => rfl
  | ok a => exact hf a o.st

theorem post_shadow (env : Env σ K V) (t : DBTesting σ K V) :
    (DBTesting.post env t).st.shadow = t.shadow := by
  unfold DBTesting.post
  split
  · rfl
  · split <;> rfl

theorem post_Calls (env : Env σ K V) (t : DBTesting σ K V) :
    (DBTesting.post env t).st.Calls = t.Calls := by
  unfold DBTesting.post
  split
  · rfl
  · split <;> rfl

theorem TestPresentKV_shadow [DecidableEq V] (env : Env σ K V) (t : DBTesting σ K V)
    (key : K) (value : V) : (DBTesting.TestPresentKV env t key value).st.shadow = t.shadow := by
  unfold DBTesting.TestPresentKV
  rw [andThen_shadow _ _ (fun _ t1 => by rw [Expect_st]), Expect_st]
  rfl

theorem TestDeletedKey_shadow (env : Env σ K V) (t : DBTesting σ K V) (key : K) :
    (DBTesting.TestDeletedKey env t key).st.shadow = t.shadow := by
  unfold DBTesting.TestDeletedKey
  rw [Expect_st]
  rfl

end FrameLemmas

/-! ## What the checks, `Put` and `Delete` do to state and history -/

section MethodLemmas
variable {σ K V : Type}

theorem TestPresentKV_Calls [DecidableEq V] (env : Env σ K V) (t : DBTesting σ K V)
    (key : K) (value : V) :
    (DBTesting.TestPresentKV env t key value).st.Calls =
      t.Calls ++ [Call.Get key (env.DB.Get t.DB key).1.1 (env.DB.Get t.DB key).1.2] := by
  unfold DBTesting.TestPresentKV Outcome.andThen
  split
  · rw [Expect_st]; rfl
  · simp only [Expect_st]; rfl

theorem TestPresentKV_completed [DecidableEq V] (env : Env σ K V) (t : DBTesting σ K V)
    (key : K) (value : V) :
    (DBTesting.TestPresentKV env t key value).completed = true ↔
      (env.DB.Get t.DB key).1 = (value, none) := by
  unfold DBTesting.TestPresentKV
  rw [andThen_completed]
  simp only [Expect_completed, Expect_st, DBTesting.dbGet]
  constructor
  · rintro ⟨_, h1, h2⟩
    have h3 : (Expect (env.DB.Get t.DB key).1.2.isNone FailureKind.ReadError
        ("Get on key " ++ env.quote key ++ ", " ++ DBTesting.text env (DBTesting.dbGet env t key).2)
        (DBTesting.dbGet env t key).2).completed = true := by
      simp only [Outcome.completed, DBTesting.dbGet, h1]
    rw [Expect_completed] at h3
    rw [Option.isNone_iff_eq_none] at h3
    rw [decide_eq_true_eq] at h2
    exact Prod.ext h2 h3
  · intro h
    refine ⟨(), ?_, ?_⟩
    · simp [Expect, h]
    · simp [h]

theorem TestDeletedKey_Calls (env : Env σ K V) (t : DBTesting σ K V) (key : K) :
    (DBTesting.TestDeletedKey env t key).st.Calls =
      t.Calls ++ [Call.Get key (env.DB.Get t.DB key).1.1 (env.DB.Get t.DB key).1.2] := by
  unfold DBTesting.TestDeletedKey
  rw [Expect_st]; rfl

theorem TestDeletedKey_completed (env : Env σ K V) (t : DBTesting σ K V) (key : K) :
    (DBTesting.TestDeletedKey env t key).completed = true ↔
      (env.DB.Get t.DB key).1.2 = some DBError.ErrNotFound := by
  unfold DBTesting.TestDeletedKey
  rw [Expect_completed, decide_eq_true_eq]
  rfl

theorem Put_shadow [LinearOrder K] [DecidableEq V] (env : Env σ K V) (t : DBTesting σ K V)
    (key : K) (value : V) :
    (DBTesting.Put env t key value).st.shadow =
      ((t.Present.PutU key value).1, (t.Deleted.Delete key).1,
        (if (t.Present.PutU key value).2 then DBAct.DBPut else DBAct.DBOverwrite),
        t.Act, key, t.ActKey) := by
  unfold DBTesting.Put
  simp only
  rw [andThen_shadow, Expect_st]
  · split <;> rfl
  · intro _ t4
    rw [andThen_shadow, TestPresentKV_shadow]
    intro _ t5
    exact post_shadow env t5

theorem Delete_shadow [LinearOrder K] (env : Env σ K V) (t : DBTesting σ K V) (key : K) :
    (DBTesting.Delete env t key).st.shadow =
      match (t.Present.Delete key).2 with
      | some value => ((t.Present.Delete key).1, (t.Deleted.PutU key value).1,
          DBAct.DBDelete, t.Act, key, t.ActKey)
      | none => ((t.Present.Delete key).1, t.Deleted, DBAct.DBDeleteNA, t.Act, key, t.ActKey) := by
  unfold DBTesting.Delete
  simp only
  rw [andThen_shadow, Expect_st]
  · split <;> rfl
  · intro _ t3
    rw [andThen_shadow, TestDeletedKey_shadow]
    intro _ t4
    exact post_shadow env t4

end MethodLemmas

/-! ## Preservation of the shadow-set invariant -/

section InvariantLemmas
variable {σ K V : Type}

theorem Put_Present [LinearOrder K] [DecidableEq V] (env : Env σ K V) (t : DBTesting σ K V)
    (key : K) (value : V) :
    (DBTesting.Put env t key value).st.Present = (t.Present.PutU key value).1 :=
  congrArg (fun s => s.1) (Put_shadow env t key value)

theorem Put_Deleted [LinearOrder K] [DecidableEq V] (env : Env σ K V) (t : DBTesting σ K V)
    (key : K) (value : V) :
    (DBTesting.Put env t key value).st.Deleted = (t.Deleted.Delete key).1 :=
  congrArg (fun s => s.2.1) (Put_shadow env t key value)

theorem Delete_Present [LinearOrder K] (env : Env σ K V) (t : DBTesting σ K V) (key : K) :
    (DBTesting.Delete env t key).st.Present = (t.Present.Delete key).1 := by
  have h := congrArg (fun s => s.1) (Delete_shadow env t key)
  refine Eq.trans h ?_
  split <;> rfl

theorem Delete_Deleted [LinearOrder K] (env : Env σ K V) (t : DBTesting σ K V) (key : K) :
    (DBTesting.Delete env t key).st.Deleted =
      match (t.Present.Delete key).2 with
      | some value => (t.Deleted.PutU key value).1
      | none => t.Deleted := by
  have h := congrArg (fun s => s.2.1) (Delete_shadow env t key)
  refine Eq.trans h ?_
  split <;> rfl

theorem Inv_of_shadow [LinearOrder K] {t t' : DBTesting σ K V}
    (hP : t'.Present = t.Present) (hD : t'.Deleted = t.Deleted) (h : t.Inv) : t'.Inv := by
  unfold DBTesting.Inv DBTesting.Disjoint at *
  rw [hP, hD]
  exact h

theorem Put_Inv [LinearOrder K] [DecidableEq V] (env : Env σ K V) (t : DBTesting σ K V)
    (key : K) (value : V) (h : t.Inv) : (DBTesting.Put env t key value).st.Inv := by
  obtain ⟨hP, hD, hdis⟩ := h
  unfold DBTesting.Inv DBTesting.Disjoint
  rw [Put_Present, Put_Deleted]
  refine ⟨pairwise_keys_insertEntry key value _ hP, pairwise_keys_deleteEntry key _ hD, ?_⟩
  intro k hk hk'
  have h1 := (mem_keys_insertEntry key value k t.Present.entries).1 hk
  have h2 := (mem_keys_deleteEntry key k t.Deleted.entries hD).1 hk'
  rcases h1 with h1 | h1
  · exact h2.1 h1
  · exact hdis k h1 h2.2

theorem Delete_Inv [LinearOrder K] (env : Env σ K V) (t : DBTesting σ K V)
    (key : K) (h : t.Inv) : (DBTesting.Delete env t key).st.Inv := by
  obtain ⟨hP, hD, hdis⟩ := h
  unfold DBTesting.Inv DBTesting.Disjoint
  rw [Delete_Present, Delete_Deleted]
  refine ⟨pairwise_keys_deleteEntry key _ hP, ?_, ?_⟩
  · split
    · exact pairwise_keys_insertEntry key _ _ hD
    · exact hD
  · intro k hk hk'
    have h1 := (mem_keys_deleteEntry key k t.Present.entries hP).1 hk
    split at hk'
    · rcases (mem_keys_insertEntry key _ k t.Deleted.entries).1 hk' with h2 | h2
      · exact h1.1 h2
      · exact hdis k h1.2 h2
    · exact hdis k h1.2 hk'

theorem PutRandom_Inv [LinearOrder K] [DecidableEq V] (env : Env σ K V) (t : DBTesting σ K V)
    (h : t.Inv) : (DBTesting.PutRandom env t).st.Inv := by
  unfold DBTesting.PutRandom
  split
  · split
    · exact h
    · split
      · exact h
      · split
        · exact Inv_of_shadow rfl rfl h
        · unfold Outcome.andThen
          split
          · exact Put_Inv env _ _ _ (Inv_of_shadow rfl rfl h)
          · exact Put_Inv env _ _ _ (Inv_of_shadow rfl rfl h)
  · exact h

theorem DeleteRandom_Inv [LinearOrder K] (env : Env σ K V) (t : DBTesting σ K V)
    (h : t.Inv) : (DBTesting.DeleteRandom env t).st.Inv := by
  unfold DBTesting.DeleteRandom
  split
  · split
    · exact h
    · split
      · exact h
      · split
        · exact Inv_of_shadow rfl rfl h
        · unfold Outcome.andThen
          split
          · exact Delete_Inv env _ _ (Inv_of_shadow rfl rfl h)
          · exact Delete_Inv env _ _ (Inv_of_shadow rfl rfl h)
  · exact h

theorem andThen_Inv [LinearOrder K] {α β : Type} (o : Outcome σ K V α)
    (f : α → DBTesting σ K V → Outcome σ K V β) (ho : o.st.Inv)
    (hf : ∀ a t, t.Inv → (f a t).st.Inv) : (o.andThen f).st.Inv := by
  unfold Outcome.andThen
  split
  · exact ho
  · exact hf _ _ ho

theorem RandomActLoop_Inv [LinearOrder K] [DecidableEq V] (env : Env σ K V) (n : Nat)
    (t : DBTesting σ K V) (h : t.Inv) : (DBTesting.RandomActLoop env n t).st.Inv := by
  induction n generalizing t with
  | zero => exact h
  | succ n ih =>
    unfold DBTesting.RandomActLoop
    split
    · exact h
    · apply andThen_Inv
      · split
        · exact PutRandom_Inv env _ (Inv_of_shadow rfl rfl h)
        · exact DeleteRandom_Inv env _ (Inv_of_shadow rfl rfl h)
      · intro _ t1 h1
        exact ih t1 h1

theorem warmupLoop_Inv [LinearOrder K] [DecidableEq V] (env : Env σ K V) (i : Nat)
    (t : DBTesting σ K V) (h : t.Inv) : (warmupLoop env i t).st.Inv := by
  induction i generalizing t with
  | zero =>
    unfold warmupLoop
    exact andThen_Inv _ _ (PutRandom_Inv env t h) (fun _ _ h1 => h1)
  | succ i ih =>
    unfold warmupLoop
    exact andThen_Inv _ _ (PutRandom_Inv env t h) (fun _ t1 h1 => ih t1 h1)

theorem warmup_Inv [LinearOrder K] [DecidableEq V] (env : Env σ K V)
    (t : DBTesting σ K V) (h : t.Inv) : (warmup env t).st.Inv := by
  unfold warmup
  refine andThen_Inv _ _ (DeleteRandom_Inv env t h) (fun _ t1 h1 => ?_)
  refine andThen_Inv _ _ (PutRandom_Inv env t1 h1) (fun _ t2 h2 => ?_)
  refine andThen_Inv _ _ (DeleteRandom_Inv env t2 h2) (fun _ t3 h3 => ?_)
  refine andThen_Inv _ _ (DeleteRandom_Inv env t3 h3) (fun _ t4 h4 => ?_)
  exact warmupLoop_Inv env _ t4 h4

theorem installRand_Inv [LinearOrder K] (env : Env σ K V) (t : DBTesting σ K V) (h : t.Inv) :
    (installRand env t).Inv := by
  unfold installRand
  split
  · exact Inv_of_shadow rfl rfl h
  · exact h

theorem DoDBTesting_Inv [LinearOrder K] [DecidableEq V] (env : Env σ K V)
    (t : DBTesting σ K V) (h : t.Inv) : (DoDBTesting env t).st.Inv := by
  unfold DoDBTesting
  refine andThen_Inv _ _ (warmup_Inv env _ (installRand_Inv env t h)) (fun _ t5 h5 => ?_)
  exact RandomActLoop_Inv env _ t5 h5

theorem runOp_Inv [LinearOrder K] [DecidableEq V] (env : Env σ K V) (op : Op K V)
    (t : DBTesting σ K V) (h : t.Inv) : (runOp env op t).st.Inv := by
  cases op with
  | Put key value => exact Put_Inv env t key value h
  | Delete key => exact Delete_Inv env t key h
  | PutRandom => exact andThen_Inv _ _ (PutRandom_Inv env t h) (fun _ _ h1 => h1)
  | DeleteRandom => exact andThen_Inv _ _ (DeleteRandom_Inv env t h) (fun _ _ h1 => h1)
  | RandomAct round => exact RandomActLoop_Inv env _ t h
  | DoDBTesting => exact DoDBTesting_Inv env t h

theorem runOps_Inv [LinearOrder K] [DecidableEq V] (env : Env σ K V) (ops : List (Op K V))
    (t : DBTesting σ K V) (h : t.Inv) : (runOps env ops t).st.Inv := by
  induction ops generalizing t with
  | nil => exact h
  | cons op rest ih =>
    unfold runOps
    exact andThen_Inv _ _ (runOp_Inv env op t h) (fun _ t1 h1 => ih t1 h1)

end InvariantLemmas

/-! ## Store calls issued by `Put` and `Delete` -/

section CallLemmas
variable {σ K V : Type}

theorem Put_unfold [LinearOrder K] [DecidableEq V] (env : Env σ K V) (t : DBTesting σ K V)
    (key : K) (value : V) :
    DBTesting.Put env t key value =
      (Expect (DBTesting.dbPut env (t.putShadow key value) key value).1.isNone
        FailureKind.WriteError
        (env.Sprintf (DBTesting.Text env (DBTesting.dbPut env (t.putShadow key value) key value).2))
        (DBTesting.dbPut env (t.putShadow key value) key value).2).andThen fun _ t4 =>
      (DBTesting.TestPresentKV env t4 key value).andThen fun _ t5 =>
      DBTesting.post env t5 := by
  unfold DBTesting.Put DBTesting.putShadow
  cases (t.Present.PutU key value).2 <;> rfl

theorem Delete_unfold [LinearOrder K] (env : Env σ K V) (t : DBTesting σ K V) (key : K) :
    DBTesting.Delete env t key =
      (Expect (DBTesting.dbDelete env (t.deleteShadow key) key).1.isNone
        FailureKind.WriteError
        (env.Sprintf (DBTesting.Text env (DBTesting.dbDelete env (t.deleteShadow key) key).2))
        (DBTesting.dbDelete env (t.deleteShadow key) key).2).andThen fun _ t3 =>
      (DBTesting.TestDeletedKey env t3 key).andThen fun _ t4 =>
      DBTesting.post env t4 := by
  unfold DBTesting.Delete DBTesting.deleteShadow
  cases (t.Present.Delete key).2 <;> rfl

theorem andThen_eq_of_ok {α β : Type} (o : Outcome σ K V α)
    (f : α → DBTesting σ K V → Outcome σ K V β) (a : α) (h : o.res = .ok a) :
    o.andThen f = f a o.st := by
  unfold Outcome.andThen
  rw [h]

theorem andThen_eq_of_error {α β : Type} (o : Outcome σ K V α)
    (f : α → DBTesting σ K V → Outcome σ K V β) (e : Failure) (h : o.res = .error e) :
    o.andThen f = ⟨.error e, o.st⟩ := by
  unfold Outcome.andThen
  rw [h]

theorem completed_iff_ok (o : Outcome σ K V Unit) : o.completed = true ↔ o.res = .ok () := by
  unfold Outcome.completed
  cases o.res with
  | error e => simp
  | ok a => simp

theorem andThen_post_Calls (env : Env σ K V) (o : Outcome σ K V Unit) :
    (o.andThen fun _ t4 => DBTesting.post env t4).st.Calls = o.st.Calls := by
  unfold Outcome.andThen
  split
  · rfl
  · exact post_Calls env _

/-- The store calls issued by `Put`, whatever the outcome: the write, then the read-back
unless the write reported an error. -/
theorem Put_Calls [LinearOrder K] [DecidableEq V] (env : Env σ K V) (t : DBTesting σ K V)
    (key : K) (value : V) :
    (DBTesting.Put env t key value).st.Calls =
      t.Calls ++ Call.Put key value (env.DB.Put t.DB key value).1 ::
        (if (env.DB.Put t.DB key value).1 = none then
          [Call.Get key (env.DB.Get (env.DB.Put t.DB key value).2 key).1.1
            (env.DB.Get (env.DB.Put t.DB key value).2 key).1.2]
         else []) := by
  rw [Put_unfold]
  have h0 : (DBTesting.dbPut env (t.putShadow key value) key value).1 =
      (env.DB.Put t.DB key value).1 := rfl
  cases hd : (env.DB.Put t.DB key value).1 with
  | some e =>
    rw [andThen_eq_of_error _ _ ⟨FailureKind.WriteError, _⟩ (by rw [h0, hd]; rfl)]
    simp only [Expect_st, DBTesting.dbPut, DBTesting.putShadow, hd]
    simp
  | none =>
    rw [andThen_eq_of_ok _ _ () (by rw [h0, hd]; rfl)]
    rw [andThen_post_Calls, TestPresentKV_Calls, Expect_st]
    simp only [DBTesting.dbPut, DBTesting.putShadow, hd]
    simp

/-- The store calls issued by `Delete`, whatever the outcome: the delete, then the
read-back unless the delete reported an error. -/
theorem Delete_Calls [LinearOrder K] (env : Env σ K V) (t : DBTesting σ K V) (key : K) :
    (DBTesting.Delete env t key).st.Calls =
      t.Calls ++ Call.Delete key (env.DB.Delete t.DB key).1 ::
        (if (env.DB.Delete t.DB key).1 = none then
          [Call.Get key (env.DB.Get (env.DB.Delete t.DB key).2 key).1.1
            (env.DB.Get (env.DB.Delete t.DB key).2 key).1.2]
         else []) := by
  rw [Delete_unfold]
  have h0 : (DBTesting.dbDelete env (t.deleteShadow key) key).1 =
      (env.DB.Delete t.DB key).1 := rfl
  cases hd : (env.DB.Delete t.DB key).1 with
  | some e =>
    rw [andThen_eq_of_error _ _ ⟨FailureKind.WriteError, _⟩ (by rw [h0, hd]; rfl)]
    simp only [Expect_st, DBTesting.dbDelete, DBTesting.deleteShadow, hd]
    simp
  | none =>
    rw [andThen_eq_of_ok _ _ () (by rw [h0, hd]; rfl)]
    rw [andThen_post_Calls, TestDeletedKey_Calls, Expect_st]
    simp only [DBTesting.dbDelete, DBTesting.deleteShadow, hd]
    simp

/-- A completed `Put` saw the write succeed and read the written value back. -/
theorem Put_completed_imp [LinearOrder K] [DecidableEq V] (env : Env σ K V)
    (t : DBTesting σ K V) (key : K) (value : V)
    (hc : (DBTesting.Put env t key value).completed = true) :
    (env.DB.Put t.DB key value).1 = none ∧
      (env.DB.Get (env.DB.Put t.DB key value).2 key).1 = (value, none) := by
  rw [Put_unfold, andThen_completed] at hc
  obtain ⟨a, h1, hc⟩ := hc
  rw [andThen_completed] at hc
  obtain ⟨b, h2, _⟩ := hc
  have h3 := (TestPresentKV_completed env _ key value).1 ((completed_iff_ok _).2 h2)
  have h4 := (completed_iff_ok _).2 h1
  rw [Expect_completed, Option.isNone_iff_eq_none] at h4
  rw [Expect_st] at h3
  exact ⟨h4, h3⟩

/-- A completed `Delete` saw the delete succeed and the read-back report not-found. -/
theorem Delete_completed_imp [LinearOrder K] (env : Env σ K V) (t : DBTesting σ K V) (key : K)
    (hc : (DBTesting.Delete env t key).completed = true) :
    (env.DB.Delete t.DB key).1 = none ∧
      (env.DB.Get (env.DB.Delete t.DB key).2 key).1.2 = some DBError.ErrNotFound := by
  rw [Delete_unfold, andThen_completed] at hc
  obtain ⟨a, h1, hc⟩ := hc
  rw [andThen_completed] at hc
  obtain ⟨b, h2, _⟩ := hc
  have h3 := (TestDeletedKey_completed env _ key).1 ((completed_iff_ok _).2 h2)
  have h4 := (completed_iff_ok _).2 h1
  rw [Expect_completed, Option.isNone_iff_eq_none] at h4
  rw [Expect_st] at h3
  exact ⟨h4, h3⟩

end CallLemmas

/-! ## The claims -/

section Claims
variable {σ K V : Type}

theorem Delete_shadow_absent [LinearOrder K] (env : Env σ K V) (t : DBTesting σ K V) (key : K)
    (h : key ∉ t.Present.keys) :
    (DBTesting.Delete env t key).st.shadow =
      (t.Present, t.Deleted, DBAct.DBDeleteNA, t.Act, key, t.ActKey) := by
  rw [Delete_shadow]
  have h1 : t.Present.Delete key = (t.Present, none) := by
    unfold KeyValue.Delete
    rw [deleteEntry_of_not_mem key _ h]
  rw [h1]

theorem Delete_shadow_present [LinearOrder K] (env : Env σ K V) (t : DBTesting σ K V) (key : K)
    (v : V) (hP : t.Present.WF) (hv : t.Present.Lookup key = some v) :
    (DBTesting.Delete env t key).st.shadow =
      ((t.Present.Delete key).1, (t.Deleted.PutU key v).1, DBAct.DBDelete, t.Act, key,
        t.ActKey) := by
  rw [Delete_shadow]
  have h1 : (t.Present.Delete key).2 = some v := by
    unfold KeyValue.Delete
    simp only
    rw [deleteEntry_value key _ hP]
    exact hv
  rw [h1]

/-- C1. Disjointness invariant: from a state whose shadow sets are well-formed and share
no key, after every finite sequence of `Put`, `Delete`, `PutRandom`, `DeleteRandom`,
`RandomAct` and `DoDBTesting` calls, with any keys, values, random draws and store
responses, and also in the state reached when a call aborts, no key is in both `Present`
and `Deleted`. -/
theorem C1_disjointness_invariant [LinearOrder K] [DecidableEq V] (env : Env σ K V)
    (t : DBTesting σ K V) (hP : t.Present.WF) (hD : t.Deleted.WF) (hdisj : t.Disjoint)
    (ops : List (Op K V)) : (runOps env ops t).st.Disjoint :=
  (runOps_Inv env ops t ⟨hP, hD, hdisj⟩).2.2

theorem C1_disjointness_invariant_witness :
    demoState.Present.WF ∧ demoState.Deleted.WF ∧ demoState.Disjoint ∧
      (runOps demoEnv [Op.Put [98] [51], Op.Delete [97], Op.PutRandom, Op.DoDBTesting]
        demoState).st.Disjoint :=
  have hP : demoState.Present.WF := by unfold KeyValue.WF; decide
  have hD : demoState.Deleted.WF := by unfold KeyValue.WF; decide
  have hdisj : demoState.Disjoint := by unfold DBTesting.Disjoint; decide
  ⟨hP, hD, hdisj, C1_disjointness_invariant demoEnv demoState hP hD hdisj _⟩

/-- C2. Put postcondition: if `Put(k, v)` completes without a failure, then the store's
`Put(k, v)` was invoked and returned no error, the store's `Get(k)` issued right after it
returned exactly `v` with no error, `Present` maps `k` to `v`, and `k` is not in `Deleted`. -/
theorem C2_put_postcondition [LinearOrder K] [DecidableEq V] (env : Env σ K V)
    (t : DBTesting σ K V) (key : K) (value : V) (hD : t.Deleted.WF)
    (hc : (DBTesting.Put env t key value).completed = true) :
    (DBTesting.Put env t key value).st.Calls =
        t.Calls ++ [Call.Put key value none, Call.Get key value none] ∧
      (DBTesting.Put env t key value).st.Present.Lookup key = some value ∧
      key ∉ (DBTesting.Put env t key value).st.Deleted.keys := by
  obtain ⟨h1, h2⟩ := Put_completed_imp env t key value hc
  refine ⟨?_, ?_, ?_⟩
  · rw [Put_Calls, h1, if_pos rfl, h2]
  · rw [Put_Present]
    unfold KeyValue.Lookup KeyValue.PutU
    rw [lookupEntry_insertEntry, if_pos rfl]
  · rw [Put_Deleted]
    intro hm
    exact ((mem_keys_deleteEntry key key t.Deleted.entries hD).1 hm).1 rfl

theorem C2_put_postcondition_witness :
    demoState.Deleted.WF ∧ (DBTesting.Put demoEnv demoState [98] [51]).completed = true ∧
      ((DBTesting.Put demoEnv demoState [98] [51]).st.Calls =
          demoState.Calls ++ [Call.Put [98] [51] none, Call.Get [98] [51] none] ∧
        (DBTesting.Put demoEnv demoState [98] [51]).st.Present.Lookup [98] = some [51] ∧
        [98] ∉ (DBTesting.Put demoEnv demoState [98] [51]).st.Deleted.keys) :=
  have hD : demoState.Deleted.WF := by unfold KeyValue.WF; decide
  have hc : (DBTesting.Put demoEnv demoState [98] [51]).completed = true := by decide
  ⟨hD, hc, C2_put_postcondition demoEnv demoState [98] [51] hD hc⟩

/-- C3. Delete postcondition for a present key: if `Present` maps `k` to `v` and
`Delete(k)` completes without a failure, then `k` is no longer in `Present`, `Deleted`
maps `k` to that same `v`, the store's `Delete(k)` was invoked and returned no error, and
the store's `Get(k)` issued right after it reported exactly the not-found error. -/
theorem C3_delete_postcondition [LinearOrder K] (env : Env σ K V) (t : DBTesting σ K V)
    (key : K) (v : V) (hP : t.Present.WF) (hv : t.Present.Lookup key = some v)
    (hc : (DBTesting.Delete env t key).completed = true) :
    key ∉ (DBTesting.Delete env t key).st.Present.keys ∧
      (DBTesting.Delete env t key).st.Deleted.Lookup key = some v ∧
      ∃ rvalue, (DBTesting.Delete env t key).st.Calls =
        t.Calls ++ [Call.Delete key none, Call.Get key rvalue (some DBError.ErrNotFound)] := by
  obtain ⟨h1, h2⟩ := Delete_completed_imp env t key hc
  have hs := Delete_shadow_present env t key v hP hv
  refine ⟨?_, ?_, ?_⟩
  · have h3 : (DBTesting.Delete env t key).st.Present = (t.Present.Delete key).1 :=
      congrArg (fun s => s.1) hs
    rw [h3]
    intro hm
    exact ((mem_keys_deleteEntry key key t.Present.entries hP).1 hm).1 rfl
  · have h3 : (DBTesting.Delete env t key).st.Deleted = (t.Deleted.PutU key v).1 :=
      congrArg (fun s => s.2.1) hs
    rw [h3]
    unfold KeyValue.Lookup KeyValue.PutU
    rw [lookupEntry_insertEntry, if_pos rfl]
  · refine ⟨(env.DB.Get (env.DB.Delete t.DB key).2 key).1.1, ?_⟩
    rw [Delete_Calls, h1, if_pos rfl, h2]

theorem C3_delete_postcondition_witness :
    demoState.Present.WF ∧ demoState.Present.Lookup [97] = some [49] ∧
      (DBTesting.Delete demoEnv demoState [97]).completed = true ∧
      ([97] ∉ (DBTesting.Delete demoEnv demoState [97]).st.Present.keys ∧
        (DBTesting.Delete demoEnv demoState [97]).st.Deleted.Lookup [97] = some [49] ∧
        ∃ rvalue, (DBTesting.Delete demoEnv demoState [97]).st.Calls =
          demoState.Calls ++
            [Call.Delete [97] none, Call.Get [97] rvalue (some DBError.ErrNotFound)]) :=
  have hP : demoState.Present.WF := by unfold KeyValue.WF; decide
  have hv : demoState.Present.Lookup [97] = some [49] := by decide
  have hc : (DBTesting.Delete demoEnv demoState [97]).completed = true := by decide
  ⟨hP, hv, hc, C3_delete_postcondition demoEnv demoState [97] [49] hP hv hc⟩

/-- C4, as stated, fails: over a store whose `Delete` reports an error, `Delete(k)` of a
key not in `Present` aborts on the write check, and the store's `Get(k)` check is never
issued: the only store call is the delete. -/
theorem C4_delete_absent_counterexample :
    [97] ∉ failingDeleteState.Present.keys ∧
      (DBTesting.Delete failingDeleteEnv failingDeleteState [97]).st.Calls =
        [Call.Delete [97] (some (DBError.other 1))] ∧
      (DBTesting.Delete failingDeleteEnv failingDeleteState [97]).completed = false := by
  decide

/-- C4, amended. Delete of an absent key: for every key `k` not in `Present`, `Delete(k)`
invokes the store's `Delete(k)`, and then the store's `Get(k)` check exactly when that
delete returned no error; it classifies the action as `DBDeleteNA` and leaves both
`Present` and `Deleted` as they were, whether or not `k` is in `Deleted` and whether or
not the call completes. -/
theorem C4_delete_absent [LinearOrder K] (env : Env σ K V) (t : DBTesting σ K V) (key : K)
    (h : key ∉ t.Present.keys) :
    (DBTesting.Delete env t key).st.Calls =
        t.Calls ++ Call.Delete key (env.DB.Delete t.DB key).1 ::
          (if (env.DB.Delete t.DB key).1 = none then
            [Call.Get key (env.DB.Get (env.DB.Delete t.DB key).2 key).1.1
              (env.DB.Get (env.DB.Delete t.DB key).2 key).1.2]
           else []) ∧
      (DBTesting.Delete env t key).st.Act = DBAct.DBDeleteNA ∧
      (DBTesting.Delete env t key).st.Present = t.Present ∧
      (DBTesting.Delete env t key).st.Deleted = t.Deleted := by
  have hs := Delete_shadow_absent env t key h
  exact ⟨Delete_Calls env t key, congrArg (fun s => s.2.2.1) hs, congrArg (fun s => s.1) hs,
    congrArg (fun s => s.2.1) hs⟩

theorem C4_delete_absent_witness :
    [98] ∉ demoState.Present.keys ∧
      ((DBTesting.Delete demoEnv demoState [98]).st.Calls =
        demoState.Calls ++ Call.Delete [98] (demoEnv.DB.Delete demoState.DB [98]).1 ::
          (if (demoEnv.DB.Delete demoState.DB [98]).1 = none then
            [Call.Get [98] (demoEnv.DB.Get (demoEnv.DB.Delete demoState.DB [98]).2 [98]).1.1
              (demoEnv.DB.Get (demoEnv.DB.Delete demoState.DB [98]).2 [98]).1.2]
           else []) ∧
      (DBTesting.Delete demoEnv demoState [98]).st.Act = DBAct.DBDeleteNA ∧
      (DBTesting.Delete demoEnv demoState [98]).st.Present = demoState.Present ∧
      (DBTesting.Delete demoEnv demoState [98]).st.Deleted = demoState.Deleted) :=
  have h : [98] ∉ demoState.Present.keys := by decide
  ⟨h, C4_delete_absent demoEnv demoState [98] h⟩

/-- C5. Idempotence of deleting an absent key: for every key `k` not in `Present`, when
`Delete(k)` is called twice in a row and both calls complete, both are classified
`DBDeleteNA`, so that afterwards `Act = LastAct = DBDeleteNA` and `ActKey = LastActKey = k`,
and `Present` and `Deleted` after the second call equal those before the first. -/
theorem C5_delete_absent_twice [LinearOrder K] [DecidableEq V] (env : Env σ K V)
    (t : DBTesting σ K V) (key : K) (h : key ∉ t.Present.keys)
    (hc : (runOps env [Op.Delete key, Op.Delete key] t).completed = true) :
    (DBTesting.Delete env t key).st.Act = DBAct.DBDeleteNA ∧
      (runOps env [Op.Delete key, Op.Delete key] t).st.Act = DBAct.DBDeleteNA ∧
      (runOps env [Op.Delete key, Op.Delete key] t).st.LastAct = DBAct.DBDeleteNA ∧
      (runOps env [Op.Delete key, Op.Delete key] t).st.ActKey = key ∧
      (runOps env [Op.Delete key, Op.Delete key] t).st.LastActKey = key ∧
      (runOps env [Op.Delete key, Op.Delete key] t).st.Present = t.Present ∧
      (runOps env [Op.Delete key, Op.Delete key] t).st.Deleted = t.Deleted := by
  have hs1 := Delete_shadow_absent env t key h
  have hP1 : (DBTesting.Delete env t key).st.Present = t.Present := congrArg (fun s => s.1) hs1
  have hD1 : (DBTesting.Delete env t key).st.Deleted = t.Deleted :=
    congrArg (fun s => s.2.1) hs1
  have hA1 : (DBTesting.Delete env t key).st.Act = DBAct.DBDeleteNA :=
    congrArg (fun s => s.2.2.1) hs1
  have hK1 : (DBTesting.Delete env t key).st.ActKey = key := congrArg (fun s => s.2.2.2.2.1) hs1
  have h' : key ∉ (DBTesting.Delete env t key).st.Present.keys := by rw [hP1]; exact h
  have hs2 := Delete_shadow_absent env (DBTesting.Delete env t key).st key h'
  have hrun : runOps env [Op.Delete key, Op.Delete key] t =
      (DBTesting.Delete env t key).andThen fun _ t1 =>
        (DBTesting.Delete env t1 key).andThen fun _ t2 => ⟨.ok (), t2⟩ := rfl
  rw [hrun] at hc ⊢
  rw [andThen_completed] at hc
  obtain ⟨a, h1, hc⟩ := hc
  rw [andThen_completed] at hc
  obtain ⟨b, h2, _⟩ := hc
  rw [andThen_eq_of_ok _ _ a h1, andThen_eq_of_ok _ _ b h2]
  refine ⟨hA1, congrArg (fun s => s.2.2.1) hs2, ?_, congrArg (fun s => s.2.2.2.2.1) hs2, ?_,
    ?_, ?_⟩
  · exact (congrArg (fun s => s.2.2.2.1) hs2).trans hA1
  · exact (congrArg (fun s => s.2.2.2.2.2) hs2).trans hK1
  · exact (congrArg (fun s => s.1) hs2).trans hP1
  · exact (congrArg (fun s => s.2.1) hs2).trans hD1

theorem C5_delete_absent_twice_witness :
    [98] ∉ demoState.Present.keys ∧
      (runOps demoEnv [Op.Delete [98], Op.Delete [98]] demoState).completed = true ∧
      ((DBTesting.Delete demoEnv demoState [98]).st.Act = DBAct.DBDeleteNA ∧
      (runOps demoEnv [Op.Delete [98], Op.Delete [98]] demoState).st.Act = DBAct.DBDeleteNA ∧
      (runOps demoEnv [Op.Delete [98], Op.Delete [98]] demoState).st.LastAct =
        DBAct.DBDeleteNA ∧
      (runOps demoEnv [Op.Delete [98], Op.Delete [98]] demoState).st.ActKey = [98] ∧
      (runOps demoEnv [Op.Delete [98], Op.Delete [98]] demoState).st.LastActKey = [98] ∧
      (runOps demoEnv [Op.Delete [98], Op.Delete [98]] demoState).st.Present =
        demoState.Present ∧
      (runOps demoEnv [Op.Delete [98], Op.Delete [98]] demoState).st.Deleted =
        demoState.Deleted) :=
  have h : [98] ∉ demoState.Present.keys := by decide
  have hc : (runOps demoEnv [Op.Delete [98], Op.Delete [98]] demoState).completed = true := by
    decide
  ⟨h, hc, C5_delete_absent_twice demoEnv demoState [98] h hc⟩

/-- C6. Concrete scenario over the empty map store with empty shadow sets, `a`, `1`, `2`
being the bytes 97, 49, 50: `Put(a,1)` is classified `DBPut` and gives `Present = {a:1}`,
`Deleted = {}`; then `Put(a,2)` is classified `DBOverwrite` with `Present = {a:2}`; then
`Delete(a)` is classified `DBDelete` with `Present = {}`, `Deleted = {a:2}`, and the
store's `Get(a)` reports not found; a further `Delete(a)` is classified `DBDeleteNA` and
leaves both shadow sets unchanged; no step fails. -/
theorem C6_concrete_scenario :
    (DBTesting.Put demoEnv demoEmpty [97] [49]).completed = true ∧
    (DBTesting.Put demoEnv demoEmpty [97] [49]).st.Act = DBAct.DBPut ∧
    (DBTesting.Put demoEnv demoEmpty [97] [49]).st.Present = ⟨[([97], [49])]⟩ ∧
    (DBTesting.Put demoEnv demoEmpty [97] [49]).st.Deleted = ⟨[]⟩ ∧
    (runOps demoEnv [Op.Put [97] [49], Op.Put [97] [50]] demoEmpty).completed = true ∧
    (runOps demoEnv [Op.Put [97] [49], Op.Put [97] [50]] demoEmpty).st.Act =
      DBAct.DBOverwrite ∧
    (runOps demoEnv [Op.Put [97] [49], Op.Put [97] [50]] demoEmpty).st.Present =
      ⟨[([97], [50])]⟩ ∧
    (runOps demoEnv [Op.Put [97] [49], Op.Put [97] [50], Op.Delete [97]]
      demoEmpty).completed = true ∧
    (runOps demoEnv [Op.Put [97] [49], Op.Put [97] [50], Op.Delete [97]] demoEmpty).st.Act =
      DBAct.DBDelete ∧
    (runOps demoEnv [Op.Put [97] [49], Op.Put [97] [50], Op.Delete [97]]
      demoEmpty).st.Present = ⟨[]⟩ ∧
    (runOps demoEnv [Op.Put [97] [49], Op.Put [97] [50], Op.Delete [97]]
      demoEmpty).st.Deleted = ⟨[([97], [50])]⟩ ∧
    (demoEnv.DB.Get (runOps demoEnv [Op.Put [97] [49], Op.Put [97] [50], Op.Delete [97]]
      demoEmpty).st.DB [97]).1.2 = some DBError.ErrNotFound ∧
    (runOps demoEnv [Op.Put [97] [49], Op.Put [97] [50], Op.Delete [97], Op.Delete [97]]
      demoEmpty).completed = true ∧
    (runOps demoEnv [Op.Put [97] [49], Op.Put [97] [50], Op.Delete [97], Op.Delete [97]]
      demoEmpty).st.Act = DBAct.DBDeleteNA ∧
    (runOps demoEnv [Op.Put [97] [49], Op.Put [97] [50], Op.Delete [97], Op.Delete [97]]
      demoEmpty).st.Present = ⟨[]⟩ ∧
    (runOps demoEnv [Op.Put [97] [49], Op.Put [97] [50], Op.Delete [97], Op.Delete [97]]
      demoEmpty).st.Deleted = ⟨[([97], [50])]⟩ ∧
    (runOps demoEnv [Op.Put [97] [49], Op.Put [97] [50], Op.Delete [97], Op.Delete [97]]
      demoEmpty).st.Calls =
      [Call.Put [97] [49] none, Call.Get [97] [49] none,
       Call.Put [97] [50] none, Call.Get [97] [50] none,
       Call.Delete [97] none, Call.Get [97] [] (some DBError.ErrNotFound),
       Call.Delete [97] none, Call.Get [97] [] (some DBError.ErrNotFound)] := by
  decide

theorem Put_Act_iff [LinearOrder K] [DecidableEq V] (env : Env σ K V) (t : DBTesting σ K V)
    (key : K) (value : V) (hP : t.Present.WF) :
    (DBTesting.Put env t key value).st.Act =
      if key ∈ t.Present.keys then DBAct.DBOverwrite else DBAct.DBPut := by
  have h := congrArg (fun s => s.2.2.1) (Put_shadow env t key value)
  refine h.trans ?_
  have hn := insertEntry_new_iff key value t.Present.entries hP
  unfold KeyValue.PutU
  simp only
  by_cases hm : key ∈ t.Present.keys
  · rw [if_pos hm]
    have : (insertEntry key value t.Present.entries).2 = false := by
      cases hb : (insertEntry key value t.Present.entries).2
      · rfl
      · exact absurd hm (hn.1 hb)
    rw [this]; rfl
  · rw [if_neg hm, hn.2 hm]; rfl

theorem Delete_Act_iff [LinearOrder K] (env : Env σ K V) (t : DBTesting σ K V)
    (key : K) (hP : t.Present.WF) :
    (DBTesting.Delete env t key).st.Act =
      if key ∈ t.Present.keys then DBAct.DBDelete else DBAct.DBDeleteNA := by
  by_cases hm : key ∈ t.Present.keys
  · rw [if_pos hm]
    cases hv : t.Present.Lookup key with
    | none => exact absurd hm ((lookupEntry_eq_none_iff key t.Present.entries).1 hv)
    | some v => exact congrArg (fun s => s.2.2.1) (Delete_shadow_present env t key v hP hv)
  · rw [if_neg hm]
    exact congrArg (fun s => s.2.2.1) (Delete_shadow_absent env t key hm)

theorem Delete_record [LinearOrder K] (env : Env σ K V) (t : DBTesting σ K V) (key : K) :
    (DBTesting.Delete env t key).st.ActKey = key ∧
      (DBTesting.Delete env t key).st.LastAct = t.Act ∧
      (DBTesting.Delete env t key).st.LastActKey = t.ActKey := by
  have h := Delete_shadow env t key
  refine ⟨(congrArg (fun s => s.2.2.2.2.1) h).trans ?_,
    (congrArg (fun s => s.2.2.2.1) h).trans ?_, (congrArg (fun s => s.2.2.2.2.2) h).trans ?_⟩
  all_goals split <;> rfl

/-- C7. Action record update: `Put(k, v)` sets `Act` to `DBPut` iff `k` was not in `Present`
before the call and to `DBOverwrite` otherwise; `Delete(k)` sets `Act` to `DBDelete` iff `k`
was in `Present` before the call and to `DBDeleteNA` otherwise; in both cases `ActKey`
becomes `k`, and `LastAct` and `LastActKey` become the values `Act` and `ActKey` had before
the call. -/
theorem C7_action_record [LinearOrder K] [DecidableEq V] (env : Env σ K V)
    (t : DBTesting σ K V) (key : K) (value : V) (hP : t.Present.WF) :
    (((DBTesting.Put env t key value).st.Act = DBAct.DBPut ↔ key ∉ t.Present.keys) ∧
      ((DBTesting.Put env t key value).st.Act = DBAct.DBOverwrite ↔ key ∈ t.Present.keys) ∧
      (DBTesting.Put env t key value).st.ActKey = key ∧
      (DBTesting.Put env t key value).st.LastAct = t.Act ∧
      (DBTesting.Put env t key value).st.LastActKey = t.ActKey) ∧
    (((DBTesting.Delete env t key).st.Act = DBAct.DBDelete ↔ key ∈ t.Present.keys) ∧
      ((DBTesting.Delete env t key).st.Act = DBAct.DBDeleteNA ↔ key ∉ t.Present.keys) ∧
      (DBTesting.Delete env t key).st.ActKey = key ∧
      (DBTesting.Delete env t key).st.LastAct = t.Act ∧
      (DBTesting.Delete env t key).st.LastActKey = t.ActKey) := by
  have hp := Put_shadow env t key value
  have hpa := Put_Act_iff env t key value hP
  have hda := Delete_Act_iff env t key hP
  have hdr := Delete_record env t key
  refine ⟨⟨?_, ?_, congrArg (fun s => s.2.2.2.2.1) hp, congrArg (fun s => s.2.2.2.1) hp,
    congrArg (fun s => s.2.2.2.2.2) hp⟩, ⟨?_, ?_, hdr⟩⟩
  · rw [hpa]; by_cases hm : key ∈ t.Present.keys <;> simp [hm]
  · rw [hpa]; by_cases hm : key ∈ t.Present.keys <;> simp [hm]
  · rw [hda]; by_cases hm : key ∈ t.Present.keys <;> simp [hm]
  · rw [hda]; by_cases hm : key ∈ t.Present.keys <;> simp [hm]

theorem C7_action_record_witness :
    demoState.Present.WF ∧
    ((((DBTesting.Put demoEnv demoState [97] [51]).st.Act = DBAct.DBPut ↔
        [97] ∉ demoState.Present.keys) ∧
      ((DBTesting.Put demoEnv demoState [97] [51]).st.Act = DBAct.DBOverwrite ↔
        [97] ∈ demoState.Present.keys) ∧
      (DBTesting.Put demoEnv demoState [97] [51]).st.ActKey = [97] ∧
      (DBTesting.Put demoEnv demoState [97] [51]).st.LastAct = demoState.Act ∧
      (DBTesting.Put demoEnv demoState [97] [51]).st.LastActKey = demoState.ActKey) ∧
    (((DBTesting.Delete demoEnv demoState [97]).st.Act = DBAct.DBDelete ↔
        [97] ∈ demoState.Present.keys) ∧
      ((DBTesting.Delete demoEnv demoState [97]).st.Act = DBAct.DBDeleteNA ↔
        [97] ∉ demoState.Present.keys) ∧
      (DBTesting.Delete demoEnv demoState [97]).st.ActKey = [97] ∧
      (DBTesting.Delete demoEnv demoState [97]).st.LastAct = demoState.Act ∧
      (DBTesting.Delete demoEnv demoState [97]).st.LastActKey = demoState.ActKey)) :=
  have hP : demoState.Present.WF := by unfold KeyValue.WF; decide
  ⟨hP, C7_action_record demoEnv demoState [97] [51] hP⟩

theorem andThen_ok_true_iff (o : Outcome σ K V Unit) (b : Bool) :
    (o.andThen fun _ t1 => (⟨.ok true, t1⟩ : Outcome σ K V Bool)).res = .ok b ↔
      o.completed = true ∧ b = true := by
  unfold Outcome.andThen Outcome.completed
  cases o.res with
  | error e => simp
  | ok a => simp [eq_comm]

theorem andThen_ok_true_st (o : Outcome σ K V Unit) :
    (o.andThen fun _ t1 => (⟨.ok true, t1⟩ : Outcome σ K V Bool)).st = o.st := by
  unfold Outcome.andThen
  cases o.res <;> rfl

/-- The shape of `PutRandom` on a non-empty `Deleted`: a draw below `Len()`, the entry at
the drawn index, one `Put` of that entry. -/
theorem PutRandom_of_pos [LinearOrder K] [DecidableEq V] (env : Env σ K V)
    (t : DBTesting σ K V) (r : RandSrc) (hr : t.Rand = some r) (hpos : 0 < t.Deleted.Len)
    (e : K × V) (he : t.Deleted.Index (r.draws r.pos % t.Deleted.Len) = some e) :
    DBTesting.PutRandom env t =
      (DBTesting.Put env { t with Rand := some { r with pos := r.pos + 1 } } e.1 e.2).andThen
        fun _ t1 => ⟨.ok true, t1⟩ := by
  unfold DBTesting.PutRandom
  rw [if_pos hpos, hr]
  simp only [RandSrc.Intn, Nat.pos_iff_ne_zero.1 hpos, if_false, he]

theorem DeleteRandom_of_pos [LinearOrder K] (env : Env σ K V)
    (t : DBTesting σ K V) (r : RandSrc) (hr : t.Rand = some r) (hpos : 0 < t.Present.Len)
    (key : K) (he : t.Present.KeyAt (r.draws r.pos % t.Present.Len) = some key) :
    DBTesting.DeleteRandom env t =
      (DBTesting.Delete env { t with Rand := some { r with pos := r.pos + 1 } } key).andThen
        fun _ t1 => ⟨.ok true, t1⟩ := by
  unfold DBTesting.DeleteRandom
  rw [if_pos hpos, hr]
  simp only [RandSrc.Intn, Nat.pos_iff_ne_zero.1 hpos, if_false, he]

theorem Index_of_lt (kv : KeyValue K V) (i : Nat) (h : i < kv.Len) :
    ∃ e, kv.Index i = some e := by
  unfold KeyValue.Index
  exact ⟨kv.entries[i], List.getElem?_eq_getElem h⟩

theorem KeyAt_of_lt (kv : KeyValue K V) (i : Nat) (h : i < kv.Len) :
    ∃ key, kv.KeyAt i = some key := by
  unfold KeyValue.KeyAt
  exact ⟨kv.entries[i].1, by rw [List.getElem?_eq_getElem h]; rfl⟩

theorem PutRandom_of_empty [LinearOrder K] [DecidableEq V] (env : Env σ K V)
    (t : DBTesting σ K V) (h : t.Deleted.Len = 0) :
    DBTesting.PutRandom env t = ⟨.ok false, t⟩ := by
  unfold DBTesting.PutRandom
  rw [if_neg (by omega)]

theorem DeleteRandom_of_empty [LinearOrder K] (env : Env σ K V)
    (t : DBTesting σ K V) (h : t.Present.Len = 0) :
    DBTesting.DeleteRandom env t = ⟨.ok false, t⟩ := by
  unfold DBTesting.DeleteRandom
  rw [if_neg (by omega)]

/-- A `PutRandom` that returns a flag on a non-empty `Deleted` drew an index and applied
one `Put` to the entry there, and the flag is `true`. -/
theorem PutRandom_returns [LinearOrder K] [DecidableEq V] (env : Env σ K V)
    (t : DBTesting σ K V) (b : Bool) (hpos : 0 < t.Deleted.Len)
    (hb : (DBTesting.PutRandom env t).res = .ok b) :
    b = true ∧ ∃ r e, t.Rand = some r ∧
      t.Deleted.Index (r.draws r.pos % t.Deleted.Len) = some e ∧
      (DBTesting.Put env { t with Rand := some { r with pos := r.pos + 1 } } e.1
        e.2).completed = true ∧
      (DBTesting.PutRandom env t).st =
        (DBTesting.Put env { t with Rand := some { r with pos := r.pos + 1 } } e.1 e.2).st := by
  cases hr : t.Rand with
  | none =>
    unfold DBTesting.PutRandom at hb
    rw [if_pos hpos, hr] at hb
    exact absurd hb (by simp)
  | some r =>
    obtain ⟨e, he⟩ := Index_of_lt t.Deleted (r.draws r.pos % t.Deleted.Len)
      (Nat.mod_lt _ hpos)
    rw [PutRandom_of_pos env t r hr hpos e he] at hb ⊢
    obtain ⟨hc, hbt⟩ := (andThen_ok_true_iff _ b).1 hb
    exact ⟨hbt, r, e, rfl, he, hc, andThen_ok_true_st _⟩

theorem DeleteRandom_returns [LinearOrder K] (env : Env σ K V)
    (t : DBTesting σ K V) (b : Bool) (hpos : 0 < t.Present.Len)
    (hb : (DBTesting.DeleteRandom env t).res = .ok b) :
    b = true ∧ ∃ r key, t.Rand = some r ∧
      t.Present.KeyAt (r.draws r.pos % t.Present.Len) = some key ∧
      (DBTesting.Delete env { t with Rand := some { r with pos := r.pos + 1 } }
        key).completed = true ∧
      (DBTesting.DeleteRandom env t).st =
        (DBTesting.Delete env { t with Rand := some { r with pos := r.pos + 1 } } key).st := by
  cases hr : t.Rand with
  | none =>
    unfold DBTesting.DeleteRandom at hb
    rw [if_pos hpos, hr] at hb
    exact absurd hb (by simp)
  | some r =>
    obtain ⟨key, he⟩ := KeyAt_of_lt t.Present (r.draws r.pos % t.Present.Len)
      (Nat.mod_lt _ hpos)
    rw [DeleteRandom_of_pos env t r hr hpos key he] at hb ⊢
    obtain ⟨hc, hbt⟩ := (andThen_ok_true_iff _ b).1 hb
    exact ⟨hbt, r, key, rfl, he, hc, andThen_ok_true_st _⟩

/-- C8. `PutRandom` returns false iff `Deleted` is empty at the call, and `DeleteRandom`
returns false iff `Present` is empty at the call; a call that returns false is a no-op: the
whole state (store, call history, random source, shadow sets, action record) is unchanged.
A call that returns true drew one index below `Len()` and applied exactly one `Put` to the
entry at that index of `Deleted` (resp. one `Delete` to the key at that index of
`Present`), which completed. On a non-empty set, with a random source installed, the call
is that draw followed by that one `Put` (resp. `Delete`), and it returns true as soon as
the `Put` (resp. `Delete`) completes. -/
theorem C8_random_put_delete [LinearOrder K] [DecidableEq V] (env : Env σ K V)
    (t : DBTesting σ K V) :
    (((DBTesting.PutRandom env t).res = .ok false ↔ t.Deleted.Len = 0) ∧
      ((DBTesting.PutRandom env t).res = .ok false → (DBTesting.PutRandom env t).st = t) ∧
      ((DBTesting.PutRandom env t).res = .ok true →
        ∃ r e, t.Rand = some r ∧ r.draws r.pos % t.Deleted.Len < t.Deleted.Len ∧
          t.Deleted.Index (r.draws r.pos % t.Deleted.Len) = some e ∧
          (DBTesting.Put env { t with Rand := some { r with pos := r.pos + 1 } } e.1
            e.2).completed = true ∧
          (DBTesting.PutRandom env t).st =
            (DBTesting.Put env { t with Rand := some { r with pos := r.pos + 1 } } e.1
              e.2).st) ∧
      (∀ r, t.Rand = some r → 0 < t.Deleted.Len →
        ∃ e, t.Deleted.Index (r.draws r.pos % t.Deleted.Len) = some e ∧
          DBTesting.PutRandom env t =
            (DBTesting.Put env { t with Rand := some { r with pos := r.pos + 1 } } e.1
              e.2).andThen fun _ t1 => ⟨.ok true, t1⟩) ∧
      (∀ r e, t.Rand = some r → 0 < t.Deleted.Len →
        t.Deleted.Index (r.draws r.pos % t.Deleted.Len) = some e →
        (DBTesting.Put env { t with Rand := some { r with pos := r.pos + 1 } } e.1
          e.2).completed = true →
        (DBTesting.PutRandom env t).res = .ok true)) ∧
    (((DBTesting.DeleteRandom env t).res = .ok false ↔ t.Present.Len = 0) ∧
      ((DBTesting.DeleteRandom env t).res = .ok false →
        (DBTesting.DeleteRandom env t).st = t) ∧
      ((DBTesting.DeleteRandom env t).res = .ok true →
        ∃ r key, t.Rand = some r ∧ r.draws r.pos % t.Present.Len < t.Present.Len ∧
          t.Present.KeyAt (r.draws r.pos % t.Present.Len) = some key ∧
          (DBTesting.Delete env { t with Rand := some { r with pos := r.pos + 1 } }
            key).completed = true ∧
          (DBTesting.DeleteRandom env t).st =
            (DBTesting.Delete env { t with Rand := some { r with pos := r.pos + 1 } }
              key).st) ∧
      (∀ r, t.Rand = some r → 0 < t.Present.Len →
        ∃ key, t.Present.KeyAt (r.draws r.pos % t.Present.Len) = some key ∧
          DBTesting.DeleteRandom env t =
            (DBTesting.Delete env { t with Rand := some { r with pos := r.pos + 1 } }
              key).andThen fun _ t1 => ⟨.ok true, t1⟩) ∧
      (∀ r key, t.Rand = some r → 0 < t.Present.Len →
        t.Present.KeyAt (r.draws r.pos % t.Present.Len) = some key →
        (DBTesting.Delete env { t with Rand := some { r with pos := r.pos + 1 } }
          key).completed = true →
        (DBTesting.DeleteRandom env t).res = .ok true)) := by
  have hp : (DBTesting.PutRandom env t).res = .ok false ↔ t.Deleted.Len = 0 := by
    constructor
    · intro hb
      by_contra hne
      exact absurd (PutRandom_returns env t false (Nat.pos_of_ne_zero hne) hb).1 (by simp)
    · intro h0
      rw [PutRandom_of_empty env t h0]
  have hd : (DBTesting.DeleteRandom env t).res = .ok false ↔ t.Present.Len = 0 := by
    constructor
    · intro hb
      by_contra hne
      exact absurd (DeleteRandom_returns env t false (Nat.pos_of_ne_zero hne) hb).1 (by simp)
    · intro h0
      rw [DeleteRandom_of_empty env t h0]
  refine ⟨⟨hp, ?_, ?_, ?_, ?_⟩, ⟨hd, ?_, ?_, ?_, ?_⟩⟩
  · intro hb
    rw [PutRandom_of_empty env t (hp.1 hb)]
  · intro hb
    have hpos : 0 < t.Deleted.Len := by
      by_contra hne
      rw [PutRandom_of_empty env t (by omega)] at hb
      exact absurd hb (by simp)
    obtain ⟨_, r, e, hr, he, hc, hst⟩ := PutRandom_returns env t true hpos hb
    exact ⟨r, e, hr, Nat.mod_lt _ hpos, he, hc, hst⟩
  · intro r hr hpos
    obtain ⟨e, he⟩ := Index_of_lt t.Deleted (r.draws r.pos % t.Deleted.Len)
      (Nat.mod_lt _ hpos)
    exact ⟨e, he, PutRandom_of_pos env t r hr hpos e he⟩
  · intro r e hr hpos he hc
    rw [PutRandom_of_pos env t r hr hpos e he]
    exact (andThen_ok_true_iff _ true).2 ⟨hc, rfl⟩
  · intro hb
    rw [DeleteRandom_of_empty env t (hd.1 hb)]
  · intro hb
    have hpos : 0 < t.Present.Len := by
      by_contra hne
      rw [DeleteRandom_of_empty env t (by omega)] at hb
      exact absurd hb (by simp)
    obtain ⟨_, r, key, hr, he, hc, hst⟩ := DeleteRandom_returns env t true hpos hb
    exact ⟨r, key, hr, Nat.mod_lt _ hpos, he, hc, hst⟩
  · intro r hr hpos
    obtain ⟨key, he⟩ := KeyAt_of_lt t.Present (r.draws r.pos % t.Present.Len)
      (Nat.mod_lt _ hpos)
    exact ⟨key, he, DeleteRandom_of_pos env t r hr hpos key he⟩
  · intro r key hr hpos he hc
    rw [DeleteRandom_of_pos env t r hr hpos key he]
    exact (andThen_ok_true_iff _ true).2 ⟨hc, rfl⟩

/-- C8 on the populated sample state (`a` present, `b` deleted, first draw 0): `PutRandom`
returns true after one `Put` of `b`, which issues the store's `Put` and the read-back
`Get`, moves `b` to `Present` and consumes one draw; `DeleteRandom` returns true after one
`Delete` of `a`, which issues the store's `Delete` and the read-back `Get` and moves `a`
to `Deleted`. On the fresh sample state both return false. -/
theorem C8_random_put_delete_witness :
    (demoState.Deleted.Index (0 % demoState.Deleted.Len) = some ([98], [50]) ∧
      (DBTesting.PutRandom demoEnv demoState).res = .ok true ∧
      (DBTesting.PutRandom demoEnv demoState).st.Calls =
        [Call.Put [98] [50] none, Call.Get [98] [50] none] ∧
      (DBTesting.PutRandom demoEnv demoState).st.Present = ⟨[([97], [49]), ([98], [50])]⟩ ∧
      (DBTesting.PutRandom demoEnv demoState).st.Deleted = ⟨[]⟩ ∧
      (DBTesting.PutRandom demoEnv demoState).st.Act = DBAct.DBPut ∧
      (DBTesting.PutRandom demoEnv demoState).st.Rand = some ⟨fun n => n, 1⟩) ∧
    (demoState.Present.KeyAt (0 % demoState.Present.Len) = some [97] ∧
      (DBTesting.DeleteRandom demoEnv demoState).res = .ok true ∧
      (DBTesting.DeleteRandom demoEnv demoState).st.Calls =
        [Call.Delete [97] none, Call.Get [97] [] (some DBError.ErrNotFound)] ∧
      (DBTesting.DeleteRandom demoEnv demoState).st.Present = ⟨[]⟩ ∧
      (DBTesting.DeleteRandom demoEnv demoState).st.Deleted =
        ⟨[([97], [49]), ([98], [50])]⟩ ∧
      (DBTesting.DeleteRandom demoEnv demoState).st.Act = DBAct.DBDelete ∧
      (DBTesting.DeleteRandom demoEnv demoState).st.Rand = some ⟨fun n => n, 1⟩) ∧
    (DBTesting.PutRandom demoEnv demoEmpty).res = .ok false ∧
    (DBTesting.DeleteRandom demoEnv demoEmpty).res = .ok false :=
  ⟨⟨rfl,
      (C8_random_put_delete demoEnv demoState).1.2.2.2.2 ⟨fun n => n, 0⟩ ([98], [50]) rfl
        (by decide) rfl rfl,
      rfl, rfl, rfl, rfl, rfl⟩,
    ⟨rfl,
      (C8_random_put_delete demoEnv demoState).2.2.2.2.2 ⟨fun n => n, 0⟩ [97] rfl
        (by decide) rfl rfl,
      rfl, rfl, rfl, rfl, rfl⟩,
    (C8_random_put_delete demoEnv demoEmpty).1.1.2 rfl,
    (C8_random_put_delete demoEnv demoEmpty).2.1.2 rfl⟩

theorem installRand_Present (env : Env σ K V) (t : DBTesting σ K V) :
    (installRand env t).Present = t.Present := by
  unfold installRand; split <;> rfl

theorem installRand_Deleted (env : Env σ K V) (t : DBTesting σ K V) :
    (installRand env t).Deleted = t.Deleted := by
  unfold installRand; split <;> rfl

/-- With both shadow sets empty, the warm-up and the random rounds do nothing. -/
theorem warmup_of_empty [LinearOrder K] [DecidableEq V] (env : Env σ K V)
    (t : DBTesting σ K V) (hP : t.Present.Len = 0) (hD : t.Deleted.Len = 0) :
    warmup env t = ⟨.ok (), t⟩ := by
  unfold warmup
  rw [DeleteRandom_of_empty env t hP, andThen_eq_of_ok _ _ false rfl]
  simp only
  rw [PutRandom_of_empty env t hD, andThen_eq_of_ok _ _ false rfl]
  simp only
  rw [DeleteRandom_of_empty env t hP, andThen_eq_of_ok _ _ false rfl]
  simp only
  rw [DeleteRandom_of_empty env t hP, andThen_eq_of_ok _ _ false rfl]
  simp only
  rw [hD]
  show warmupLoop env 0 t = _
  unfold warmupLoop
  rw [PutRandom_of_empty env t hD, andThen_eq_of_ok _ _ false rfl]

/-- C9, as stated, fails: on a fresh harness over the empty map store the first
`DeleteRandom` of the warm-up returns false without calling `Delete`, so no action is
classified: `Act` is still `DBNone`, not `DBDeleteNA`, no store call was issued, and `Act`
is still `DBNone` when the whole run has completed. -/
theorem C9_warmup_empty_counterexample :
    (DBTesting.DeleteRandom demoEnv (installRand demoEnv demoEmpty)).completed = true ∧
      (DBTesting.DeleteRandom demoEnv (installRand demoEnv demoEmpty)).st.Act = DBAct.DBNone ∧
      (DBTesting.DeleteRandom demoEnv (installRand demoEnv demoEmpty)).st.Calls = [] ∧
      (DoDBTesting demoEnv demoEmpty).completed = true ∧
      (DoDBTesting demoEnv demoEmpty).st.Act = DBAct.DBNone := by
  decide

/-- C9, amended. Warm-up on an empty start: when `DoDBTesting` is run with empty `Present`
and empty `Deleted`, over any store, the first `DeleteRandom` call of the warm-up is a
no-op that returns false (no action is classified, `Act` keeps its value, no store call),
and the whole run completes without any failure, leaving the state as it was once the
random source is installed. -/
theorem C9_warmup_empty [LinearOrder K] [DecidableEq V] (env : Env σ K V)
    (t : DBTesting σ K V) (hP : t.Present.Len = 0) (hD : t.Deleted.Len = 0) :
    DBTesting.DeleteRandom env (installRand env t) = ⟨.ok false, installRand env t⟩ ∧
      (installRand env t).Act = t.Act ∧
      DoDBTesting env t = ⟨.ok (), installRand env t⟩ := by
  have hP' : (installRand env t).Present.Len = 0 := by rw [installRand_Present]; exact hP
  have hD' : (installRand env t).Deleted.Len = 0 := by rw [installRand_Deleted]; exact hD
  refine ⟨DeleteRandom_of_empty env _ hP', ?_, ?_⟩
  · unfold installRand; split <;> rfl
  · unfold DoDBTesting
    rw [warmup_of_empty env _ hP' hD', andThen_eq_of_ok _ _ () rfl]
    simp only
    rw [hP', hD']
    rfl

theorem C9_warmup_empty_witness :
    demoEmpty.Present.Len = 0 ∧ demoEmpty.Deleted.Len = 0 ∧
      (DBTesting.DeleteRandom demoEnv (installRand demoEnv demoEmpty) =
          ⟨.ok false, installRand demoEnv demoEmpty⟩ ∧
        (installRand demoEnv demoEmpty).Act = demoEmpty.Act ∧
        DoDBTesting demoEnv demoEmpty = ⟨.ok (), installRand demoEnv demoEmpty⟩) :=
  ⟨rfl, rfl, C9_warmup_empty demoEnv demoEmpty rfl rfl⟩

theorem stepIndices_one (n : Nat) : stepIndices n 1 = List.range n := by
  unfold stepIndices
  simp [Nat.mod_one]

/-- One passing callback of `TestAll` issues one store call, the one `VisitCall` describes,
and leaves shadow sets and record alone. -/
theorem TestAllVisit_completed [DecidableEq V] (env : Env σ K V) (i : Nat)
    (s : DBTesting σ K V)
    (hc : (TestAllVisit env s.Deleted.Len i s).completed = true) :
    ∃ c, (TestAllVisit env s.Deleted.Len i s).st.Calls = s.Calls ++ [c] ∧
      VisitCall s.Deleted s.Present i c := by
  unfold TestAllVisit at hc ⊢
  unfold VisitCall
  by_cases hi : i ≥ s.Deleted.Len
  · rw [if_pos hi] at hc ⊢
    cases he : s.Present.Index (i - s.Deleted.Len) with
    | none => rw [he] at hc; exact absurd hc (by simp [Outcome.completed])
    | some e =>
      rw [he] at hc
      simp only at hc ⊢
      have h := (TestPresentKV_completed env s e.1 e.2).1 hc
      refine ⟨_, TestPresentKV_Calls env s e.1 e.2, ?_⟩
      rw [if_neg (not_lt.2 hi)]
      refine ⟨e, rfl, ?_⟩
      rw [h]
  · rw [if_neg hi] at hc ⊢
    cases hk : s.Deleted.KeyAt i with
    | none => rw [hk] at hc; exact absurd hc (by simp [Outcome.completed])
    | some key =>
      rw [hk] at hc
      simp only at hc ⊢
      have h := (TestDeletedKey_completed env s key).1 hc
      refine ⟨_, TestDeletedKey_Calls env s key, ?_⟩
      rw [if_pos (not_le.1 hi)]
      refine ⟨key, (env.DB.Get s.DB key).1.1, rfl, ?_⟩
      rw [h]

theorem TestAllVisit_shadow [DecidableEq V] (env : Env σ K V) (dn i : Nat)
    (s : DBTesting σ K V) : (TestAllVisit env dn i s).st.shadow = s.shadow := by
  unfold TestAllVisit
  split
  · split
    · rfl
    · exact TestPresentKV_shadow env s _ _
  · split
    · rfl
    · exact TestDeletedKey_shadow env s _

/-- A passing sweep over an index list issues one store call per index, in order. -/
theorem forEachIndex_TestAllVisit [DecidableEq V] (env : Env σ K V)
    (deleted present : KeyValue K V) (order : List Nat) (s : DBTesting σ K V)
    (hD : s.Deleted = deleted) (hP : s.Present = present)
    (hc : (forEachIndex (TestAllVisit env deleted.Len) order s).completed = true) :
    ∃ calls, (forEachIndex (TestAllVisit env deleted.Len) order s).st.Calls = s.Calls ++ calls ∧
      List.Forall₂ (VisitCall deleted present) order calls := by
  induction order generalizing s with
  | nil => exact ⟨[], by simp [forEachIndex], List.Forall₂.nil⟩
  | cons i rest ih =>
    unfold forEachIndex at hc ⊢
    rw [andThen_completed] at hc
    obtain ⟨a, h1, hc⟩ := hc
    rw [andThen_eq_of_ok _ _ a h1]
    have hv : (TestAllVisit env s.Deleted.Len i s).completed = true := by
      rw [hD]; exact (completed_iff_ok _).2 h1
    obtain ⟨c, hcalls, hrel⟩ := TestAllVisit_completed env i s hv
    rw [hD] at hcalls
    rw [hD, hP] at hrel
    have hsh := TestAllVisit_shadow env deleted.Len i s
    have hD1 : (TestAllVisit env deleted.Len i s).st.Deleted = deleted :=
      (congrArg (fun x => x.2.1) hsh).trans hD
    have hP1 : (TestAllVisit env deleted.Len i s).st.Present = present :=
      (congrArg (fun x => x.1) hsh).trans hP
    obtain ⟨calls, hrest, hfa⟩ := ih _ hD1 hP1 hc
    refine ⟨c :: calls, ?_, List.Forall₂.cons hrel hfa⟩
    rw [hrest, hcalls]
    simp

theorem VisitCall_key (deleted present : KeyValue K V) (i : Nat) (c : Call K V)
    (h : VisitCall deleted present i c) :
    some c.key = (deleted.keys ++ present.keys)[i]? := by
  unfold VisitCall at h
  have hlen : deleted.keys.length = deleted.Len := by
    unfold KeyValue.keys KeyValue.Len; simp
  by_cases hi : i < deleted.Len
  · rw [if_pos hi] at h
    obtain ⟨key, rv, hk, rfl⟩ := h
    rw [List.getElem?_append_left (by omega)]
    unfold KeyValue.KeyAt at hk
    unfold KeyValue.keys
    rw [List.getElem?_map, hk]
    rfl
  · rw [if_neg hi] at h
    obtain ⟨e, he, rfl⟩ := h
    rw [List.getElem?_append_right (by omega), hlen]
    unfold KeyValue.Index at he
    unfold KeyValue.keys
    rw [List.getElem?_map, he]
    rfl

theorem map_getElem?_range (l : List K) :
    (List.range l.length).map (fun i => l[i]?) = l.map some := by
  apply List.ext_getElem?
  intro i
  by_cases hi : i < l.length
  · rw [List.getElem?_map, List.getElem?_map, List.getElem?_range hi,
      List.getElem?_eq_getElem hi]
    simp only [Option.map_some']
    rw [List.getElem?_eq_getElem hi]
  · rw [List.getElem?_map, List.getElem?_map,
      List.getElem?_eq_none (by simpa using not_lt.1 hi), List.getElem?_eq_none (not_lt.1 hi)]
    rfl

theorem filterMap_id_map_some (l : List K) : (l.map some).filterMap id = l := by
  induction l with
  | nil => rfl
  | cons a l ih => simp [List.filterMap_cons, ih]

theorem VisitCall_keys (deleted present : KeyValue K V) (order : List Nat)
    (calls : List (Call K V)) (hfa : List.Forall₂ (VisitCall deleted present) order calls) :
    calls.map (fun c => some c.key) =
      order.map (fun i => (deleted.keys ++ present.keys)[i]?) := by
  induction hfa with
  | nil => rfl
  | cons h _ ih => simp only [List.map_cons, ih, VisitCall_key _ _ _ _ h]

/-- C10. TestAll coverage: assuming the order in which `ShuffledIndex` calls the callback
is a permutation of `0..n-1`, `n = |Deleted| + |Present|`, a `TestAll` run that does not
fail issues exactly `n` store calls, all of them `Get`, one per index of that single
order: index `i < |Deleted|` checks the key at position `i` of `Deleted` with the
deleted-key check, every other index checks the entry at position `i - |Deleted|` of
`Present` with the present-key check; the keys queried are the keys of both shadow sets,
each entry once. -/
theorem C10_testall_coverage [DecidableEq V] (env : Env σ K V) (t : DBTesting σ K V)
    (hperm : (env.Shuffle t.Rand (stepIndices (t.Deleted.Len + t.Present.Len) 1)).1.Perm
      (List.range (t.Deleted.Len + t.Present.Len)))
    (hc : (DBTesting.TestAll env t).completed = true) :
    ∃ calls, (DBTesting.TestAll env t).st.Calls = t.Calls ++ calls ∧
      calls.length = t.Deleted.Len + t.Present.Len ∧
      List.Forall₂ (VisitCall t.Deleted t.Present)
        (env.Shuffle t.Rand (stepIndices (t.Deleted.Len + t.Present.Len) 1)).1 calls ∧
      (calls.map Call.key).Perm (t.Deleted.keys ++ t.Present.keys) := by
  unfold DBTesting.TestAll ShuffledIndex at hc ⊢
  obtain ⟨calls, hcalls, hfa⟩ := forEachIndex_TestAllVisit env t.Deleted t.Present _
    { t with Rand := (env.Shuffle t.Rand (stepIndices (t.Deleted.Len + t.Present.Len) 1)).2 }
    rfl rfl hc
  refine ⟨calls, hcalls, ?_, hfa, ?_⟩
  · rw [← hfa.length_eq, hperm.length_eq, List.length_range]
  · have hkeys := VisitCall_keys t.Deleted t.Present _ calls hfa
    have hlen : (t.Deleted.keys ++ t.Present.keys).length = t.Deleted.Len + t.Present.Len := by
      unfold KeyValue.keys KeyValue.Len; simp
    have h1 := hperm.map (fun i => (t.Deleted.keys ++ t.Present.keys)[i]?)
    rw [← hkeys, ← hlen, map_getElem?_range] at h1
    have h2 := h1.filterMap id
    rw [filterMap_id_map_some] at h2
    have h3 : (calls.map fun c => some c.key) = (calls.map Call.key).map some := by
      rw [List.map_map]; rfl
    rw [h3, filterMap_id_map_some] at h2
    exact h2

theorem C10_testall_coverage_witness :
    (reversingEnv.Shuffle demoState.Rand
        (stepIndices (demoState.Deleted.Len + demoState.Present.Len) 1)).1.Perm
      (List.range (demoState.Deleted.Len + demoState.Present.Len)) ∧
    (DBTesting.TestAll reversingEnv demoState).completed = true ∧
    ∃ calls, (DBTesting.TestAll reversingEnv demoState).st.Calls = demoState.Calls ++ calls ∧
      calls.length = demoState.Deleted.Len + demoState.Present.Len ∧
      List.Forall₂ (VisitCall demoState.Deleted demoState.Present)
        (reversingEnv.Shuffle demoState.Rand
          (stepIndices (demoState.Deleted.Len + demoState.Present.Len) 1)).1 calls ∧
      (calls.map Call.key).Perm (demoState.Deleted.keys ++ demoState.Present.keys) :=
  have hperm : (reversingEnv.Shuffle demoState.Rand
        (stepIndices (demoState.Deleted.Len + demoState.Present.Len) 1)).1.Perm
      (List.range (demoState.Deleted.Len + demoState.Present.Len)) := by decide
  have hc : (DBTesting.TestAll reversingEnv demoState).completed = true := by decide
  ⟨hperm, hc, C10_testall_coverage reversingEnv demoState hperm hc⟩

end Claims

/-! ## Verdicts, diagnostics and the shape of the driver -/

section DriverClaims
variable {σ K V : Type}

theorem Expect_error (b : Bool) (kind : FailureKind) (d : String) (t : DBTesting σ K V)
    (f : Failure) (h : (Expect b kind d t).res = .error f) : f = ⟨kind, d⟩ := by
  unfold Expect at h
  cases b
  · simp only [Bool.false_eq_true, if_false] at h
    exact (Except.error.inj h).symm
  · simp at h

theorem andThen_error {α β : Type} (o : Outcome σ K V α)
    (f : α → DBTesting σ K V → Outcome σ K V β) (e : Failure)
    (h : (o.andThen f).res = .error e) :
    (o.res = .error e ∧ (o.andThen f).st = o.st) ∨
      ∃ a, o.res = .ok a ∧ (f a o.st).res = .error e ∧ o.andThen f = f a o.st := by
  cases ho : o.res with
  | error e' =>
    rw [andThen_eq_of_error _ _ e' ho] at h ⊢
    have h' : (Except.error e' : Except Failure α) = Except.error e := by
      cases h; rfl
    exact Or.inl ⟨h', rfl⟩
  | ok a =>
    rw [andThen_eq_of_ok _ _ a ho] at h ⊢
    exact Or.inr ⟨a, rfl, h, rfl⟩

theorem text_congr (env : Env σ K V) (t t' : DBTesting σ K V) (h : t.shadow = t'.shadow) :
    DBTesting.text env t = DBTesting.text env t' := by
  unfold DBTesting.shadow at h
  simp only [Prod.mk.injEq] at h
  obtain ⟨_, _, h1, h2, h3, h4⟩ := h
  unfold DBTesting.text
  rw [h1, h2, h3, h4]

/-- A failed present-key check is a read error or a value mismatch, and its description
ends with the diagnostic text of the record. -/
theorem TestPresentKV_error [DecidableEq V] (env : Env σ K V) (t : DBTesting σ K V)
    (key : K) (value : V) (f : Failure)
    (h : (DBTesting.TestPresentKV env t key value).res = .error f) :
    (f.kind = FailureKind.ReadError ∨ f.kind = FailureKind.ValueMismatch) ∧
      ∃ pre, f.text = pre ++ DBTesting.text env (DBTesting.TestPresentKV env t key value).st := by
  have hsh := TestPresentKV_shadow env t key value
  unfold DBTesting.TestPresentKV at h
  rcases andThen_error _ _ f h with ⟨h1, _⟩ | ⟨a, _, h2, _⟩
  · have hf := Expect_error _ _ _ _ f h1
    subst hf
    refine ⟨Or.inl rfl, "Get on key " ++ env.quote key ++ ", ", ?_⟩
    simp only
    rw [text_congr env (DBTesting.dbGet env t key).2 _ (hsh.trans rfl).symm]
  · have hf := Expect_error _ _ _ _ f h2
    subst hf
    refine ⟨Or.inr rfl, "Value for key " ++ env.quote key ++ ", ", ?_⟩
    simp only [Expect_st]
    rw [text_congr env (DBTesting.dbGet env t key).2 _ (hsh.trans rfl).symm]

/-- A failed deleted-key check is a not-found mismatch, and its description ends with
the diagnostic text of the record. -/
theorem TestDeletedKey_error (env : Env σ K V) (t : DBTesting σ K V) (key : K) (f : Failure)
    (h : (DBTesting.TestDeletedKey env t key).res = .error f) :
    f.kind = FailureKind.NotFoundMismatch ∧
      ∃ pre, f.text = pre ++ DBTesting.text env (DBTesting.TestDeletedKey env t key).st := by
  have hsh := TestDeletedKey_shadow env t key
  unfold DBTesting.TestDeletedKey at h
  have hf := Expect_error _ _ _ _ f h
  subst hf
  refine ⟨rfl, "Get on deleted key " ++ env.quote key ++ ", ", ?_⟩
  simp only
  rw [text_congr env (DBTesting.dbGet env t key).2 _ (hsh.trans rfl).symm]

theorem post_error (env : Env σ K V) (t : DBTesting σ K V) (f : Failure)
    (h : (DBTesting.post env t).res = .error f) : f.kind = FailureKind.HookFailure := by
  unfold DBTesting.post at h
  split at h
  · simp at h
  · split at h
    · rw [← Except.error.inj h]
    · simp at h

/-- A failure of `Put` is raised by the hook, or is the failed write check, described by
`Sprintf` of the headed diagnostic text, or is a failed read-back check whose description
ends with the diagnostic text; the text is that of the record as `Put` left it. -/
theorem Put_error [LinearOrder K] [DecidableEq V] (env : Env σ K V) (t : DBTesting σ K V)
    (key : K) (value : V) (f : Failure)
    (h : (DBTesting.Put env t key value).res = .error f) :
    f.kind = FailureKind.HookFailure ∨
      (f.kind = FailureKind.WriteError ∧
        f.text = env.Sprintf (DBTesting.Text env (DBTesting.Put env t key value).st)) ∨
      ((f.kind = FailureKind.ReadError ∨ f.kind = FailureKind.ValueMismatch) ∧
        ∃ pre, f.text = pre ++ DBTesting.text env (DBTesting.Put env t key value).st) := by
  have hfin := Put_shadow env t key value
  have hs1 : (DBTesting.dbPut env (t.putShadow key value) key value).2.shadow =
      (DBTesting.Put env t key value).st.shadow := hfin.symm
  rw [Put_unfold] at h
  rcases andThen_error _ _ f h with ⟨h1, _⟩ | ⟨a, _, h2, _⟩
  · have hf := Expect_error _ _ _ _ f h1
    subst hf
    refine Or.inr (Or.inl ⟨rfl, ?_⟩)
    simp only [DBTesting.Text]
    rw [text_congr env _ _ hs1]
  · rcases andThen_error _ _ f h2 with ⟨h3, _⟩ | ⟨b, _, h4, _⟩
    · obtain ⟨hk, pre, hpre⟩ := TestPresentKV_error env _ key value f h3
      refine Or.inr (Or.inr ⟨hk, pre, ?_⟩)
      rw [hpre]
      rw [text_congr env _ (DBTesting.Put env t key value).st
        ((TestPresentKV_shadow env _ key value).trans ((congrArg _ (Expect_st _ _ _ _)).trans hs1))]
    · exact Or.inl (post_error env _ f h4)

/-- A failure of `Delete` is raised by the hook, or is the failed write check, described
by `Sprintf` of the headed diagnostic text, or is the failed read-back check whose
description ends with the diagnostic text; the text is that of the record as `Delete`
left it. -/
theorem Delete_error [LinearOrder K] (env : Env σ K V) (t : DBTesting σ K V)
    (key : K) (f : Failure)
    (h : (DBTesting.Delete env t key).res = .error f) :
    f.kind = FailureKind.HookFailure ∨
      (f.kind = FailureKind.WriteError ∧
        f.text = env.Sprintf (DBTesting.Text env (DBTesting.Delete env t key).st)) ∨
      (f.kind = FailureKind.NotFoundMismatch ∧
        ∃ pre, f.text = pre ++ DBTesting.text env (DBTesting.Delete env t key).st) := by
  have hfin := Delete_shadow env t key
  have hs1 : (DBTesting.dbDelete env (t.deleteShadow key) key).2.shadow =
      (DBTesting.Delete env t key).st.shadow := by
    rw [hfin]
    unfold DBTesting.dbDelete DBTesting.deleteShadow DBTesting.shadow
    cases (t.Present.Delete key).2 <;> rfl
  rw [Delete_unfold] at h
  rcases andThen_error _ _ f h with ⟨h1, _⟩ | ⟨a, _, h2, _⟩
  · have hf := Expect_error _ _ _ _ f h1
    subst hf
    refine Or.inr (Or.inl ⟨rfl, ?_⟩)
    simp only [DBTesting.Text]
    rw [text_congr env _ _ hs1]
  · rcases andThen_error _ _ f h2 with ⟨h3, _⟩ | ⟨b, _, h4, _⟩
    · obtain ⟨hk, pre, hpre⟩ := TestDeletedKey_error env _ key f h3
      refine Or.inr (Or.inr ⟨hk, pre, ?_⟩)
      rw [hpre]
      rw [text_congr env _ (DBTesting.Delete env t key).st
        ((TestDeletedKey_shadow env _ key).trans ((congrArg _ (Expect_st _ _ _ _)).trans hs1))]
    · exact Or.inl (post_error env _ f h4)

/-- C12. `TestDeletedKey(k)` passes iff the store's `Get(k)` returns exactly the not-found
error; it fails, with a not-found mismatch, when `Get` succeeds (whatever the value) and
when `Get` returns any other error. It invokes `Get` exactly once and changes neither
shadow set nor the action record. -/
theorem C12_test_deleted_key (env : Env σ K V) (t : DBTesting σ K V) (key : K) :
    ((DBTesting.TestDeletedKey env t key).completed = true ↔
        (env.DB.Get t.DB key).1.2 = some DBError.ErrNotFound) ∧
      ((env.DB.Get t.DB key).1.2 = none →
        (DBTesting.TestDeletedKey env t key).completed = false) ∧
      (∀ code, (env.DB.Get t.DB key).1.2 = some (DBError.other code) →
        (DBTesting.TestDeletedKey env t key).completed = false) ∧
      (∀ f, (DBTesting.TestDeletedKey env t key).res = .error f →
        f.kind = FailureKind.NotFoundMismatch) ∧
      (DBTesting.TestDeletedKey env t key).st.Calls =
        t.Calls ++ [Call.Get key (env.DB.Get t.DB key).1.1 (env.DB.Get t.DB key).1.2] ∧
      (DBTesting.TestDeletedKey env t key).st.Present = t.Present ∧
      (DBTesting.TestDeletedKey env t key).st.Deleted = t.Deleted ∧
      (DBTesting.TestDeletedKey env t key).st.Act = t.Act ∧
      (DBTesting.TestDeletedKey env t key).st.LastAct = t.LastAct ∧
      (DBTesting.TestDeletedKey env t key).st.ActKey = t.ActKey ∧
      (DBTesting.TestDeletedKey env t key).st.LastActKey = t.LastActKey := by
  have hc := TestDeletedKey_completed env t key
  have hsh := TestDeletedKey_shadow env t key
  refine ⟨hc, ?_, ?_, fun f hf => (TestDeletedKey_error env t key f hf).1,
    TestDeletedKey_Calls env t key, congrArg (fun s => s.1) hsh, congrArg (fun s => s.2.1) hsh,
    congrArg (fun s => s.2.2.1) hsh, congrArg (fun s => s.2.2.2.1) hsh,
    congrArg (fun s => s.2.2.2.2.1) hsh, congrArg (fun s => s.2.2.2.2.2) hsh⟩
  · intro hn
    cases hb : (DBTesting.TestDeletedKey env t key).completed
    · rfl
    · rw [hc.1 hb] at hn
      exact absurd hn (by simp)
  · intro code hn
    cases hb : (DBTesting.TestDeletedKey env t key).completed
    · rfl
    · rw [hc.1 hb] at hn
      exact absurd hn (by simp)

/-- The record that a failure inside `Put(k, v)` reports: the action and key recorded
before the call, then the classification and key of the call. -/
theorem Put_text [LinearOrder K] [DecidableEq V] (env : Env σ K V) (t : DBTesting σ K V)
    (key : K) (value : V) :
    DBTesting.text env (DBTesting.Put env t key value).st =
      "last action was <" ++ t.Act.String ++ "> " ++ env.quote t.ActKey ++
        ", <" ++ (if (t.Present.PutU key value).2 then DBAct.DBPut
          else DBAct.DBOverwrite).String ++ "> " ++ env.quote key := by
  have hs := Put_shadow env t key value
  unfold DBTesting.text
  have h1 : (DBTesting.Put env t key value).st.Act =
      (if (t.Present.PutU key value).2 then DBAct.DBPut else DBAct.DBOverwrite) :=
    congrArg (fun s => s.2.2.1) hs
  have h2 : (DBTesting.Put env t key value).st.LastAct = t.Act :=
    congrArg (fun s => s.2.2.2.1) hs
  have h3 : (DBTesting.Put env t key value).st.ActKey = key :=
    congrArg (fun s => s.2.2.2.2.1) hs
  have h4 : (DBTesting.Put env t key value).st.LastActKey = t.ActKey :=
    congrArg (fun s => s.2.2.2.2.2) hs
  rw [h1, h2, h3, h4]

/-- The record that a failure inside `Delete(k)` reports: the action and key recorded
before the call, then the classification and key of the call. -/
theorem Delete_text [LinearOrder K] (env : Env σ K V) (t : DBTesting σ K V) (key : K) :
    DBTesting.text env (DBTesting.Delete env t key).st =
      "last action was <" ++ t.Act.String ++ "> " ++ env.quote t.ActKey ++
        ", <" ++ (match (t.Present.Delete key).2 with
          | some _ => DBAct.DBDelete
          | none => DBAct.DBDeleteNA).String ++ "> " ++ env.quote key := by
  have hs := Delete_shadow env t key
  unfold DBTesting.text
  have h1 : (DBTesting.Delete env t key).st.Act = (match (t.Present.Delete key).2 with
        | some _ => DBAct.DBDelete
        | none => DBAct.DBDeleteNA) := by
    refine (congrArg (fun s => s.2.2.1) hs).trans ?_
    split <;> rfl
  have hr := Delete_record env t key
  rw [h1, hr.1, hr.2.1, hr.2.2]

/-- C15. Failure diagnostics. What holds: actions are rendered as none, put, overwrite,
delete, delete_na; a failure of `TestPresentKV` or `TestDeletedKey`, and a failed
read-back inside `Put(k, v)` or `Delete(k)`, carries at the end of its description the
text `last action was <LastAct> "LastActKey", <Act> "ActKey"` of the record at the moment
of failure, which inside `Put` and `Delete` names the classification and key `k` of that
very call and the action and key recorded before it. What does not hold: the failed write
check of `Put` and `Delete` is described by `fmt.Sprintf` of that text, taken as a format
string. With the key `%d`, `Delete` over a store whose `Delete` reports an error fails
with a text that names the key as `%!d(MISSING)` and does not end with the text of the
record. -/
theorem C15_failure_diagnostics [LinearOrder K] [DecidableEq V] (env : Env σ K V)
    (t : DBTesting σ K V) (key : K) (value : V) :
    (DBAct.DBNone.String = "none" ∧ DBAct.DBPut.String = "put" ∧
      DBAct.DBOverwrite.String = "overwrite" ∧ DBAct.DBDelete.String = "delete" ∧
      DBAct.DBDeleteNA.String = "delete_na") ∧
    DBTesting.text env t =
      "last action was <" ++ t.LastAct.String ++ "> " ++ env.quote t.LastActKey ++
        ", <" ++ t.Act.String ++ "> " ++ env.quote t.ActKey ∧
    (∀ f, (DBTesting.TestPresentKV env t key value).res = .error f →
      ∃ pre, f.text = pre ++ DBTesting.text env t) ∧
    (∀ f, (DBTesting.TestDeletedKey env t key).res = .error f →
      ∃ pre, f.text = pre ++ DBTesting.text env t) ∧
    (∀ f, (DBTesting.Put env t key value).res = .error f →
      f.kind = FailureKind.ReadError ∨ f.kind = FailureKind.ValueMismatch →
      ∃ pre, f.text = pre ++ DBTesting.text env (DBTesting.Put env t key value).st ∧
        f.text = pre ++ ("last action was <" ++ t.Act.String ++ "> " ++ env.quote t.ActKey ++
          ", <" ++ (if (t.Present.PutU key value).2 then DBAct.DBPut
            else DBAct.DBOverwrite).String ++ "> " ++ env.quote key)) ∧
    (∀ f, (DBTesting.Delete env t key).res = .error f →
      f.kind = FailureKind.NotFoundMismatch →
      ∃ pre, f.text = pre ++ DBTesting.text env (DBTesting.Delete env t key).st ∧
        f.text = pre ++ ("last action was <" ++ t.Act.String ++ "> " ++ env.quote t.ActKey ++
          ", <" ++ (match (t.Present.Delete key).2 with
            | some _ => DBAct.DBDelete
            | none => DBAct.DBDeleteNA).String ++ "> " ++ env.quote key)) ∧
    (∀ f, (DBTesting.Put env t key value).res = .error f → f.kind = FailureKind.WriteError →
      f.text = env.Sprintf ("DBTesting " ++
        ("last action was <" ++ t.Act.String ++ "> " ++ env.quote t.ActKey ++
          ", <" ++ (if (t.Present.PutU key value).2 then DBAct.DBPut
            else DBAct.DBOverwrite).String ++ "> " ++ env.quote key))) ∧
    (∀ f, (DBTesting.Delete env t key).res = .error f → f.kind = FailureKind.WriteError →
      f.text = env.Sprintf ("DBTesting " ++
        ("last action was <" ++ t.Act.String ++ "> " ++ env.quote t.ActKey ++
          ", <" ++ (match (t.Present.Delete key).2 with
            | some _ => DBAct.DBDelete
            | none => DBAct.DBDeleteNA).String ++ "> " ++ env.quote key))) ∧
    (DBTesting.Delete failingDeleteEnv failingDeleteState [37, 100]).res =
      .error ⟨FailureKind.WriteError,
        "DBTesting last action was <none> \"\", <delete_na> \"%!d(MISSING)\""⟩ ∧
    DBTesting.text failingDeleteEnv
        (DBTesting.Delete failingDeleteEnv failingDeleteState [37, 100]).st =
      "last action was <none> \"\", <delete_na> \"%d\"" ∧
    ¬ ∃ pre : String,
      "DBTesting last action was <none> \"\", <delete_na> \"%!d(MISSING)\"" =
        pre ++ "last action was <none> \"\", <delete_na> \"%d\"" := by
  refine ⟨⟨rfl, rfl, rfl, rfl, rfl⟩, rfl, ?_, ?_, ?_, ?_, ?_, ?_, by rfl, by decide, ?_⟩
  · intro f hf
    obtain ⟨_, pre, hpre⟩ := TestPresentKV_error env t key value f hf
    exact ⟨pre, by rw [hpre, text_congr env _ t (TestPresentKV_shadow env t key value)]⟩
  · intro f hf
    obtain ⟨_, pre, hpre⟩ := TestDeletedKey_error env t key f hf
    exact ⟨pre, by rw [hpre, text_congr env _ t (TestDeletedKey_shadow env t key)]⟩
  · intro f hf hk
    rcases Put_error env t key value f hf with h | ⟨h, _⟩ | ⟨_, pre, hpre⟩
    · rw [h] at hk
      exact absurd hk (by decide)
    · rw [h] at hk
      exact absurd hk (by decide)
    · exact ⟨pre, hpre, by rw [hpre, Put_text]⟩
  · intro f hf hk
    rcases Delete_error env t key f hf with h | ⟨h, _⟩ | ⟨_, pre, hpre⟩
    · rw [h] at hk
      exact absurd hk (by decide)
    · rw [h] at hk
      exact absurd hk (by decide)
    · exact ⟨pre, hpre, by rw [hpre, Delete_text]⟩
  · intro f hf hk
    rcases Put_error env t key value f hf with h | ⟨_, htext⟩ | ⟨h, _⟩
    · rw [h] at hk
      exact absurd hk (by decide)
    · rw [htext, DBTesting.Text, Put_text]
    · rw [hk] at h
      exact absurd h (by decide)
  · intro f hf hk
    rcases Delete_error env t key f hf with h | ⟨_, htext⟩ | ⟨h, _⟩
    · rw [h] at hk
      exact absurd hk (by decide)
    · rw [htext, DBTesting.Text, Delete_text]
    · rw [hk] at h
      exact absurd h (by decide)
  · rintro ⟨pre, h⟩
    have hd := congrArg String.data h
    rw [String.data_append] at hd
    have hsuf : "last action was <none> \"\", <delete_na> \"%d\"".data <:+
        "DBTesting last action was <none> \"\", <delete_na> \"%!d(MISSING)\"".data :=
      ⟨pre.data, hd.symm⟩
    exact absurd hsuf (by decide)

theorem andThen_pure (o : Outcome σ K V Unit) :
    (o.andThen fun _ t1 => (⟨.ok (), t1⟩ : Outcome σ K V Unit)) = o := by
  unfold Outcome.andThen
  cases o with
  | mk res st => cases res <;> rfl

theorem andThen_assoc {α β γ : Type} (o : Outcome σ K V α)
    (f : α → DBTesting σ K V → Outcome σ K V β) (g : β → DBTesting σ K V → Outcome σ K V γ) :
    (o.andThen f).andThen g = o.andThen fun a t => (f a t).andThen g := by
  unfold Outcome.andThen
  cases o with
  | mk res st => cases res <;> rfl

theorem warmupLoop_eq_repeat [LinearOrder K] [DecidableEq V] (env : Env σ K V) (i : Nat)
    (t : DBTesting σ K V) :
    warmupLoop env i t = repeatStep (runOp env Op.PutRandom) (i + 1) t := by
  induction i generalizing t with
  | zero =>
    unfold warmupLoop repeatStep repeatStep runOp
    rw [andThen_assoc]
    rfl
  | succ i ih =>
    unfold warmupLoop
    rw [repeatStep]
    unfold runOp
    rw [andThen_assoc]
    congr 1
    funext _ t1
    rw [ih t1]
    rfl

theorem RandomActLoop_eq_repeat [LinearOrder K] [DecidableEq V] (env : Env σ K V) (n : Nat)
    (t : DBTesting σ K V) :
    DBTesting.RandomActLoop env n t = repeatStep (coinRound env) n t := by
  induction n generalizing t with
  | zero => rfl
  | succ n ih =>
    unfold DBTesting.RandomActLoop
    rw [repeatStep]
    unfold coinRound
    cases hr : t.Rand with
    | none => rfl
    | some r =>
      simp only [RandSrc.Int]
      by_cases hd : r.draws r.pos % 2 = 0
      · rw [if_pos hd, if_pos hd]
        unfold runOp
        rw [andThen_assoc]
        congr 1
        funext _ t1
        rw [ih t1]
        rfl
      · rw [if_neg hd, if_neg hd]
        unfold runOp
        rw [andThen_assoc]
        congr 1
        funext _ t1
        rw [ih t1]
        rfl

theorem andThen_ok_mk {α β : Type} (a : α) (t : DBTesting σ K V)
    (f : α → DBTesting σ K V → Outcome σ K V β) :
    (⟨.ok a, t⟩ : Outcome σ K V α).andThen f = f a t := rfl

/-- C13. Warm-up shape of `DoDBTesting`: it performs, in order, `DeleteRandom`,
`PutRandom`, `DeleteRandom`, `DeleteRandom`, then exactly `floor(d / 2) + 1` `PutRandom`
calls, `d` being `|Deleted|` when the loop is reached, and then `RandomAct` with exactly
`(|Deleted| + |Present|) * 10` rounds, the sizes being those reached after the warm-up.
`RandomAct(r)` performs exactly `r` rounds (none for `r <= 0`), each consuming one coin
draw and attempting `PutRandom` on an even draw and `DeleteRandom` on an odd one. -/
theorem C13_warmup_shape [LinearOrder K] [DecidableEq V] (env : Env σ K V)
    (t : DBTesting σ K V) (round : Int) :
    DoDBTesting env t = RunModelTest env t ∧
      DBTesting.RandomAct env t round = repeatStep (coinRound env) round.toNat t ∧
      (round ≤ 0 → DBTesting.RandomAct env t round = ⟨.ok (), t⟩) ∧
      (∀ r, t.Rand = some r →
        coinRound env t =
          if r.draws r.pos % 2 = 0 then
            runOp env Op.PutRandom { t with Rand := some { r with pos := r.pos + 1 } }
          else
            runOp env Op.DeleteRandom { t with Rand := some { r with pos := r.pos + 1 } }) := by
  refine ⟨?_, RandomActLoop_eq_repeat env _ t, ?_, ?_⟩
  · unfold DoDBTesting RunModelTest warmup DBTesting.RandomAct
    simp only [runOps, runOp, andThen_assoc, andThen_ok_mk, warmupLoop_eq_repeat,
      RandomActLoop_eq_repeat, Int.toNat_ofNat]
  · intro hr
    unfold DBTesting.RandomAct
    rw [Int.toNat_eq_zero.2 hr]
    rfl
  · intro r hr
    unfold coinRound
    rw [hr]

theorem TestPresentKV_DB [DecidableEq V] (env : Env σ K V) (t : DBTesting σ K V)
    (key : K) (value : V) :
    (DBTesting.TestPresentKV env t key value).st.DB = (env.DB.Get t.DB key).2 := by
  unfold DBTesting.TestPresentKV Outcome.andThen
  split
  · rw [Expect_st]; rfl
  · simp only [Expect_st]; rfl

theorem TestDeletedKey_DB (env : Env σ K V) (t : DBTesting σ K V) (key : K) :
    (DBTesting.TestDeletedKey env t key).st.DB = (env.DB.Get t.DB key).2 := by
  unfold DBTesting.TestDeletedKey
  rw [Expect_st]; rfl

/-- One callback of `TestAll` over a store whose `Get` answers by `g` on the states `R`:
it passes iff the check at that index passes, and it keeps the store within `R`. -/
theorem TestAllVisit_iff [DecidableEq V] (env : Env σ K V) (R : σ → Prop)
    (g : K → V × Option DBError)
    (hR : ∀ s key, R s → R (env.DB.Get s key).2 ∧ (env.DB.Get s key).1 = g key)
    (i : Nat) (s : DBTesting σ K V) (hs : R s.DB) :
    ((TestAllVisit env s.Deleted.Len i s).completed = true ↔
        VisitPasses g s.Deleted s.Present i) ∧
      R (TestAllVisit env s.Deleted.Len i s).st.DB := by
  unfold TestAllVisit VisitPasses
  by_cases hi : i ≥ s.Deleted.Len
  · rw [if_pos hi, if_neg (not_lt.2 hi)]
    cases he : s.Present.Index (i - s.Deleted.Len) with
    | none => exact ⟨by simp [Outcome.completed], hs⟩
    | some e =>
      simp only
      rw [TestPresentKV_completed, TestPresentKV_DB, (hR s.DB e.1 hs).2]
      refine ⟨⟨fun h => ⟨e, rfl, h⟩, ?_⟩, (hR s.DB e.1 hs).1⟩
      rintro ⟨e', he', h⟩
      cases Option.some.inj he'
      exact h
  · rw [if_neg hi, if_pos (not_le.1 hi)]
    cases hk : s.Deleted.KeyAt i with
    | none => exact ⟨by simp [Outcome.completed], hs⟩
    | some key =>
      simp only
      rw [TestDeletedKey_completed, TestDeletedKey_DB, (hR s.DB key hs).2]
      refine ⟨⟨fun h => ⟨key, rfl, h⟩, ?_⟩, (hR s.DB key hs).1⟩
      rintro ⟨key', hk', h⟩
      cases Option.some.inj hk'
      exact h

theorem forEachIndex_TestAllVisit_iff [DecidableEq V] (env : Env σ K V) (R : σ → Prop)
    (g : K → V × Option DBError)
    (hR : ∀ s key, R s → R (env.DB.Get s key).2 ∧ (env.DB.Get s key).1 = g key)
    (deleted present : KeyValue K V) (order : List Nat) (s : DBTesting σ K V)
    (hD : s.Deleted = deleted) (hP : s.Present = present) (hs : R s.DB) :
    (forEachIndex (TestAllVisit env deleted.Len) order s).completed = true ↔
      ∀ i ∈ order, VisitPasses g deleted present i := by
  induction order generalizing s with
  | nil => simp [forEachIndex, Outcome.completed]
  | cons i rest ih =>
    unfold forEachIndex
    have hv := TestAllVisit_iff env R g hR i s hs
    rw [hD, hP] at hv
    have hsh := TestAllVisit_shadow env deleted.Len i s
    have hD1 : (TestAllVisit env deleted.Len i s).st.Deleted = deleted :=
      (congrArg (fun x => x.2.1) hsh).trans hD
    have hP1 : (TestAllVisit env deleted.Len i s).st.Present = present :=
      (congrArg (fun x => x.1) hsh).trans hP
    rw [andThen_completed]
    simp only [List.mem_cons, forall_eq_or_imp]
    constructor
    · rintro ⟨a, h1, h2⟩
      exact ⟨hv.1.1 ((completed_iff_ok _).2 h1), (ih _ hD1 hP1 hv.2).1 h2⟩
    · rintro ⟨h1, h2⟩
      exact ⟨(), (completed_iff_ok _).1 (hv.1.2 h1), (ih _ hD1 hP1 hv.2).2 h2⟩

theorem KeyValue.len_keys (kv : KeyValue K V) : kv.keys.length = kv.Len := by
  unfold KeyValue.keys KeyValue.Len; simp

theorem KeyValue.KeyAt_eq (kv : KeyValue K V) (i : Nat) : kv.KeyAt i = kv.keys[i]? := by
  unfold KeyValue.KeyAt KeyValue.keys
  rw [List.getElem?_map]

/-- All checks of the combined index range pass iff the store matches the shadow. -/
theorem forall_VisitPasses_iff (g : K → V × Option DBError) (deleted present : KeyValue K V) :
    (∀ i ∈ List.range (deleted.Len + present.Len), VisitPasses g deleted present i) ↔
      ShadowMatches g deleted present := by
  unfold ShadowMatches
  constructor
  · intro h
    constructor
    · intro e he
      obtain ⟨j, hj, hje⟩ := List.getElem_of_mem he
      have hj' : j < present.Len := hj
      have hv := h (deleted.Len + j) (List.mem_range.2 (by omega))
      unfold VisitPasses at hv
      rw [if_neg (by omega)] at hv
      obtain ⟨e', he', hg⟩ := hv
      have : deleted.Len + j - deleted.Len = j := by omega
      rw [this] at he'
      unfold KeyValue.Index at he'
      rw [List.getElem?_eq_getElem hj, hje] at he'
      cases Option.some.inj he'
      exact hg
    · intro k hk
      obtain ⟨j, hj, hjk⟩ := List.getElem_of_mem hk
      have hj' : j < deleted.Len := by rw [← KeyValue.len_keys]; exact hj
      have hv := h j (List.mem_range.2 (by omega))
      unfold VisitPasses at hv
      rw [if_pos hj'] at hv
      obtain ⟨key, hkey, hg⟩ := hv
      rw [KeyValue.KeyAt_eq, List.getElem?_eq_getElem hj, hjk] at hkey
      cases Option.some.inj hkey
      exact hg
  · rintro ⟨hP, hD⟩ i hi
    have hi' := List.mem_range.1 hi
    unfold VisitPasses
    by_cases hlt : i < deleted.Len
    · rw [if_pos hlt]
      have hk : i < deleted.keys.length := by rw [KeyValue.len_keys]; exact hlt
      refine ⟨deleted.keys[i], ?_, hD _ (List.getElem_mem hk)⟩
      rw [KeyValue.KeyAt_eq, List.getElem?_eq_getElem hk]
    · rw [if_neg hlt]
      have hj : i - deleted.Len < present.entries.length := by
        have : i - deleted.Len < present.Len := by omega
        exact this
      refine ⟨present.entries[i - deleted.Len], ?_, hP _ (List.getElem_mem hj)⟩
      unfold KeyValue.Index
      rw [List.getElem?_eq_getElem hj]

theorem mapStore_Get_snd [DecidableEq K] (nil : V) (s : K → Option V) (key : K) :
    ((mapStore nil).Get s key).2 = s := by
  unfold mapStore
  simp only
  split <;> rfl

/-- C11. TestAll verdict: over a store whose `Get` answers as a function `g` of the key
(on the store states `R` that the sweep can reach), and with `ShuffledIndex` visiting a
permutation of the index range, `TestAll` completes without failure iff the store matches
the shadow exactly: every `(k, v)` of `Present` is answered `v` with no error and every
key of `Deleted` is answered with the not-found error. -/
theorem C11_testall_verdict [DecidableEq V] (env : Env σ K V) (t : DBTesting σ K V)
    (R : σ → Prop) (g : K → V × Option DBError) (h0 : R t.DB)
    (hR : ∀ s key, R s → R (env.DB.Get s key).2 ∧ (env.DB.Get s key).1 = g key)
    (hperm : (env.Shuffle t.Rand (stepIndices (t.Deleted.Len + t.Present.Len) 1)).1.Perm
      (List.range (t.Deleted.Len + t.Present.Len))) :
    (DBTesting.TestAll env t).completed = true ↔ ShadowMatches g t.Deleted t.Present := by
  unfold DBTesting.TestAll ShuffledIndex
  rw [forEachIndex_TestAllVisit_iff env R g hR t.Deleted t.Present _
    { t with Rand := (env.Shuffle t.Rand (stepIndices (t.Deleted.Len + t.Present.Len) 1)).2 }
    rfl rfl h0]
  rw [← forall_VisitPasses_iff]
  constructor
  · intro h i hi
    exact h i (hperm.mem_iff.2 hi)
  · intro h i hi
    exact h i (hperm.mem_iff.1 hi)

theorem C11_testall_verdict_witness :
    demoState.DB = demoState.DB ∧
    (∀ s key, s = demoState.DB →
      (reversingEnv.DB.Get s key).2 = demoState.DB ∧
        (reversingEnv.DB.Get s key).1 = (reversingEnv.DB.Get demoState.DB key).1) ∧
    (reversingEnv.Shuffle demoState.Rand
        (stepIndices (demoState.Deleted.Len + demoState.Present.Len) 1)).1.Perm
      (List.range (demoState.Deleted.Len + demoState.Present.Len)) ∧
    ((DBTesting.TestAll reversingEnv demoState).completed = true ↔
      ShadowMatches (fun key => (reversingEnv.DB.Get demoState.DB key).1)
        demoState.Deleted demoState.Present) :=
  have hR : ∀ s key, s = demoState.DB →
      (reversingEnv.DB.Get s key).2 = demoState.DB ∧
        (reversingEnv.DB.Get s key).1 = (reversingEnv.DB.Get demoState.DB key).1 := by
    intro s key hs
    subst hs
    exact ⟨mapStore_Get_snd _ _ _, rfl⟩
  have hperm : (reversingEnv.Shuffle demoState.Rand
        (stepIndices (demoState.Deleted.Len + demoState.Present.Len) 1)).1.Perm
      (List.range (demoState.Deleted.Len + demoState.Present.Len)) := by decide
  ⟨rfl, hR, hperm,
    C11_testall_verdict reversingEnv demoState (fun s => s = demoState.DB)
      (fun key => (reversingEnv.DB.Get demoState.DB key).1) rfl hR hperm⟩

/-- The failures `PutRandom` can end with: a nil random source, the hook, or a check of `Put`. -/
theorem PutRandom_error_kind [LinearOrder K] [DecidableEq V] (env : Env σ K V)
    (t : DBTesting σ K V) (f : Failure) (h : (DBTesting.PutRandom env t).res = .error f) :
    f.kind = FailureKind.NilRand ∨ f.kind = FailureKind.HookFailure ∨
      f.kind = FailureKind.WriteError ∨ f.kind = FailureKind.ReadError ∨
      f.kind = FailureKind.ValueMismatch := by
  by_cases hpos : 0 < t.Deleted.Len
  · cases hr : t.Rand with
    | none =>
      unfold DBTesting.PutRandom at h
      rw [if_pos hpos, hr] at h
      rw [← Except.error.inj h]
      exact Or.inl rfl
    | some r =>
      obtain ⟨e, he⟩ := Index_of_lt t.Deleted (r.draws r.pos % t.Deleted.Len)
        (Nat.mod_lt _ hpos)
      rw [PutRandom_of_pos env t r hr hpos e he] at h
      rcases andThen_error _ _ f h with ⟨h1, _⟩ | ⟨a, _, h2, _⟩
      · rcases Put_error env _ e.1 e.2 f h1 with hk | ⟨hk, _⟩ | ⟨hk, _⟩
        · exact Or.inr (Or.inl hk)
        · exact Or.inr (Or.inr (Or.inl hk))
        · exact Or.inr (Or.inr (Or.inr hk))
      · exact absurd h2 (by simp)
  · rw [PutRandom_of_empty env t (by omega)] at h
    exact absurd h (by simp)

/-- The failures `DeleteRandom` can end with: a nil random source, the hook, or a check of
`Delete`. -/
theorem DeleteRandom_error_kind [LinearOrder K] (env : Env σ K V)
    (t : DBTesting σ K V) (f : Failure) (h : (DBTesting.DeleteRandom env t).res = .error f) :
    f.kind = FailureKind.NilRand ∨ f.kind = FailureKind.HookFailure ∨
      f.kind = FailureKind.WriteError ∨ f.kind = FailureKind.NotFoundMismatch := by
  by_cases hpos : 0 < t.Present.Len
  · cases hr : t.Rand with
    | none =>
      unfold DBTesting.DeleteRandom at h
      rw [if_pos hpos, hr] at h
      rw [← Except.error.inj h]
      exact Or.inl rfl
    | some r =>
      obtain ⟨key, he⟩ := KeyAt_of_lt t.Present (r.draws r.pos % t.Present.Len)
        (Nat.mod_lt _ hpos)
      rw [DeleteRandom_of_pos env t r hr hpos key he] at h
      rcases andThen_error _ _ f h with ⟨h1, _⟩ | ⟨a, _, h2, _⟩
      · rcases Delete_error env _ key f h1 with hk | ⟨hk, _⟩ | ⟨hk, _⟩
        · exact Or.inr (Or.inl hk)
        · exact Or.inr (Or.inr (Or.inl hk))
        · exact Or.inr (Or.inr (Or.inr hk))
      · exact absurd h2 (by simp)
  · rw [DeleteRandom_of_empty env t (by omega)] at h
    exact absurd h (by simp)

theorem TestAllVisit_error_kind [DecidableEq V] (env : Env σ K V) (i : Nat)
    (s : DBTesting σ K V) (hi : i < s.Deleted.Len + s.Present.Len) (f : Failure)
    (h : (TestAllVisit env s.Deleted.Len i s).res = .error f) :
    f.kind = FailureKind.ReadError ∨ f.kind = FailureKind.ValueMismatch ∨
      f.kind = FailureKind.NotFoundMismatch := by
  unfold TestAllVisit at h
  by_cases hge : i ≥ s.Deleted.Len
  · rw [if_pos hge] at h
    obtain ⟨e, he⟩ := Index_of_lt s.Present (i - s.Deleted.Len) (by omega)
    rw [he] at h
    rcases (TestPresentKV_error env s e.1 e.2 f h).1 with hk | hk
    · exact Or.inl hk
    · exact Or.inr (Or.inl hk)
  · rw [if_neg hge] at h
    obtain ⟨key, hk⟩ := KeyAt_of_lt s.Deleted i (by omega)
    rw [hk] at h
    exact Or.inr (Or.inr (TestDeletedKey_error env s key f h).1)

theorem forEachIndex_TestAllVisit_error_kind [DecidableEq V] (env : Env σ K V)
    (deleted present : KeyValue K V) (order : List Nat)
    (horder : ∀ i ∈ order, i < deleted.Len + present.Len) (s : DBTesting σ K V)
    (hD : s.Deleted = deleted) (hP : s.Present = present) (f : Failure)
    (h : (forEachIndex (TestAllVisit env deleted.Len) order s).res = .error f) :
    f.kind = FailureKind.ReadError ∨ f.kind = FailureKind.ValueMismatch ∨
      f.kind = FailureKind.NotFoundMismatch := by
  induction order generalizing s with
  | nil => exact absurd h (by simp [forEachIndex])
  | cons i rest ih =>
    unfold forEachIndex at h
    have hsh := TestAllVisit_shadow env deleted.Len i s
    rcases andThen_error _ _ f h with ⟨h1, _⟩ | ⟨a, _, h2, _⟩
    · have hi := horder i (List.mem_cons_self _ _)
      rw [← hD, ← hP] at hi
      rw [← hD] at h1
      exact TestAllVisit_error_kind env i s hi f h1
    · exact ih (fun j hj => horder j (List.mem_cons_of_mem _ hj)) _
        ((congrArg (fun x => x.2.1) hsh).trans hD) ((congrArg (fun x => x.1) hsh).trans hP) h2

/-- C18. Positional accesses are always in range: in `PutRandom` and `DeleteRandom` the
bound passed to `Intn` is positive and the drawn index is below `Len()` of the set it is
used on, so that `Index` and `KeyAt` succeed; in `TestAll`, provided `ShuffledIndex` yields
only indices of `[0, n)`, every `Index` and `KeyAt` succeeds. No run of these methods ends
in an out-of-range access or in a bad `Intn` bound. -/
theorem C18_accesses_in_range [LinearOrder K] [DecidableEq V] (env : Env σ K V)
    (t : DBTesting σ K V) :
    (0 < t.Deleted.Len → ∀ r, t.Rand = some r →
      ∃ d e, r.Intn t.Deleted.Len = some d ∧ d.1 < t.Deleted.Len ∧
        t.Deleted.Index d.1 = some e) ∧
    (0 < t.Present.Len → ∀ r, t.Rand = some r →
      ∃ d key, r.Intn t.Present.Len = some d ∧ d.1 < t.Present.Len ∧
        t.Present.KeyAt d.1 = some key) ∧
    (∀ f, (DBTesting.PutRandom env t).res = .error f →
      f.kind ≠ FailureKind.IndexOutOfRange ∧ f.kind ≠ FailureKind.IntnBound) ∧
    (∀ f, (DBTesting.DeleteRandom env t).res = .error f →
      f.kind ≠ FailureKind.IndexOutOfRange ∧ f.kind ≠ FailureKind.IntnBound) ∧
    ((∀ i ∈ (env.Shuffle t.Rand (stepIndices (t.Deleted.Len + t.Present.Len) 1)).1,
        i < t.Deleted.Len + t.Present.Len) →
      ∀ f, (DBTesting.TestAll env t).res = .error f →
        f.kind ≠ FailureKind.IndexOutOfRange ∧ f.kind ≠ FailureKind.IntnBound) := by
  refine ⟨?_, ?_, ?_, ?_, ?_⟩
  · intro hpos r _
    have hlt := Nat.mod_lt (r.draws r.pos) hpos
    obtain ⟨e, he⟩ := Index_of_lt t.Deleted _ hlt
    refine ⟨(r.draws r.pos % t.Deleted.Len, { r with pos := r.pos + 1 }), e, ?_, hlt, he⟩
    unfold RandSrc.Intn
    rw [if_neg (Nat.pos_iff_ne_zero.1 hpos)]
  · intro hpos r _
    have hlt := Nat.mod_lt (r.draws r.pos) hpos
    obtain ⟨key, he⟩ := KeyAt_of_lt t.Present _ hlt
    refine ⟨(r.draws r.pos % t.Present.Len, { r with pos := r.pos + 1 }), key, ?_, hlt, he⟩
    unfold RandSrc.Intn
    rw [if_neg (Nat.pos_iff_ne_zero.1 hpos)]
  · intro f hf
    rcases PutRandom_error_kind env t f hf with h | h | h | h | h <;> rw [h] <;> decide
  · intro f hf
    rcases DeleteRandom_error_kind env t f hf with h | h | h | h <;> rw [h] <;> decide
  · intro horder f hf
    unfold DBTesting.TestAll ShuffledIndex at hf
    rcases forEachIndex_TestAllVisit_error_kind env t.Deleted t.Present _ horder
      { t with Rand := (env.Shuffle t.Rand (stepIndices (t.Deleted.Len + t.Present.Len) 1)).2 }
      rfl rfl f hf with h | h | h <;> rw [h] <;> decide

theorem Index_mem (kv : KeyValue K V) (i : Nat) (e : K × V) (h : kv.Index i = some e) :
    e ∈ kv.entries := by
  unfold KeyValue.Index at h
  exact List.getElem?_mem h

theorem Index_mem_keys (kv : KeyValue K V) (i : Nat) (e : K × V) (h : kv.Index i = some e) :
    e.1 ∈ kv.keys := by
  unfold KeyValue.keys
  exact List.mem_map_of_mem _ (Index_mem kv i e h)

theorem KeyAt_mem_keys (kv : KeyValue K V) (i : Nat) (key : K) (h : kv.KeyAt i = some key) :
    key ∈ kv.keys := by
  rw [KeyValue.KeyAt_eq] at h
  exact List.getElem?_mem h

/-- Every outcome of `PutRandom` from a state satisfying the invariant leaves `Act` as it
was or sets it to `DBPut`. -/
theorem PutRandom_Act [LinearOrder K] [DecidableEq V] (env : Env σ K V)
    (t : DBTesting σ K V) (h : t.Inv) :
    (DBTesting.PutRandom env t).st.Act = t.Act ∨
      ((DBTesting.PutRandom env t).st.Act = DBAct.DBPut ∧
        (DBTesting.PutRandom env t).res ≠ .ok false) := by
  by_cases hpos : 0 < t.Deleted.Len
  · cases hr : t.Rand with
    | none =>
      unfold DBTesting.PutRandom
      rw [if_pos hpos, hr]
      exact Or.inl rfl
    | some r =>
      obtain ⟨e, he⟩ := Index_of_lt t.Deleted (r.draws r.pos % t.Deleted.Len)
        (Nat.mod_lt _ hpos)
      rw [PutRandom_of_pos env t r hr hpos e he, andThen_ok_true_st]
      refine Or.inr ⟨?_, ?_⟩
      · have ha := Put_Act_iff env { t with Rand := some { r with pos := r.pos + 1 } }
          e.1 e.2 h.1
        rw [ha]
        apply if_neg
        intro hm
        exact h.2.2 e.1 hm (Index_mem_keys _ _ e he)
      · intro hres
        have := (andThen_ok_true_iff _ false).1 hres
        exact absurd this.2 (by simp)
  · rw [PutRandom_of_empty env t (by omega)]
    exact Or.inl rfl

/-- Every outcome of `DeleteRandom` from a state with a well-formed `Present` leaves `Act`
as it was or sets it to `DBDelete`. -/
theorem DeleteRandom_Act [LinearOrder K] (env : Env σ K V)
    (t : DBTesting σ K V) (hP : t.Present.WF) :
    (DBTesting.DeleteRandom env t).st.Act = t.Act ∨
      ((DBTesting.DeleteRandom env t).st.Act = DBAct.DBDelete ∧
        (DBTesting.DeleteRandom env t).res ≠ .ok false) := by
  by_cases hpos : 0 < t.Present.Len
  · cases hr : t.Rand with
    | none =>
      unfold DBTesting.DeleteRandom
      rw [if_pos hpos, hr]
      exact Or.inl rfl
    | some r =>
      obtain ⟨key, he⟩ := KeyAt_of_lt t.Present (r.draws r.pos % t.Present.Len)
        (Nat.mod_lt _ hpos)
      rw [DeleteRandom_of_pos env t r hr hpos key he, andThen_ok_true_st]
      refine Or.inr ⟨?_, ?_⟩
      · have ha := Delete_Act_iff env { t with Rand := some { r with pos := r.pos + 1 } }
          key hP
        rw [ha]
        exact if_pos (KeyAt_mem_keys _ _ key he)
      · intro hres
        have := (andThen_ok_true_iff _ false).1 hres
        exact absurd this.2 (by simp)
  · rw [DeleteRandom_of_empty env t (by omega)]
    exact Or.inl rfl

theorem andThen_InvAct [LinearOrder K] {α β : Type} (a : DBAct) (o : Outcome σ K V α)
    (f : α → DBTesting σ K V → Outcome σ K V β) (ho : o.st.Inv ∧ ActFrom a o.st)
    (hf : ∀ x t, t.Inv ∧ ActFrom a t → (f x t).st.Inv ∧ ActFrom a (f x t).st) :
    (o.andThen f).st.Inv ∧ ActFrom a (o.andThen f).st := by
  unfold Outcome.andThen
  split
  · exact ho
  · exact hf _ _ ho

theorem PutRandom_InvAct [LinearOrder K] [DecidableEq V] (env : Env σ K V) (a : DBAct)
    (t : DBTesting σ K V) (h : t.Inv ∧ ActFrom a t) :
    (DBTesting.PutRandom env t).st.Inv ∧ ActFrom a (DBTesting.PutRandom env t).st := by
  refine ⟨PutRandom_Inv env t h.1, ?_⟩
  rcases PutRandom_Act env t h.1 with h1 | ⟨h1, _⟩
  · unfold ActFrom; rw [h1]; exact h.2
  · exact Or.inr (Or.inl h1)

theorem DeleteRandom_InvAct [LinearOrder K] (env : Env σ K V) (a : DBAct)
    (t : DBTesting σ K V) (h : t.Inv ∧ ActFrom a t) :
    (DBTesting.DeleteRandom env t).st.Inv ∧ ActFrom a (DBTesting.DeleteRandom env t).st := by
  refine ⟨DeleteRandom_Inv env t h.1, ?_⟩
  rcases DeleteRandom_Act env t h.1.1 with h1 | ⟨h1, _⟩
  · unfold ActFrom; rw [h1]; exact h.2
  · exact Or.inr (Or.inr h1)

theorem RandomActLoop_InvAct [LinearOrder K] [DecidableEq V] (env : Env σ K V) (a : DBAct)
    (n : Nat) (t : DBTesting σ K V) (h : t.Inv ∧ ActFrom a t) :
    (DBTesting.RandomActLoop env n t).st.Inv ∧
      ActFrom a (DBTesting.RandomActLoop env n t).st := by
  induction n generalizing t with
  | zero => exact h
  | succ n ih =>
    unfold DBTesting.RandomActLoop
    split
    · exact h
    · apply andThen_InvAct
      · split
        · exact PutRandom_InvAct env a _ ⟨Inv_of_shadow rfl rfl h.1, h.2⟩
        · exact DeleteRandom_InvAct env a _ ⟨Inv_of_shadow rfl rfl h.1, h.2⟩
      · intro _ t1 h1
        exact ih t1 h1

theorem warmupLoop_InvAct [LinearOrder K] [DecidableEq V] (env : Env σ K V) (a : DBAct)
    (i : Nat) (t : DBTesting σ K V) (h : t.Inv ∧ ActFrom a t) :
    (warmupLoop env i t).st.Inv ∧ ActFrom a (warmupLoop env i t).st := by
  induction i generalizing t with
  | zero =>
    unfold warmupLoop
    exact andThen_InvAct a _ _ (PutRandom_InvAct env a t h) (fun _ _ h1 => h1)
  | succ i ih =>
    unfold warmupLoop
    exact andThen_InvAct a _ _ (PutRandom_InvAct env a t h) (fun _ t1 h1 => ih t1 h1)

theorem warmup_InvAct [LinearOrder K] [DecidableEq V] (env : Env σ K V) (a : DBAct)
    (t : DBTesting σ K V) (h : t.Inv ∧ ActFrom a t) :
    (warmup env t).st.Inv ∧ ActFrom a (warmup env t).st := by
  unfold warmup
  refine andThen_InvAct a _ _ (DeleteRandom_InvAct env a t h) (fun _ t1 h1 => ?_)
  refine andThen_InvAct a _ _ (PutRandom_InvAct env a t1 h1) (fun _ t2 h2 => ?_)
  refine andThen_InvAct a _ _ (DeleteRandom_InvAct env a t2 h2) (fun _ t3 h3 => ?_)
  refine andThen_InvAct a _ _ (DeleteRandom_InvAct env a t3 h3) (fun _ t4 h4 => ?_)
  exact warmupLoop_InvAct env a _ t4 h4

theorem installRand_InvAct [LinearOrder K] (env : Env σ K V) (t : DBTesting σ K V)
    (h : t.Inv) : (installRand env t).Inv ∧ ActFrom t.Act (installRand env t) := by
  refine ⟨installRand_Inv env t h, ?_⟩
  unfold installRand ActFrom
  split <;> exact Or.inl rfl

/-- C20. Random actions never overwrite and never delete an absent key: from a state whose
shadow sets are well-formed and disjoint, every `PutRandom` that returns true is
classified `DBPut` and every `DeleteRandom` that returns true is classified `DBDelete`;
consequently, in every state a `RandomAct` or `DoDBTesting` run reaches (the warm-up and an
aborted run included), `Act` is the one held at the start, `DBPut` or `DBDelete`, never
one set to `DBOverwrite` or `DBDeleteNA`. -/
theorem C20_random_classification [LinearOrder K] [DecidableEq V] (env : Env σ K V)
    (t : DBTesting σ K V) (hP : t.Present.WF) (hD : t.Deleted.WF) (hdisj : t.Disjoint)
    (round : Int) :
    ((DBTesting.PutRandom env t).res = .ok true →
      (DBTesting.PutRandom env t).st.Act = DBAct.DBPut) ∧
    ((DBTesting.DeleteRandom env t).res = .ok true →
      (DBTesting.DeleteRandom env t).st.Act = DBAct.DBDelete) ∧
    ((DBTesting.RandomAct env t round).st.Act = t.Act ∨
      (DBTesting.RandomAct env t round).st.Act = DBAct.DBPut ∨
      (DBTesting.RandomAct env t round).st.Act = DBAct.DBDelete) ∧
    ((warmup env (installRand env t)).st.Act = t.Act ∨
      (warmup env (installRand env t)).st.Act = DBAct.DBPut ∨
      (warmup env (installRand env t)).st.Act = DBAct.DBDelete) ∧
    ((DoDBTesting env t).st.Act = t.Act ∨ (DoDBTesting env t).st.Act = DBAct.DBPut ∨
      (DoDBTesting env t).st.Act = DBAct.DBDelete) := by
  have hinv : t.Inv := ⟨hP, hD, hdisj⟩
  refine ⟨?_, ?_, ?_, ?_, ?_⟩
  · intro hres
    rcases PutRandom_Act env t hinv with h1 | ⟨h1, _⟩
    · have hpos : 0 < t.Deleted.Len := by
        by_contra hne
        rw [PutRandom_of_empty env t (by omega)] at hres
        exact absurd hres (by simp)
      obtain ⟨_, r, e, _, he, _, hst⟩ := PutRandom_returns env t true hpos hres
      rw [hst]
      have ha := Put_Act_iff env { t with Rand := some { r with pos := r.pos + 1 } }
        e.1 e.2 hP
      rw [ha]
      apply if_neg
      intro hm
      exact hdisj e.1 hm (Index_mem_keys _ _ e he)
    · exact h1
  · intro hres
    have hpos : 0 < t.Present.Len := by
      by_contra hne
      rw [DeleteRandom_of_empty env t (by omega)] at hres
      exact absurd hres (by simp)
    obtain ⟨_, r, key, _, he, _, hst⟩ := DeleteRandom_returns env t true hpos hres
    rw [hst]
    have ha := Delete_Act_iff env { t with Rand := some { r with pos := r.pos + 1 } } key hP
    rw [ha]
    exact if_pos (KeyAt_mem_keys _ _ key he)
  · exact (RandomActLoop_InvAct env t.Act _ t ⟨hinv, Or.inl rfl⟩).2
  · exact (warmup_InvAct env t.Act _ (installRand_InvAct env t hinv)).2
  · unfold DoDBTesting
    exact (andThen_InvAct t.Act _ _ (warmup_InvAct env t.Act _ (installRand_InvAct env t hinv))
      (fun _ t5 h5 => RandomActLoop_InvAct env t.Act _ t5 h5)).2

theorem C20_random_classification_witness :
    demoState.Present.WF ∧ demoState.Deleted.WF ∧ demoState.Disjoint ∧
    (((DBTesting.PutRandom demoEnv demoState).res = .ok true →
      (DBTesting.PutRandom demoEnv demoState).st.Act = DBAct.DBPut) ∧
    ((DBTesting.DeleteRandom demoEnv demoState).res = .ok true →
      (DBTesting.DeleteRandom demoEnv demoState).st.Act = DBAct.DBDelete) ∧
    ((DBTesting.RandomAct demoEnv demoState 5).st.Act = demoState.Act ∨
      (DBTesting.RandomAct demoEnv demoState 5).st.Act = DBAct.DBPut ∨
      (DBTesting.RandomAct demoEnv demoState 5).st.Act = DBAct.DBDelete) ∧
    ((warmup demoEnv (installRand demoEnv demoState)).st.Act = demoState.Act ∨
      (warmup demoEnv (installRand demoEnv demoState)).st.Act = DBAct.DBPut ∨
      (warmup demoEnv (installRand demoEnv demoState)).st.Act = DBAct.DBDelete) ∧
    ((DoDBTesting demoEnv demoState).st.Act = demoState.Act ∨
      (DoDBTesting demoEnv demoState).st.Act = DBAct.DBPut ∨
      (DoDBTesting demoEnv demoState).st.Act = DBAct.DBDelete)) :=
  have hP : demoState.Present.WF := by unfold KeyValue.WF; decide
  have hD : demoState.Deleted.WF := by unfold KeyValue.WF; decide
  have hdisj : demoState.Disjoint := by unfold DBTesting.Disjoint; decide
  ⟨hP, hD, hdisj, C20_random_classification demoEnv demoState hP hD hdisj 5⟩

theorem length_insertEntry [LinearOrder K] (key : K) (value : V) (l : List (K × V)) :
    (insertEntry key value l).1.length =
      if (insertEntry key value l).2 then l.length + 1 else l.length := by
  induction l with
  | nil => simp [insertEntry]
  | cons e rest ih =>
    simp only [insertEntry]
    split_ifs with h1 h2 h3 <;> simp_all

theorem length_deleteEntry [LinearOrder K] (key : K) (l : List (K × V)) :
    (deleteEntry key l).1.length + (if (deleteEntry key l).2.isSome then 1 else 0) =
      l.length := by
  induction l with
  | nil => simp [deleteEntry]
  | cons e rest ih =>
    simp only [deleteEntry]
    split_ifs with h1 h2 h3 h4 <;> simp_all

theorem lookupEntry_of_mem [LinearOrder K] (e : K × V) (l : List (K × V))
    (hl : (l.map Prod.fst).Pairwise (fun a b => a < b)) (he : e ∈ l) :
    lookupEntry e.1 l = some e.2 := by
  induction l with
  | nil => exact absurd he (by simp)
  | cons e' rest ih =>
    simp only [List.map_cons, List.pairwise_cons] at hl
    unfold lookupEntry
    rcases List.mem_cons.1 he with rfl | hm
    · rw [if_pos rfl]
    · have hlt := hl.1 e.1 (List.mem_map_of_mem _ hm)
      rw [if_neg (ne_of_lt hlt), ih hl.2 hm]

theorem andThen_st_prop {α β : Type} (P : DBTesting σ K V → Prop) (o : Outcome σ K V α)
    (f : α → DBTesting σ K V → Outcome σ K V β) (ho : P o.st)
    (hf : ∀ a s, P s → P (f a s).st) : P (o.andThen f).st := by
  unfold Outcome.andThen
  split
  · exact ho
  · exact hf _ _ ho

/-- Induction over the driver: a property of states kept by `PutRandom`, by `DeleteRandom`
and by a change of the random source holds in every state that the random rounds, the
warm-up and `DoDBTesting` reach. -/
theorem driver_induction [LinearOrder K] [DecidableEq V] (env : Env σ K V)
    (P : DBTesting σ K V → Prop)
    (hPut : ∀ s, P s → P (DBTesting.PutRandom env s).st)
    (hDel : ∀ s, P s → P (DBTesting.DeleteRandom env s).st)
    (hRand : ∀ (s : DBTesting σ K V) r, P s → P { s with Rand := r })
    (t : DBTesting σ K V) (h : P t) :
    (∀ n, P (DBTesting.RandomActLoop env n t).st) ∧ P (warmup env (installRand env t)).st ∧
      P (DoDBTesting env t).st := by
  have hloop : ∀ n s, P s → P (DBTesting.RandomActLoop env n s).st := by
    intro n
    induction n with
    | zero => intro s hs; exact hs
    | succ n ih =>
      intro s hs
      unfold DBTesting.RandomActLoop
      split
      · exact hs
      · apply andThen_st_prop P
        · split
          · exact hPut _ (hRand s _ hs)
          · exact hDel _ (hRand s _ hs)
        · intro _ s1 h1
          exact ih s1 h1
  have hwl : ∀ i s, P s → P (warmupLoop env i s).st := by
    intro i
    induction i with
    | zero =>
      intro s hs
      unfold warmupLoop
      exact andThen_st_prop P _ _ (hPut s hs) (fun _ _ h1 => h1)
    | succ i ih =>
      intro s hs
      unfold warmupLoop
      exact andThen_st_prop P _ _ (hPut s hs) (fun _ s1 h1 => ih s1 h1)
  have hw : ∀ s, P s → P (warmup env s).st := by
    intro s hs
    unfold warmup
    refine andThen_st_prop P _ _ (hDel s hs) (fun _ s1 h1 => ?_)
    refine andThen_st_prop P _ _ (hPut s1 h1) (fun _ s2 h2 => ?_)
    refine andThen_st_prop P _ _ (hDel s2 h2) (fun _ s3 h3 => ?_)
    refine andThen_st_prop P _ _ (hDel s3 h3) (fun _ s4 h4 => ?_)
    exact hwl _ s4 h4
  have hi : P (installRand env t) := by
    unfold installRand
    split
    · exact hRand t _ h
    · exact h
  refine ⟨fun n => hloop n t h, hw _ hi, ?_⟩
  unfold DoDBTesting
  exact andThen_st_prop P _ _ (hw _ hi) (fun _ s5 h5 => hloop _ s5 h5)

theorem Conserved.refl [LinearOrder K] (t : DBTesting σ K V) : Conserved t t :=
  ⟨fun _ => rfl, rfl⟩

theorem Conserved.trans [LinearOrder K] {t s u : DBTesting σ K V} (h1 : Conserved t s)
    (h2 : Conserved s u) : Conserved t u :=
  ⟨fun k => (h2.1 k).trans (h1.1 k), h2.2.trans h1.2⟩

theorem Conserved_of_shadow [LinearOrder K] {t s u : DBTesting σ K V}
    (hP : u.Present = s.Present) (hD : u.Deleted = s.Deleted) (h : Conserved t s) :
    Conserved t u := by
  unfold Conserved DBTesting.Universe at *
  rw [hP, hD]
  exact h

/-- Putting back an entry of `Deleted` moves it to `Present` with its value. -/
theorem Put_Conserved [LinearOrder K] [DecidableEq V] (env : Env σ K V)
    (t : DBTesting σ K V) (h : t.Inv) (e : K × V) (he : e ∈ t.Deleted.entries) :
    Conserved t (DBTesting.Put env t e.1 e.2).st := by
  obtain ⟨hP, hD, hdis⟩ := h
  have hnot : e.1 ∉ t.Present.keys := fun hm =>
    hdis e.1 hm (List.mem_map_of_mem _ he)
  have hlk : lookupEntry e.1 t.Deleted.entries = some e.2 := lookupEntry_of_mem e _ hD he
  unfold Conserved DBTesting.Universe
  rw [Put_Present, Put_Deleted]
  unfold KeyValue.Lookup KeyValue.PutU KeyValue.Delete KeyValue.Len
  simp only
  constructor
  · intro k
    rw [lookupEntry_insertEntry, lookupEntry_deleteEntry _ _ _ hD]
    by_cases hk : k = e.1
    · subst hk
      rw [if_pos rfl, (lookupEntry_eq_none_iff _ _).2 hnot, hlk]
    · rw [if_neg hk, if_neg hk]
  · have h1 := length_insertEntry e.1 e.2 t.Present.entries
    rw [(insertEntry_new_iff e.1 e.2 _ hP).2 hnot, if_pos rfl] at h1
    have h2 := length_deleteEntry e.1 t.Deleted.entries
    rw [deleteEntry_value _ _ hD, hlk] at h2
    simp only [Option.isSome_some, if_true] at h2
    omega

/-- Deleting a key of `Present` moves it to `Deleted` with its value. -/
theorem Delete_Conserved [LinearOrder K] (env : Env σ K V)
    (t : DBTesting σ K V) (h : t.Inv) (key : K) (hk : key ∈ t.Present.keys) :
    Conserved t (DBTesting.Delete env t key).st := by
  obtain ⟨hP, hD, hdis⟩ := h
  have hnot : key ∉ t.Deleted.keys := hdis key hk
  cases hv : t.Present.Lookup key with
  | none => exact absurd hk ((lookupEntry_eq_none_iff key t.Present.entries).1 hv)
  | some v =>
    have hs := Delete_shadow_present env t key v hP hv
    have h3 : (DBTesting.Delete env t key).st.Present = (t.Present.Delete key).1 :=
      congrArg (fun s => s.1) hs
    have h4 : (DBTesting.Delete env t key).st.Deleted = (t.Deleted.PutU key v).1 :=
      congrArg (fun s => s.2.1) hs
    unfold Conserved DBTesting.Universe
    rw [h3, h4]
    unfold KeyValue.Lookup at hv ⊢
    unfold KeyValue.PutU KeyValue.Delete KeyValue.Len
    simp only
    constructor
    · intro k
      rw [lookupEntry_insertEntry, lookupEntry_deleteEntry _ _ _ hP]
      by_cases hkk : k = key
      · subst hkk
        rw [if_pos rfl, if_pos rfl, hv]
      · rw [if_neg hkk, if_neg hkk]
    · have h1 := length_insertEntry key v t.Deleted.entries
      rw [(insertEntry_new_iff key v _ hD).2 hnot, if_pos rfl] at h1
      have h2 := length_deleteEntry key t.Present.entries
      rw [deleteEntry_value _ _ hP, hv] at h2
      simp only [Option.isSome_some, if_true] at h2
      omega

theorem PutRandom_InvConserved [LinearOrder K] [DecidableEq V] (env : Env σ K V)
    (t s : DBTesting σ K V) (h : s.Inv ∧ Conserved t s) :
    (DBTesting.PutRandom env s).st.Inv ∧ Conserved t (DBTesting.PutRandom env s).st := by
  refine ⟨PutRandom_Inv env s h.1, ?_⟩
  by_cases hpos : 0 < s.Deleted.Len
  · cases hr : s.Rand with
    | none =>
      unfold DBTesting.PutRandom
      rw [if_pos hpos, hr]
      exact h.2
    | some r =>
      obtain ⟨e, he⟩ := Index_of_lt s.Deleted (r.draws r.pos % s.Deleted.Len)
        (Nat.mod_lt _ hpos)
      rw [PutRandom_of_pos env s r hr hpos e he, andThen_ok_true_st]
      have hc := Put_Conserved env { s with Rand := some { r with pos := r.pos + 1 } }
        (Inv_of_shadow rfl rfl h.1) e (Index_mem _ _ e he)
      exact h.2.trans (Conserved.trans (Conserved_of_shadow rfl rfl (Conserved.refl s)) hc)
  · rw [PutRandom_of_empty env s (by omega)]
    exact h.2

theorem DeleteRandom_InvConserved [LinearOrder K] (env : Env σ K V)
    (t s : DBTesting σ K V) (h : s.Inv ∧ Conserved t s) :
    (DBTesting.DeleteRandom env s).st.Inv ∧ Conserved t (DBTesting.DeleteRandom env s).st := by
  refine ⟨DeleteRandom_Inv env s h.1, ?_⟩
  by_cases hpos : 0 < s.Present.Len
  · cases hr : s.Rand with
    | none =>
      unfold DBTesting.DeleteRandom
      rw [if_pos hpos, hr]
      exact h.2
    | some r =>
      obtain ⟨key, he⟩ := KeyAt_of_lt s.Present (r.draws r.pos % s.Present.Len)
        (Nat.mod_lt _ hpos)
      rw [DeleteRandom_of_pos env s r hr hpos key he, andThen_ok_true_st]
      have hc := Delete_Conserved env { s with Rand := some { r with pos := r.pos + 1 } }
        (Inv_of_shadow rfl rfl h.1) key (KeyAt_mem_keys _ _ key he)
      exact h.2.trans (Conserved.trans (Conserved_of_shadow rfl rfl (Conserved.refl s)) hc)
  · rw [DeleteRandom_of_empty env s (by omega)]
    exact h.2

theorem andThen_congr_st {α β : Type} (o : Outcome σ K V α)
    (f g : α → DBTesting σ K V → Outcome σ K V β) (h : ∀ a, f a o.st = g a o.st) :
    o.andThen f = o.andThen g := by
  unfold Outcome.andThen
  split
  · rfl
  · exact h _

/-- C19. Conservation of the key universe: from a state whose shadow sets are well-formed
and disjoint, every `PutRandom`, `DeleteRandom`, `RandomAct(r)` and `DoDBTesting` call,
completing or not, leaves the combined key-to-value mapping `Present ∪ Deleted` unchanged
(keys only move between the two sets, each keeping its value), so `|Present| + |Deleted|`
is constant, and the `RandomAct` round count in `DoDBTesting` is 10 times the initial
`|Present| + |Deleted|`. -/
theorem C19_universe_conservation [LinearOrder K] [DecidableEq V] (env : Env σ K V)
    (t : DBTesting σ K V) (hP : t.Present.WF) (hD : t.Deleted.WF) (hdisj : t.Disjoint)
    (round : Int) :
    Conserved t (DBTesting.PutRandom env t).st ∧
      Conserved t (DBTesting.DeleteRandom env t).st ∧
      Conserved t (DBTesting.RandomAct env t round).st ∧
      Conserved t (DoDBTesting env t).st ∧
      DoDBTesting env t = (warmup env (installRand env t)).andThen fun _ t5 =>
        DBTesting.RandomAct env t5 (((t.Deleted.Len + t.Present.Len) * 10 : Nat) : Int) := by
  have hinv : t.Inv := ⟨hP, hD, hdisj⟩
  have h0 : t.Inv ∧ Conserved t t := ⟨hinv, Conserved.refl t⟩
  have hdrv := driver_induction env (fun s => s.Inv ∧ Conserved t s)
    (fun s hs => PutRandom_InvConserved env t s hs)
    (fun s hs => DeleteRandom_InvConserved env t s hs)
    (fun s r hs => ⟨Inv_of_shadow rfl rfl hs.1, Conserved_of_shadow rfl rfl hs.2⟩) t h0
  refine ⟨(PutRandom_InvConserved env t t h0).2, (DeleteRandom_InvConserved env t t h0).2,
    (hdrv.1 _).2, hdrv.2.2.2, ?_⟩
  unfold DoDBTesting
  apply andThen_congr_st
  intro _
  have hsum := hdrv.2.1.2.2
  have : (warmup env (installRand env t)).st.Deleted.Len +
      (warmup env (installRand env t)).st.Present.Len = t.Deleted.Len + t.Present.Len := by
    omega
  simp only [this]

theorem C19_universe_conservation_witness :
    demoState.Present.WF ∧ demoState.Deleted.WF ∧ demoState.Disjoint ∧
    (Conserved demoState (DBTesting.PutRandom demoEnv demoState).st ∧
      Conserved demoState (DBTesting.DeleteRandom demoEnv demoState).st ∧
      Conserved demoState (DBTesting.RandomAct demoEnv demoState 5).st ∧
      Conserved demoState (DoDBTesting demoEnv demoState).st ∧
      DoDBTesting demoEnv demoState =
        (warmup demoEnv (installRand demoEnv demoState)).andThen fun _ t5 =>
          DBTesting.RandomAct demoEnv t5
            (((demoState.Deleted.Len + demoState.Present.Len) * 10 : Nat) : Int)) :=
  have hP : demoState.Present.WF := by unfold KeyValue.WF; decide
  have hD : demoState.Deleted.WF := by unfold KeyValue.WF; decide
  have hdisj : demoState.Disjoint := by unfold DBTesting.Disjoint; decide
  ⟨hP, hD, hdisj, C19_universe_conservation demoEnv demoState hP hD hdisj 5⟩

theorem Expect_same (b : Bool) (kind : FailureKind) (d d' : String)
    (t t' : DBTesting σ K V) (h : SameButRecord t t') :
    SameOutcome (Expect b kind d t) (Expect b kind d' t') := by
  unfold Expect
  cases b
  · exact ⟨h, rfl⟩
  · exact ⟨h, rfl⟩

theorem andThen_same {α β : Type} (o o' : Outcome σ K V α)
    (f f' : α → DBTesting σ K V → Outcome σ K V β) (ho : SameOutcome o o')
    (hf : ∀ a s s', SameButRecord s s' → SameOutcome (f a s) (f' a s')) :
    SameOutcome (o.andThen f) (o'.andThen f') := by
  obtain ⟨hst, hres⟩ := ho
  unfold Outcome.andThen
  cases h1 : o.res with
  | error e =>
    cases h2 : o'.res with
    | error e' =>
      rw [h1, h2] at hres
      exact ⟨hst, hres⟩
    | ok a' => rw [h1, h2] at hres; exact absurd hres (by simp [SameRes])
  | ok a =>
    cases h2 : o'.res with
    | error e' => rw [h1, h2] at hres; exact absurd hres (by simp [SameRes])
    | ok a' =>
      rw [h1, h2] at hres
      have : a = a' := hres
      subst this
      exact hf a _ _ hst

theorem dbGet_same (env : Env σ K V) (t t' : DBTesting σ K V) (key : K)
    (h : SameButRecord t t') :
    (DBTesting.dbGet env t' key).1 = (DBTesting.dbGet env t key).1 ∧
      SameButRecord (DBTesting.dbGet env t key).2 (DBTesting.dbGet env t' key).2 := by
  obtain ⟨h1, h2, h3, h4, h5⟩ := h
  unfold DBTesting.dbGet SameButRecord
  simp only [h1, h2, h3, h4, h5, and_self]

theorem dbPut_same (env : Env σ K V) (t t' : DBTesting σ K V) (key : K) (value : V)
    (h : SameButRecord t t') :
    (DBTesting.dbPut env t' key value).1 = (DBTesting.dbPut env t key value).1 ∧
      SameButRecord (DBTesting.dbPut env t key value).2 (DBTesting.dbPut env t' key value).2 := by
  obtain ⟨h1, h2, h3, h4, h5⟩ := h
  unfold DBTesting.dbPut SameButRecord
  simp only [h1, h2, h3, h4, h5, and_self]

theorem dbDelete_same (env : Env σ K V) (t t' : DBTesting σ K V) (key : K)
    (h : SameButRecord t t') :
    (DBTesting.dbDelete env t' key).1 = (DBTesting.dbDelete env t key).1 ∧
      SameButRecord (DBTesting.dbDelete env t key).2 (DBTesting.dbDelete env t' key).2 := by
  obtain ⟨h1, h2, h3, h4, h5⟩ := h
  unfold DBTesting.dbDelete SameButRecord
  simp only [h1, h2, h3, h4, h5, and_self]

theorem TestPresentKV_same [DecidableEq V] (env : Env σ K V) (t t' : DBTesting σ K V)
    (key : K) (value : V) (h : SameButRecord t t') :
    SameOutcome (DBTesting.TestPresentKV env t key value)
      (DBTesting.TestPresentKV env t' key value) := by
  obtain ⟨hg, hs⟩ := dbGet_same env t t' key h
  unfold DBTesting.TestPresentKV
  rw [hg]
  exact andThen_same _ _ _ _ (Expect_same _ _ _ _ _ _ hs)
    (fun _ s s' hss => Expect_same _ _ _ _ _ _ hss)

theorem TestDeletedKey_same (env : Env σ K V) (t t' : DBTesting σ K V)
    (key : K) (h : SameButRecord t t') :
    SameOutcome (DBTesting.TestDeletedKey env t key) (DBTesting.TestDeletedKey env t' key) := by
  obtain ⟨hg, hs⟩ := dbGet_same env t t' key h
  unfold DBTesting.TestDeletedKey
  rw [hg]
  exact Expect_same _ _ _ _ _ _ hs

theorem post_same (env : Env σ K V) (hhook : env.PostFn = none) (t t' : DBTesting σ K V)
    (h : SameButRecord t t') :
    SameOutcome (DBTesting.post env t) (DBTesting.post env t') := by
  unfold DBTesting.post
  rw [hhook]
  exact ⟨h, rfl⟩

theorem Put_same [LinearOrder K] [DecidableEq V] (env : Env σ K V)
    (hhook : env.PostFn = none) (t t' : DBTesting σ K V) (key : K) (value : V)
    (h : SameButRecord t t') :
    SameOutcome (DBTesting.Put env t key value) (DBTesting.Put env t' key value) := by
  have hsh : SameButRecord (t.putShadow key value) (t'.putShadow key value) := by
    obtain ⟨h1, h2, h3, h4, h5⟩ := h
    unfold DBTesting.putShadow SameButRecord
    simp only [h1, h2, h3, h4, h5, and_self]
  obtain ⟨hp, hs⟩ := dbPut_same env _ _ key value hsh
  rw [Put_unfold, Put_unfold, hp]
  refine andThen_same _ _ _ _ (Expect_same _ _ _ _ _ _ hs) (fun _ s s' hss => ?_)
  refine andThen_same _ _ _ _ (TestPresentKV_same env s s' key value hss) (fun _ u u' huu => ?_)
  exact post_same env hhook u u' huu

theorem Delete_same [LinearOrder K] (env : Env σ K V)
    (hhook : env.PostFn = none) (t t' : DBTesting σ K V) (key : K)
    (h : SameButRecord t t') :
    SameOutcome (DBTesting.Delete env t key) (DBTesting.Delete env t' key) := by
  have hsh : SameButRecord (t.deleteShadow key) (t'.deleteShadow key) := by
    obtain ⟨h1, h2, h3, h4, h5⟩ := h
    unfold DBTesting.deleteShadow SameButRecord
    simp only [h1, h2, h3, h4, h5, and_self]
  obtain ⟨hp, hs⟩ := dbDelete_same env _ _ key hsh
  rw [Delete_unfold, Delete_unfold, hp]
  refine andThen_same _ _ _ _ (Expect_same _ _ _ _ _ _ hs) (fun _ s s' hss => ?_)
  refine andThen_same _ _ _ _ (TestDeletedKey_same env s s' key hss) (fun _ u u' huu => ?_)
  exact post_same env hhook u u' huu

theorem PutRandom_of_nil [LinearOrder K] [DecidableEq V] (env : Env σ K V)
    (t : DBTesting σ K V) (hpos : 0 < t.Deleted.Len) (hr : t.Rand = none) :
    DBTesting.PutRandom env t =
      ⟨.error ⟨FailureKind.NilRand, "nil pointer dereference"⟩, t⟩ := by
  unfold DBTesting.PutRandom
  rw [if_pos hpos, hr]

theorem DeleteRandom_of_nil [LinearOrder K] (env : Env σ K V)
    (t : DBTesting σ K V) (hpos : 0 < t.Present.Len) (hr : t.Rand = none) :
    DBTesting.DeleteRandom env t =
      ⟨.error ⟨FailureKind.NilRand, "nil pointer dereference"⟩, t⟩ := by
  unfold DBTesting.DeleteRandom
  rw [if_pos hpos, hr]

theorem SameButRecord_withRand (t t' : DBTesting σ K V) (r : Option RandSrc)
    (h : SameButRecord t t') :
    SameButRecord { t with Rand := r } { t' with Rand := r } := by
  obtain ⟨_, h2, h3, h4, h5⟩ := h
  exact ⟨rfl, h2, h3, h4, h5⟩

theorem PutRandom_same [LinearOrder K] [DecidableEq V] (env : Env σ K V)
    (hhook : env.PostFn = none) (t t' : DBTesting σ K V) (h : SameButRecord t t') :
    SameOutcome (DBTesting.PutRandom env t) (DBTesting.PutRandom env t') := by
  have hR : t'.Rand = t.Rand := h.1
  have hD : t'.Deleted = t.Deleted := h.2.2.2.1
  by_cases hpos : 0 < t.Deleted.Len
  · have hpos' : 0 < t'.Deleted.Len := by rw [hD]; exact hpos
    cases hr : t.Rand with
    | none =>
      rw [PutRandom_of_nil env t hpos hr, PutRandom_of_nil env t' hpos' (hR.trans hr)]
      exact ⟨h, rfl⟩
    | some r =>
      obtain ⟨e, he⟩ := Index_of_lt t.Deleted (r.draws r.pos % t.Deleted.Len)
        (Nat.mod_lt _ hpos)
      have he' : t'.Deleted.Index (r.draws r.pos % t'.Deleted.Len) = some e := by
        rw [hD]; exact he
      rw [PutRandom_of_pos env t r hr hpos e he,
        PutRandom_of_pos env t' r (hR.trans hr) hpos' e he']
      exact andThen_same _ _ _ _
        (Put_same env hhook _ _ e.1 e.2 (SameButRecord_withRand t t' _ h))
        (fun _ s s' hss => ⟨hss, rfl⟩)
  · rw [PutRandom_of_empty env t (by omega),
      PutRandom_of_empty env t' (by rw [hD]; omega)]
    exact ⟨h, rfl⟩

theorem DeleteRandom_same [LinearOrder K] (env : Env σ K V)
    (hhook : env.PostFn = none) (t t' : DBTesting σ K V) (h : SameButRecord t t') :
    SameOutcome (DBTesting.DeleteRandom env t) (DBTesting.DeleteRandom env t') := by
  have hR : t'.Rand = t.Rand := h.1
  have hP : t'.Present = t.Present := h.2.2.2.2
  by_cases hpos : 0 < t.Present.Len
  · have hpos' : 0 < t'.Present.Len := by rw [hP]; exact hpos
    cases hr : t.Rand with
    | none =>
      rw [DeleteRandom_of_nil env t hpos hr, DeleteRandom_of_nil env t' hpos' (hR.trans hr)]
      exact ⟨h, rfl⟩
    | some r =>
      obtain ⟨key, he⟩ := KeyAt_of_lt t.Present (r.draws r.pos % t.Present.Len)
        (Nat.mod_lt _ hpos)
      have he' : t'.Present.KeyAt (r.draws r.pos % t'.Present.Len) = some key := by
        rw [hP]; exact he
      rw [DeleteRandom_of_pos env t r hr hpos key he,
        DeleteRandom_of_pos env t' r (hR.trans hr) hpos' key he']
      exact andThen_same _ _ _ _
        (Delete_same env hhook _ _ key (SameButRecord_withRand t t' _ h))
        (fun _ s s' hss => ⟨hss, rfl⟩)
  · rw [DeleteRandom_of_empty env t (by omega),
      DeleteRandom_of_empty env t' (by rw [hP]; omega)]
    exact ⟨h, rfl⟩

theorem RandomActLoop_same [LinearOrder K] [DecidableEq V] (env : Env σ K V)
    (hhook : env.PostFn = none) (n : Nat) (t t' : DBTesting σ K V) (h : SameButRecord t t') :
    SameOutcome (DBTesting.RandomActLoop env n t) (DBTesting.RandomActLoop env n t') := by
  induction n generalizing t t' with
  | zero => exact ⟨h, rfl⟩
  | succ n ih =>
    have hR : t'.Rand = t.Rand := h.1
    unfold DBTesting.RandomActLoop
    rw [hR]
    cases hr : t.Rand with
    | none => exact ⟨h, rfl⟩
    | some r =>
      simp only
      refine andThen_same _ _ _ _ ?_ (fun _ s s' hss => ih s s' hss)
      split
      · exact PutRandom_same env hhook _ _ (SameButRecord_withRand t t' _ h)
      · exact DeleteRandom_same env hhook _ _ (SameButRecord_withRand t t' _ h)

theorem warmupLoop_same [LinearOrder K] [DecidableEq V] (env : Env σ K V)
    (hhook : env.PostFn = none) (i : Nat) (t t' : DBTesting σ K V) (h : SameButRecord t t') :
    SameOutcome (warmupLoop env i t) (warmupLoop env i t') := by
  induction i generalizing t t' with
  | zero =>
    unfold warmupLoop
    exact andThen_same _ _ _ _ (PutRandom_same env hhook t t' h) (fun _ s s' hss => ⟨hss, rfl⟩)
  | succ i ih =>
    unfold warmupLoop
    exact andThen_same _ _ _ _ (PutRandom_same env hhook t t' h) (fun _ s s' hss => ih s s' hss)

theorem warmup_same [LinearOrder K] [DecidableEq V] (env : Env σ K V)
    (hhook : env.PostFn = none) (t t' : DBTesting σ K V) (h : SameButRecord t t') :
    SameOutcome (warmup env t) (warmup env t') := by
  unfold warmup
  refine andThen_same _ _ _ _ (DeleteRandom_same env hhook t t' h) (fun _ s1 s1' h1 => ?_)
  refine andThen_same _ _ _ _ (PutRandom_same env hhook s1 s1' h1) (fun _ s2 s2' h2 => ?_)
  refine andThen_same _ _ _ _ (DeleteRandom_same env hhook s2 s2' h2) (fun _ s3 s3' h3 => ?_)
  refine andThen_same _ _ _ _ (DeleteRandom_same env hhook s3 s3' h3) (fun _ s4 s4' h4 => ?_)
  have hD : s4'.Deleted = s4.Deleted := h4.2.2.2.1
  rw [hD]
  exact warmupLoop_same env hhook _ s4 s4' h4

theorem installRand_same (env : Env σ K V) (t t' : DBTesting σ K V) (h : SameButRecord t t') :
    SameButRecord (installRand env t) (installRand env t') := by
  have hR : t'.Rand = t.Rand := h.1
  unfold installRand
  rw [hR]
  cases t.Rand with
  | none => exact SameButRecord_withRand t t' _ h
  | some r => exact h

theorem DoDBTesting_same [LinearOrder K] [DecidableEq V] (env : Env σ K V)
    (hhook : env.PostFn = none) (t t' : DBTesting σ K V) (h : SameButRecord t t') :
    SameOutcome (DoDBTesting env t) (DoDBTesting env t') := by
  unfold DoDBTesting
  refine andThen_same _ _ _ _ (warmup_same env hhook _ _ (installRand_same env t t' h))
    (fun _ s5 s5' h5 => ?_)
  have hD : s5'.Deleted = s5.Deleted := h5.2.2.2.1
  have hP : s5'.Present = s5.Present := h5.2.2.2.2
  rw [hD, hP]
  exact RandomActLoop_same env hhook _ s5 s5' h5

theorem TestAllVisit_same [DecidableEq V] (env : Env σ K V) (dn i : Nat)
    (s s' : DBTesting σ K V) (h : SameButRecord s s') :
    SameOutcome (TestAllVisit env dn i s) (TestAllVisit env dn i s') := by
  have hD : s'.Deleted = s.Deleted := h.2.2.2.1
  have hP : s'.Present = s.Present := h.2.2.2.2
  unfold TestAllVisit
  rw [hD, hP]
  split
  · cases s.Present.Index (i - dn) with
    | none => exact ⟨h, rfl⟩
    | some e => exact TestPresentKV_same env s s' e.1 e.2 h
  · cases s.Deleted.KeyAt i with
    | none => exact ⟨h, rfl⟩
    | some key => exact TestDeletedKey_same env s s' key h

theorem forEachIndex_same (fn : Nat → DBTesting σ K V → Outcome σ K V Unit)
    (hfn : ∀ i s s', SameButRecord s s' → SameOutcome (fn i s) (fn i s'))
    (order : List Nat) (s s' : DBTesting σ K V) (h : SameButRecord s s') :
    SameOutcome (forEachIndex fn order s) (forEachIndex fn order s') := by
  induction order generalizing s s' with
  | nil => exact ⟨h, rfl⟩
  | cons i rest ih =>
    unfold forEachIndex
    exact andThen_same _ _ _ _ (hfn i s s' h) (fun _ u u' huu => ih u u' huu)

theorem TestAll_same [DecidableEq V] (env : Env σ K V) (t t' : DBTesting σ K V)
    (h : SameButRecord t t') :
    SameOutcome (DBTesting.TestAll env t) (DBTesting.TestAll env t') := by
  have hR : t'.Rand = t.Rand := h.1
  have hD : t'.Deleted = t.Deleted := h.2.2.2.1
  have hP : t'.Present = t.Present := h.2.2.2.2
  unfold DBTesting.TestAll ShuffledIndex
  rw [hR, hD, hP]
  exact forEachIndex_same _ (fun i s s' hss => TestAllVisit_same env _ i s s' hss) _ _ _
    ⟨rfl, h.2.1, h.2.2.1, rfl, rfl⟩

/-- C17. The action record is not used for control flow: without a post hook, from two
states that differ only in `Act`, `LastAct`, `ActKey` and `LastActKey`, each of `Put`,
`Delete`, `PutRandom`, `DeleteRandom`, `RandomAct`, `DoDBTesting` and `TestAll` issues the
same store calls, reaches the same random source, store, `Present` and `Deleted`, returns
the same value and passes or fails alike, with a failure of the same kind; only the
diagnostic text may differ. -/
theorem C17_record_not_control_flow [LinearOrder K] [DecidableEq V] (env : Env σ K V)
    (hhook : env.PostFn = none) (t t' : DBTesting σ K V) (h : SameButRecord t t')
    (key : K) (value : V) (round : Int) :
    SameOutcome (DBTesting.Put env t key value) (DBTesting.Put env t' key value) ∧
      SameOutcome (DBTesting.Delete env t key) (DBTesting.Delete env t' key) ∧
      SameOutcome (DBTesting.PutRandom env t) (DBTesting.PutRandom env t') ∧
      SameOutcome (DBTesting.DeleteRandom env t) (DBTesting.DeleteRandom env t') ∧
      SameOutcome (DBTesting.RandomAct env t round) (DBTesting.RandomAct env t' round) ∧
      SameOutcome (DoDBTesting env t) (DoDBTesting env t') ∧
      SameOutcome (DBTesting.TestAll env t) (DBTesting.TestAll env t') :=
  ⟨Put_same env hhook t t' key value h, Delete_same env hhook t t' key h,
    PutRandom_same env hhook t t' h, DeleteRandom_same env hhook t t' h,
    RandomActLoop_same env hhook _ t t' h, DoDBTesting_same env hhook t t' h,
    TestAll_same env t t' h⟩

theorem C17_record_not_control_flow_witness :
    demoEnv.PostFn = none ∧ SameButRecord demoState demoStateRelabelled ∧
    (SameOutcome (DBTesting.Put demoEnv demoState [99] [52])
        (DBTesting.Put demoEnv demoStateRelabelled [99] [52]) ∧
      SameOutcome (DBTesting.Delete demoEnv demoState [99])
        (DBTesting.Delete demoEnv demoStateRelabelled [99]) ∧
      SameOutcome (DBTesting.PutRandom demoEnv demoState)
        (DBTesting.PutRandom demoEnv demoStateRelabelled) ∧
      SameOutcome (DBTesting.DeleteRandom demoEnv demoState)
        (DBTesting.DeleteRandom demoEnv demoStateRelabelled) ∧
      SameOutcome (DBTesting.RandomAct demoEnv demoState 3)
        (DBTesting.RandomAct demoEnv demoStateRelabelled 3) ∧
      SameOutcome (DoDBTesting demoEnv demoState) (DoDBTesting demoEnv demoStateRelabelled) ∧
      SameOutcome (DBTesting.TestAll demoEnv demoState)
        (DBTesting.TestAll demoEnv demoStateRelabelled)) :=
  have hs : SameButRecord demoState demoStateRelabelled := ⟨rfl, rfl, rfl, rfl, rfl⟩
  ⟨rfl, hs, C17_record_not_control_flow demoEnv rfl demoState demoStateRelabelled hs [99] [52] 3⟩

end DriverClaims

/-! ## No false alarms against a map store -/

section MapStoreClaims
variable {σ K V : Type}

theorem post_quiet (env : Env σ K V) (view : σ → K → Option V) (hq : QuietHook env view)
    (s : DBTesting σ K V) :
    (DBTesting.post env s).completed = true ∧
      view (DBTesting.post env s).st.DB = view s.DB ∧
      ((DBTesting.post env s).st.Rand = none → s.Rand = none) := by
  unfold DBTesting.post
  cases hp : env.PostFn with
  | none => exact ⟨rfl, rfl, fun h => h⟩
  | some fn =>
    obtain ⟨h1, h2, h3⟩ := hq fn hp s
    simp only
    rw [h1]
    exact ⟨rfl, h2, h3⟩

theorem TestPresentKV_Rand [DecidableEq V] (env : Env σ K V) (t : DBTesting σ K V)
    (key : K) (value : V) : (DBTesting.TestPresentKV env t key value).st.Rand = t.Rand := by
  unfold DBTesting.TestPresentKV Outcome.andThen
  split
  · rw [Expect_st]; rfl
  · simp only [Expect_st]; rfl

theorem TestDeletedKey_Rand (env : Env σ K V) (t : DBTesting σ K V) (key : K) :
    (DBTesting.TestDeletedKey env t key).st.Rand = t.Rand := by
  unfold DBTesting.TestDeletedKey
  rw [Expect_st]; rfl

/-- Against a map store in agreement with the shadow, `Put(k, v)` completes and the
agreement holds again, whether a random source is installed or not; the call does not
remove the random source. -/
theorem Put_agreeing [LinearOrder K] [DecidableEq V] (env : Env σ K V)
    (view : σ → K → Option V) (hmap : BehavesAsMap env.DB view) (hq : QuietHook env view)
    (t : DBTesting σ K V) (key : K) (value : V) (h : Consistent view t) :
    (DBTesting.Put env t key value).completed = true ∧
      Consistent view (DBTesting.Put env t key value).st ∧
      ((DBTesting.Put env t key value).st.Rand = none → t.Rand = none) := by
  obtain ⟨hP, hD, hag⟩ := h
  obtain ⟨_, hput, _⟩ := hmap t.DB key
  obtain ⟨hp1, hp2, hp3⟩ := hput value
  obtain ⟨hg1, hg2, _⟩ := (hmap (env.DB.Put t.DB key value).2 key).1
  have hget := hg2 value hp2
  -- the three stages of the call
  have e1 : (Expect (DBTesting.dbPut env (t.putShadow key value) key value).1.isNone
      FailureKind.WriteError
      (env.Sprintf (DBTesting.Text env (DBTesting.dbPut env (t.putShadow key value) key value).2))
      (DBTesting.dbPut env (t.putShadow key value) key value).2).res = .ok () := by
    have : (DBTesting.dbPut env (t.putShadow key value) key value).1 = none := hp1
    rw [this]; rfl
  have e2 : (DBTesting.TestPresentKV env
      (DBTesting.dbPut env (t.putShadow key value) key value).2 key value).res = .ok () :=
    (completed_iff_ok _).1 ((TestPresentKV_completed env _ key value).2 hget)
  have hrun : DBTesting.Put env t key value =
      DBTesting.post env (DBTesting.TestPresentKV env
        (DBTesting.dbPut env (t.putShadow key value) key value).2 key value).st := by
    rw [Put_unfold, andThen_eq_of_ok _ _ () e1, Expect_st, andThen_eq_of_ok _ _ () e2]
  obtain ⟨hc, hv, hr⟩ := post_quiet env view hq (DBTesting.TestPresentKV env
        (DBTesting.dbPut env (t.putShadow key value) key value).2 key value).st
  have hview : view (DBTesting.Put env t key value).st.DB =
      view (env.DB.Put t.DB key value).2 := by
    rw [hrun, hv, TestPresentKV_DB]
    exact hg1
  have hPres := Put_Present env t key value
  have hDel := Put_Deleted env t key value
  refine ⟨by rw [hrun]; exact hc, ⟨?_, ?_, ⟨?_, ?_⟩⟩, ?_⟩
  · rw [hPres]; exact pairwise_keys_insertEntry key value _ hP
  · rw [hDel]; exact pairwise_keys_deleteEntry key _ hD
  · intro k v hk
    rw [hPres] at hk
    unfold KeyValue.Lookup KeyValue.PutU at hk
    simp only at hk
    rw [lookupEntry_insertEntry] at hk
    rw [hview]
    by_cases hkk : k = key
    · subst hkk
      rw [if_pos rfl] at hk
      rw [← hk]; exact hp2
    · rw [if_neg hkk] at hk
      rw [hp3 k hkk]
      exact hag.1 k v hk
  · intro k hk
    rw [hDel] at hk
    obtain ⟨hne, hm⟩ := (mem_keys_deleteEntry key k t.Deleted.entries hD).1 hk
    rw [hview, hp3 k hne]
    exact hag.2 k hm
  · intro hn
    rw [hrun] at hn
    have h1 := hr hn
    rw [TestPresentKV_Rand] at h1
    exact h1

/-- Against a map store in agreement with the shadow, with a random source installed,
`Put(k, v)` completes and leaves a sound state. -/
theorem Put_sound [LinearOrder K] [DecidableEq V] (env : Env σ K V)
    (view : σ → K → Option V) (hmap : BehavesAsMap env.DB view) (hq : QuietHook env view)
    (t : DBTesting σ K V) (key : K) (value : V) (h : Sound view t) :
    (DBTesting.Put env t key value).completed = true ∧
      Sound view (DBTesting.Put env t key value).st := by
  obtain ⟨hc, ⟨hP, hD, hag⟩, hr⟩ :=
    Put_agreeing env view hmap hq t key value ⟨h.1, h.2.1, h.2.2.1⟩
  exact ⟨hc, hP, hD, hag, fun hn => h.2.2.2 (hr hn)⟩

/-- Against a map store in agreement with the shadow, `Delete(k)` completes and the
agreement holds again, whether a random source is installed or not; the call does not
remove the random source. -/
theorem Delete_agreeing [LinearOrder K] (env : Env σ K V)
    (view : σ → K → Option V) (hmap : BehavesAsMap env.DB view) (hq : QuietHook env view)
    (t : DBTesting σ K V) (key : K) (h : Consistent view t) :
    (DBTesting.Delete env t key).completed = true ∧
      Consistent view (DBTesting.Delete env t key).st ∧
      ((DBTesting.Delete env t key).st.Rand = none → t.Rand = none) := by
  obtain ⟨hP, hD, hag⟩ := h
  obtain ⟨_, _, hd1, hd2, hd3⟩ := hmap t.DB key
  obtain ⟨hg1, _, hg3⟩ := (hmap (env.DB.Delete t.DB key).2 key).1
  have hget := hg3 hd2
  have e1 : (Expect (DBTesting.dbDelete env (t.deleteShadow key) key).1.isNone
      FailureKind.WriteError
      (env.Sprintf (DBTesting.Text env (DBTesting.dbDelete env (t.deleteShadow key) key).2))
      (DBTesting.dbDelete env (t.deleteShadow key) key).2).res = .ok () := by
    have : (DBTesting.dbDelete env (t.deleteShadow key) key).1 = none := hd1
    rw [this]; rfl
  have e2 : (DBTesting.TestDeletedKey env
      (DBTesting.dbDelete env (t.deleteShadow key) key).2 key).res = .ok () :=
    (completed_iff_ok _).1 ((TestDeletedKey_completed env _ key).2 hget)
  have hrun : DBTesting.Delete env t key =
      DBTesting.post env (DBTesting.TestDeletedKey env
        (DBTesting.dbDelete env (t.deleteShadow key) key).2 key).st := by
    rw [Delete_unfold, andThen_eq_of_ok _ _ () e1, Expect_st, andThen_eq_of_ok _ _ () e2]
  obtain ⟨hc, hv, hr⟩ := post_quiet env view hq (DBTesting.TestDeletedKey env
        (DBTesting.dbDelete env (t.deleteShadow key) key).2 key).st
  have hview : view (DBTesting.Delete env t key).st.DB =
      view (env.DB.Delete t.DB key).2 := by
    rw [hrun, hv, TestDeletedKey_DB]
    exact hg1
  have hPres := Delete_Present env t key
  have hDel := Delete_Deleted env t key
  have hstored : ∀ k, k ∈ t.Deleted.keys → view (env.DB.Delete t.DB key).2 k = none := by
    intro k hk
    by_cases hkk : k = key
    · rw [hkk]; exact hd2
    · rw [hd3 k hkk]; exact hag.2 k hk
  refine ⟨by rw [hrun]; exact hc, ⟨?_, ?_, ⟨?_, ?_⟩⟩, ?_⟩
  · rw [hPres]; exact pairwise_keys_deleteEntry key _ hP
  · rw [hDel]
    split
    · exact pairwise_keys_insertEntry key _ _ hD
    · exact hD
  · intro k v hk
    rw [hPres] at hk
    unfold KeyValue.Lookup KeyValue.Delete at hk
    simp only at hk
    rw [lookupEntry_deleteEntry _ _ _ hP] at hk
    rw [hview]
    by_cases hkk : k = key
    · rw [if_pos hkk] at hk
      exact absurd hk (by simp)
    · rw [if_neg hkk] at hk
      rw [hd3 k hkk]
      exact hag.1 k v hk
  · intro k hk
    rw [hDel] at hk
    rw [hview]
    split at hk
    · rcases (mem_keys_insertEntry key _ k t.Deleted.entries).1 hk with hkk | hm
      · rw [hkk]; exact hd2
      · exact hstored k hm
    · exact hstored k hk
  · intro hn
    rw [hrun] at hn
    have h1 := hr hn
    rw [TestDeletedKey_Rand] at h1
    have h2 : (DBTesting.dbDelete env (t.deleteShadow key) key).2.Rand = t.Rand := rfl
    exact h2 ▸ h1

/-- Against a map store in agreement with the shadow, with a random source installed,
`Delete(k)` completes and leaves a sound state. -/
theorem Delete_sound [LinearOrder K] (env : Env σ K V)
    (view : σ → K → Option V) (hmap : BehavesAsMap env.DB view) (hq : QuietHook env view)
    (t : DBTesting σ K V) (key : K) (h : Sound view t) :
    (DBTesting.Delete env t key).completed = true ∧
      Sound view (DBTesting.Delete env t key).st := by
  obtain ⟨hc, ⟨hP, hD, hag⟩, hr⟩ :=
    Delete_agreeing env view hmap hq t key ⟨h.1, h.2.1, h.2.2.1⟩
  exact ⟨hc, hP, hD, hag, fun hn => h.2.2.2 (hr hn)⟩

theorem Sound_withRand [LinearOrder K] (view : σ → K → Option V) (t : DBTesting σ K V)
    (r : RandSrc) (h : Sound view t) : Sound view { t with Rand := some r } :=
  ⟨h.1, h.2.1, h.2.2.1, by simp⟩

theorem PutRandom_sound [LinearOrder K] [DecidableEq V] (env : Env σ K V)
    (view : σ → K → Option V) (hmap : BehavesAsMap env.DB view) (hq : QuietHook env view)
    (t : DBTesting σ K V) (h : Sound view t) :
    (DBTesting.PutRandom env t).completed = true ∧
      Sound view (DBTesting.PutRandom env t).st := by
  by_cases hpos : 0 < t.Deleted.Len
  · cases hr : t.Rand with
    | none => exact absurd hr h.2.2.2
    | some r =>
      obtain ⟨e, he⟩ := Index_of_lt t.Deleted (r.draws r.pos % t.Deleted.Len)
        (Nat.mod_lt _ hpos)
      rw [PutRandom_of_pos env t r hr hpos e he, andThen_ok_true_st]
      obtain ⟨hc, hs⟩ := Put_sound env view hmap hq
        { t with Rand := some { r with pos := r.pos + 1 } } e.1 e.2 (Sound_withRand view t _ h)
      refine ⟨?_, hs⟩
      rw [andThen_eq_of_ok _ _ () ((completed_iff_ok _).1 hc)]
      rfl
  · rw [PutRandom_of_empty env t (by omega)]
    exact ⟨rfl, h⟩

theorem DeleteRandom_sound [LinearOrder K] (env : Env σ K V)
    (view : σ → K → Option V) (hmap : BehavesAsMap env.DB view) (hq : QuietHook env view)
    (t : DBTesting σ K V) (h : Sound view t) :
    (DBTesting.DeleteRandom env t).completed = true ∧
      Sound view (DBTesting.DeleteRandom env t).st := by
  by_cases hpos : 0 < t.Present.Len
  · cases hr : t.Rand with
    | none => exact absurd hr h.2.2.2
    | some r =>
      obtain ⟨key, he⟩ := KeyAt_of_lt t.Present (r.draws r.pos % t.Present.Len)
        (Nat.mod_lt _ hpos)
      rw [DeleteRandom_of_pos env t r hr hpos key he, andThen_ok_true_st]
      obtain ⟨hc, hs⟩ := Delete_sound env view hmap hq
        { t with Rand := some { r with pos := r.pos + 1 } } key (Sound_withRand view t _ h)
      refine ⟨?_, hs⟩
      rw [andThen_eq_of_ok _ _ () ((completed_iff_ok _).1 hc)]
      rfl
  · rw [DeleteRandom_of_empty env t (by omega)]
    exact ⟨rfl, h⟩

theorem andThen_completed_prop {α β : Type} (P : DBTesting σ K V → Prop)
    (o : Outcome σ K V α) (f : α → DBTesting σ K V → Outcome σ K V β)
    (ho : o.completed = true ∧ P o.st)
    (hf : ∀ a s, P s → (f a s).completed = true ∧ P (f a s).st) :
    (o.andThen f).completed = true ∧ P (o.andThen f).st := by
  obtain ⟨hc, hp⟩ := ho
  unfold Outcome.completed at hc
  cases hr : o.res with
  | error e => rw [hr] at hc; exact absurd hc (by simp)
  | ok a =>
    rw [andThen_eq_of_ok _ _ a hr]
    exact hf a _ hp

theorem RandomActLoop_sound [LinearOrder K] [DecidableEq V] (env : Env σ K V)
    (view : σ → K → Option V) (hmap : BehavesAsMap env.DB view) (hq : QuietHook env view)
    (n : Nat) (t : DBTesting σ K V) (h : Sound view t) :
    (DBTesting.RandomActLoop env n t).completed = true ∧
      Sound view (DBTesting.RandomActLoop env n t).st := by
  induction n generalizing t with
  | zero => exact ⟨rfl, h⟩
  | succ n ih =>
    unfold DBTesting.RandomActLoop
    cases hr : t.Rand with
    | none => exact absurd hr h.2.2.2
    | some r =>
      simp only
      refine andThen_completed_prop (Sound view) _ _ ?_ (fun _ s hs => ih s hs)
      split
      · exact PutRandom_sound env view hmap hq _ (Sound_withRand view t _ h)
      · exact DeleteRandom_sound env view hmap hq _ (Sound_withRand view t _ h)

theorem warmupLoop_sound [LinearOrder K] [DecidableEq V] (env : Env σ K V)
    (view : σ → K → Option V) (hmap : BehavesAsMap env.DB view) (hq : QuietHook env view)
    (i : Nat) (t : DBTesting σ K V) (h : Sound view t) :
    (warmupLoop env i t).completed = true ∧ Sound view (warmupLoop env i t).st := by
  induction i generalizing t with
  | zero =>
    unfold warmupLoop
    exact andThen_completed_prop (Sound view) _ _ (PutRandom_sound env view hmap hq t h)
      (fun _ s hs => ⟨rfl, hs⟩)
  | succ i ih =>
    unfold warmupLoop
    exact andThen_completed_prop (Sound view) _ _ (PutRandom_sound env view hmap hq t h)
      (fun _ s hs => ih s hs)

theorem warmup_sound [LinearOrder K] [DecidableEq V] (env : Env σ K V)
    (view : σ → K → Option V) (hmap : BehavesAsMap env.DB view) (hq : QuietHook env view)
    (t : DBTesting σ K V) (h : Sound view t) :
    (warmup env t).completed = true ∧ Sound view (warmup env t).st := by
  unfold warmup
  refine andThen_completed_prop (Sound view) _ _
    (DeleteRandom_sound env view hmap hq t h) (fun _ s1 h1 => ?_)
  refine andThen_completed_prop (Sound view) _ _
    (PutRandom_sound env view hmap hq s1 h1) (fun _ s2 h2 => ?_)
  refine andThen_completed_prop (Sound view) _ _
    (DeleteRandom_sound env view hmap hq s2 h2) (fun _ s3 h3 => ?_)
  refine andThen_completed_prop (Sound view) _ _
    (DeleteRandom_sound env view hmap hq s3 h3) (fun _ s4 h4 => ?_)
  exact warmupLoop_sound env view hmap hq _ s4 h4

/-- Installing the random source makes a state sound whose shadow sets are well-formed
and agree with the store. -/
theorem installRand_sound [LinearOrder K] (env : Env σ K V) (view : σ → K → Option V)
    (t : DBTesting σ K V) (hP : t.Present.WF) (hD : t.Deleted.WF) (hag : Agrees view t) :
    Sound view (installRand env t) := by
  unfold installRand
  cases hr : t.Rand with
  | none => exact ⟨hP, hD, hag, by simp⟩
  | some r => exact ⟨hP, hD, hag, by rw [hr]; simp⟩

theorem DoDBTesting_sound [LinearOrder K] [DecidableEq V] (env : Env σ K V)
    (view : σ → K → Option V) (hmap : BehavesAsMap env.DB view) (hq : QuietHook env view)
    (t : DBTesting σ K V) (hP : t.Present.WF) (hD : t.Deleted.WF) (hag : Agrees view t) :
    (DoDBTesting env t).completed = true ∧ Sound view (DoDBTesting env t).st := by
  unfold DoDBTesting
  exact andThen_completed_prop (Sound view) _ _
    (warmup_sound env view hmap hq _ (installRand_sound env view t hP hD hag))
    (fun _ s5 h5 => RandomActLoop_sound env view hmap hq _ s5 h5)

theorem runOp_sound [LinearOrder K] [DecidableEq V] (env : Env σ K V)
    (view : σ → K → Option V) (hmap : BehavesAsMap env.DB view) (hq : QuietHook env view)
    (op : Op K V) (t : DBTesting σ K V) (h : Sound view t) :
    (runOp env op t).completed = true ∧ Sound view (runOp env op t).st := by
  cases op with
  | Put key value => exact Put_sound env view hmap hq t key value h
  | Delete key => exact Delete_sound env view hmap hq t key h
  | PutRandom =>
    exact andThen_completed_prop (Sound view) _ _ (PutRandom_sound env view hmap hq t h)
      (fun _ s hs => ⟨rfl, hs⟩)
  | DeleteRandom =>
    exact andThen_completed_prop (Sound view) _ _ (DeleteRandom_sound env view hmap hq t h)
      (fun _ s hs => ⟨rfl, hs⟩)
  | RandomAct round => exact RandomActLoop_sound env view hmap hq _ t h
  | DoDBTesting => exact DoDBTesting_sound env view hmap hq t h.1 h.2.1 h.2.2.1

theorem runOps_sound [LinearOrder K] [DecidableEq V] (env : Env σ K V)
    (view : σ → K → Option V) (hmap : BehavesAsMap env.DB view) (hq : QuietHook env view)
    (ops : List (Op K V)) (t : DBTesting σ K V) (h : Sound view t) :
    (runOps env ops t).completed = true ∧ Sound view (runOps env ops t).st := by
  induction ops generalizing t with
  | nil => exact ⟨rfl, h⟩
  | cons op rest ih =>
    unfold runOps
    exact andThen_completed_prop (Sound view) _ _ (runOp_sound env view hmap hq op t h)
      (fun _ s hs => ih s hs)

theorem forEachIndex_completed_prop (Q : DBTesting σ K V → Prop)
    (fn : Nat → DBTesting σ K V → Outcome σ K V Unit) (order : List Nat)
    (hfn : ∀ i ∈ order, ∀ s, Q s → (fn i s).completed = true ∧ Q (fn i s).st)
    (s : DBTesting σ K V) (hs : Q s) :
    (forEachIndex fn order s).completed = true ∧ Q (forEachIndex fn order s).st := by
  induction order generalizing s with
  | nil => exact ⟨rfl, hs⟩
  | cons i rest ih =>
    unfold forEachIndex
    exact andThen_completed_prop Q _ _ (hfn i (List.mem_cons_self _ _) s hs)
      (fun _ u hu => ih (fun j hj => hfn j (List.mem_cons_of_mem _ hj)) u hu)

/-- The present-key check of an entry of `Present` passes against an agreeing map store,
and leaves shadow sets and agreement as they are. -/
theorem TestPresentKV_sound [LinearOrder K] [DecidableEq V] (env : Env σ K V)
    (view : σ → K → Option V) (hmap : BehavesAsMap env.DB view)
    (deleted present : KeyValue K V) (hP : present.WF) (e : K × V)
    (he : e ∈ present.entries) (s : DBTesting σ K V)
    (hs : s.Deleted = deleted ∧ s.Present = present ∧ Agrees view s) :
    (DBTesting.TestPresentKV env s e.1 e.2).completed = true ∧
      ((DBTesting.TestPresentKV env s e.1 e.2).st.Deleted = deleted ∧
        (DBTesting.TestPresentKV env s e.1 e.2).st.Present = present ∧
        Agrees view (DBTesting.TestPresentKV env s e.1 e.2).st) := by
  obtain ⟨hsD, hsP, hag⟩ := hs
  obtain ⟨hg1, hg2, _⟩ := (hmap s.DB e.1).1
  have hlk : s.Present.Lookup e.1 = some e.2 := by
    rw [hsP]; exact lookupEntry_of_mem e _ hP he
  have hsh := TestPresentKV_shadow env s e.1 e.2
  have h1 : (DBTesting.TestPresentKV env s e.1 e.2).st.Present = s.Present :=
    congrArg (fun x => x.1) hsh
  have h2 : (DBTesting.TestPresentKV env s e.1 e.2).st.Deleted = s.Deleted :=
    congrArg (fun x => x.2.1) hsh
  refine ⟨(TestPresentKV_completed env s e.1 e.2).2 (hg2 e.2 (hag.1 e.1 e.2 hlk)),
    h2.trans hsD, h1.trans hsP, ?_⟩
  unfold Agrees
  rw [h1, h2, TestPresentKV_DB, hg1]
  exact hag

/-- The deleted-key check of a key of `Deleted` passes against an agreeing map store,
and leaves shadow sets and agreement as they are. -/
theorem TestDeletedKey_sound [LinearOrder K] (env : Env σ K V)
    (view : σ → K → Option V) (hmap : BehavesAsMap env.DB view)
    (deleted present : KeyValue K V) (key : K) (hk : key ∈ deleted.keys)
    (s : DBTesting σ K V)
    (hs : s.Deleted = deleted ∧ s.Present = present ∧ Agrees view s) :
    (DBTesting.TestDeletedKey env s key).completed = true ∧
      ((DBTesting.TestDeletedKey env s key).st.Deleted = deleted ∧
        (DBTesting.TestDeletedKey env s key).st.Present = present ∧
        Agrees view (DBTesting.TestDeletedKey env s key).st) := by
  obtain ⟨hsD, hsP, hag⟩ := hs
  obtain ⟨hg1, _, hg3⟩ := (hmap s.DB key).1
  have hsh := TestDeletedKey_shadow env s key
  have h1 : (DBTesting.TestDeletedKey env s key).st.Present = s.Present :=
    congrArg (fun x => x.1) hsh
  have h2 : (DBTesting.TestDeletedKey env s key).st.Deleted = s.Deleted :=
    congrArg (fun x => x.2.1) hsh
  refine ⟨(TestDeletedKey_completed env s key).2 (hg3 (hag.2 key (by rw [hsD]; exact hk))),
    h2.trans hsD, h1.trans hsP, ?_⟩
  unfold Agrees
  rw [h1, h2, TestDeletedKey_DB, hg1]
  exact hag

/-- The three sweeps pass against an agreeing map store, when `ShuffledIndex` yields only
indices of the range it is given. -/
theorem sweeps_sound [LinearOrder K] [DecidableEq V] (env : Env σ K V)
    (view : σ → K → Option V) (hmap : BehavesAsMap env.DB view)
    (hsh : ∀ r n, ∀ i ∈ (env.Shuffle r (stepIndices n 1)).1, i < n)
    (t : DBTesting σ K V) (hP : t.Present.WF) (hag : Agrees view t) :
    (DBTesting.TestAll env t).completed = true ∧
      (DBTesting.TestAllPresent env t).completed = true ∧
      (DBTesting.TestAllDeleted env t).completed = true := by
  have h0 : ∀ r, (fun s : DBTesting σ K V =>
      s.Deleted = t.Deleted ∧ s.Present = t.Present ∧ Agrees view s) { t with Rand := r } :=
    fun r => ⟨rfl, rfl, hag⟩
  refine ⟨?_, ?_, ?_⟩
  · unfold DBTesting.TestAll ShuffledIndex
    refine (forEachIndex_completed_prop (fun s : DBTesting σ K V =>
      s.Deleted = t.Deleted ∧ s.Present = t.Present ∧ Agrees view s) _ _ ?_ _ (h0 _)).1
    intro i hi s hs
    have hlt := hsh _ _ i hi
    unfold TestAllVisit
    by_cases hge : i ≥ t.Deleted.Len
    · rw [if_pos hge, hs.2.1]
      obtain ⟨e, he⟩ := Index_of_lt t.Present (i - t.Deleted.Len) (by omega)
      rw [he]
      exact TestPresentKV_sound env view hmap _ _ hP e (Index_mem _ _ e he) s hs
    · rw [if_neg hge, hs.1]
      obtain ⟨key, hk⟩ := KeyAt_of_lt t.Deleted i (by omega)
      rw [hk]
      exact TestDeletedKey_sound env view hmap _ _ key (KeyAt_mem_keys _ _ key hk) s hs
  · unfold DBTesting.TestAllPresent KeyValue.IterateShuffled ShuffledIndex
    refine (forEachIndex_completed_prop (fun s : DBTesting σ K V =>
      s.Deleted = t.Deleted ∧ s.Present = t.Present ∧ Agrees view s) _ _ ?_ _ (h0 _)).1
    intro i hi s hs
    obtain ⟨e, he⟩ := Index_of_lt t.Present i (hsh _ _ i hi)
    simp only [he]
    exact TestPresentKV_sound env view hmap _ _ hP e (Index_mem _ _ e he) s hs
  · unfold DBTesting.TestAllDeleted KeyValue.IterateShuffled ShuffledIndex
    refine (forEachIndex_completed_prop (fun s : DBTesting σ K V =>
      s.Deleted = t.Deleted ∧ s.Present = t.Present ∧ Agrees view s) _ _ ?_ _ (h0 _)).1
    intro i hi s hs
    obtain ⟨e, he⟩ := Index_of_lt t.Deleted i (hsh _ _ i hi)
    simp only [he]
    exact TestDeletedKey_sound env view hmap _ _ e.1 (Index_mem_keys _ _ e he) s hs

theorem mapStore_behaves [DecidableEq K] (nil : V) :
    BehavesAsMap (mapStore nil : Store (K → Option V) K V) (fun s => s) := by
  intro s key
  refine ⟨⟨?_, ?_, ?_⟩, ?_, ?_⟩
  · exact mapStore_Get_snd nil s key
  · intro v hv
    unfold mapStore
    simp only [hv]
  · intro hv
    unfold mapStore
    simp only [hv]
  · intro value
    refine ⟨rfl, ?_, ?_⟩
    · unfold mapStore; simp
    · intro k hk
      unfold mapStore; simp [hk]
  · refine ⟨rfl, ?_, ?_⟩
    · unfold mapStore; simp
    · intro k hk
      unfold mapStore; simp [hk]

theorem completed_aborts {α : Type} (o : Outcome σ K V α) (h : o.completed = true) :
    AbortsOnlyOnNilRand o := by
  intro f hf
  unfold Outcome.completed at h
  rw [hf] at h
  exact absurd h (by simp)

theorem andThen_consistent {α β : Type} (P : DBTesting σ K V → Prop)
    (o : Outcome σ K V α) (f : α → DBTesting σ K V → Outcome σ K V β)
    (ho : P o.st ∧ AbortsOnlyOnNilRand o)
    (hf : ∀ a s, P s → P (f a s).st ∧ AbortsOnlyOnNilRand (f a s)) :
    P (o.andThen f).st ∧ AbortsOnlyOnNilRand (o.andThen f) := by
  cases hr : o.res with
  | error e =>
    rw [andThen_eq_of_error _ _ e hr]
    refine ⟨ho.1, ?_⟩
    intro f1 hf1
    have he : e = f1 := Except.error.inj hf1
    rw [← he]
    exact ho.2 e hr
  | ok a =>
    rw [andThen_eq_of_ok _ _ a hr]
    exact hf a _ ho.1

theorem Sound_Consistent [LinearOrder K] (view : σ → K → Option V) (s : DBTesting σ K V)
    (h : Sound view s) : Consistent view s :=
  ⟨h.1, h.2.1, h.2.2.1⟩

/-- Against an agreeing map store one call leaves a consistent state, and is aborted, if
at all, by the use of a nil random source. -/
theorem runOp_consistent [LinearOrder K] [DecidableEq V] (env : Env σ K V)
    (view : σ → K → Option V) (hmap : BehavesAsMap env.DB view) (hq : QuietHook env view)
    (op : Op K V) (t : DBTesting σ K V) (h : Consistent view t) :
    Consistent view (runOp env op t).st ∧ AbortsOnlyOnNilRand (runOp env op t) := by
  by_cases hr : t.Rand = none
  · cases op with
    | Put key value =>
      obtain ⟨hc, hs, _⟩ := Put_agreeing env view hmap hq t key value h
      exact ⟨hs, completed_aborts _ hc⟩
    | Delete key =>
      obtain ⟨hc, hs, _⟩ := Delete_agreeing env view hmap hq t key h
      exact ⟨hs, completed_aborts _ hc⟩
    | PutRandom =>
      show Consistent view ((DBTesting.PutRandom env t).andThen fun _ t1 => ⟨.ok (), t1⟩).st ∧
        AbortsOnlyOnNilRand ((DBTesting.PutRandom env t).andThen fun _ t1 => ⟨.ok (), t1⟩)
      refine andThen_consistent (Consistent view) _ _ ?_
        (fun _ s hs => ⟨hs, completed_aborts _ rfl⟩)
      by_cases hpos : 0 < t.Deleted.Len
      · rw [PutRandom_of_nil env t hpos hr]
        exact ⟨h, fun f hf => ⟨by rw [← Except.error.inj hf], hr⟩⟩
      · rw [PutRandom_of_empty env t (by omega)]
        exact ⟨h, completed_aborts _ rfl⟩
    | DeleteRandom =>
      show Consistent view
          ((DBTesting.DeleteRandom env t).andThen fun _ t1 => ⟨.ok (), t1⟩).st ∧
        AbortsOnlyOnNilRand ((DBTesting.DeleteRandom env t).andThen fun _ t1 => ⟨.ok (), t1⟩)
      refine andThen_consistent (Consistent view) _ _ ?_
        (fun _ s hs => ⟨hs, completed_aborts _ rfl⟩)
      by_cases hpos : 0 < t.Present.Len
      · rw [DeleteRandom_of_nil env t hpos hr]
        exact ⟨h, fun f hf => ⟨by rw [← Except.error.inj hf], hr⟩⟩
      · rw [DeleteRandom_of_empty env t (by omega)]
        exact ⟨h, completed_aborts _ rfl⟩
    | RandomAct round =>
      show Consistent view (DBTesting.RandomActLoop env round.toNat t).st ∧
        AbortsOnlyOnNilRand (DBTesting.RandomActLoop env round.toNat t)
      cases round.toNat with
      | zero => exact ⟨h, completed_aborts _ rfl⟩
      | succ n =>
        unfold DBTesting.RandomActLoop
        rw [hr]
        exact ⟨h, fun f hf => ⟨by rw [← Except.error.inj hf], hr⟩⟩
    | DoDBTesting =>
      obtain ⟨hc, hs⟩ := DoDBTesting_sound env view hmap hq t h.1 h.2.1 h.2.2
      exact ⟨Sound_Consistent view _ hs, completed_aborts _ hc⟩
  · obtain ⟨hc, hs⟩ := runOp_sound env view hmap hq op t ⟨h.1, h.2.1, h.2.2, hr⟩
    exact ⟨Sound_Consistent view _ hs, completed_aborts _ hc⟩

/-- Against an agreeing map store a call sequence leaves a consistent state, and is
aborted, if at all, by the use of a nil random source. -/
theorem runOps_consistent [LinearOrder K] [DecidableEq V] (env : Env σ K V)
    (view : σ → K → Option V) (hmap : BehavesAsMap env.DB view) (hq : QuietHook env view)
    (ops : List (Op K V)) (t : DBTesting σ K V) (h : Consistent view t) :
    Consistent view (runOps env ops t).st ∧ AbortsOnlyOnNilRand (runOps env ops t) := by
  induction ops generalizing t with
  | nil => exact ⟨h, completed_aborts _ rfl⟩
  | cons op rest ih =>
    unfold runOps
    exact andThen_consistent (Consistent view) _ _ (runOp_consistent env view hmap hq op t h)
      (fun _ s hs => ih s hs)

/-- Against an agreeing map store a call sequence completes when the random source is
installed at the start, or is installed by the sequence before it needs one. -/
theorem runOps_ready [LinearOrder K] [DecidableEq V] (env : Env σ K V)
    (view : σ → K → Option V) (hmap : BehavesAsMap env.DB view) (hq : QuietHook env view)
    (ops : List (Op K V)) (t : DBTesting σ K V) (h : Consistent view t)
    (hready : t.Rand ≠ none ∨ installsRandFirst ops = true) :
    (runOps env ops t).completed = true := by
  induction ops generalizing t with
  | nil => rfl
  | cons op rest ih =>
    by_cases hr : t.Rand = none
    · have hfirst : installsRandFirst (op :: rest) = true := by
        rcases hready with h1 | h1
        · exact absurd hr h1
        · exact h1
      unfold runOps
      cases op with
      | Put key value =>
        obtain ⟨hc, hs, _⟩ := Put_agreeing env view hmap hq t key value h
        exact (andThen_completed_prop (fun s => Consistent view s) _ _ ⟨hc, hs⟩
          (fun _ s hs1 => ⟨ih s hs1 (Or.inr hfirst),
            (runOps_consistent env view hmap hq rest s hs1).1⟩)).1
      | Delete key =>
        obtain ⟨hc, hs, _⟩ := Delete_agreeing env view hmap hq t key h
        exact (andThen_completed_prop (fun s => Consistent view s) _ _ ⟨hc, hs⟩
          (fun _ s hs1 => ⟨ih s hs1 (Or.inr hfirst),
            (runOps_consistent env view hmap hq rest s hs1).1⟩)).1
      | PutRandom => exact absurd hfirst (by simp [installsRandFirst])
      | DeleteRandom => exact absurd hfirst (by simp [installsRandFirst])
      | RandomAct round => exact absurd hfirst (by simp [installsRandFirst])
      | DoDBTesting =>
        exact (andThen_completed_prop (Sound view) _ _
          (DoDBTesting_sound env view hmap hq t h.1 h.2.1 h.2.2)
          (fun _ s hs => runOps_sound env view hmap hq rest s hs)).1
    · exact (runOps_sound env view hmap hq (op :: rest) t ⟨h.1, h.2.1, h.2.2, hr⟩).1

/-- C16, amended. No false alarms against a correct store: if the store behaves as a
finite map and agrees with the shadow (shadow sets well-formed), the hook, if any, keeps
quiet, and `ShuffledIndex` yields only indices of its range, then a sequence of `Put`,
`Delete`, `PutRandom`, `DeleteRandom`, `RandomAct` and `DoDBTesting` calls completes
without failure when the random source is installed at the start or the sequence installs
it before it needs one (only `Put` and `Delete` calls precede its first `DoDBTesting`).
Without that, no check fails either: the one failure possible is the use of a nil random
source. In every case the agreement between store and shadow holds in the state reached,
and `TestAll`, `TestAllPresent` and `TestAllDeleted` pass from there. -/
theorem C16_no_false_alarms [LinearOrder K] [DecidableEq V] (env : Env σ K V)
    (view : σ → K → Option V) (hmap : BehavesAsMap env.DB view) (hq : QuietHook env view)
    (hsh : ∀ r n, ∀ i ∈ (env.Shuffle r (stepIndices n 1)).1, i < n)
    (t : DBTesting σ K V) (hP : t.Present.WF) (hD : t.Deleted.WF) (hag : Agrees view t)
    (ops : List (Op K V)) :
    (t.Rand ≠ none ∨ installsRandFirst ops = true → (runOps env ops t).completed = true) ∧
      (∀ f, (runOps env ops t).res = .error f →
        f.kind = FailureKind.NilRand ∧ (runOps env ops t).st.Rand = none) ∧
      Agrees view (runOps env ops t).st ∧
      (DBTesting.TestAll env (runOps env ops t).st).completed = true ∧
      (DBTesting.TestAllPresent env (runOps env ops t).st).completed = true ∧
      (DBTesting.TestAllDeleted env (runOps env ops t).st).completed = true := by
  obtain ⟨hs, hab⟩ := runOps_consistent env view hmap hq ops t ⟨hP, hD, hag⟩
  obtain ⟨h1, h2, h3⟩ := sweeps_sound env view hmap hsh (runOps env ops t).st hs.1 hs.2.2
  exact ⟨runOps_ready env view hmap hq ops t ⟨hP, hD, hag⟩, hab, hs.2.2, h1, h2, h3⟩

/-- C16 on the sample harness over the map store. From the fresh state, which has no
random source, a `Put`, a `Delete`, then `DoDBTesting`, a `PutRandom` and four random
rounds complete; from the populated state, which has one, a sequence without `DoDBTesting`
completes; from the state with one deleted candidate and no random source a lone
`PutRandom` is aborted, by the nil random source and by nothing else. Agreement holds and
the sweeps pass at the end of all three. -/
theorem C16_no_false_alarms_witness :
    BehavesAsMap demoEnv.DB (fun s => s) ∧ QuietHook demoEnv (fun s => s) ∧
    (∀ r n, ∀ i ∈ (demoEnv.Shuffle r (stepIndices n 1)).1, i < n) ∧
    (demoEmpty.Present.WF ∧ demoEmpty.Deleted.WF ∧ Agrees (fun s => s) demoEmpty ∧
      demoEmpty.Rand = none ∧
      (runOps demoEnv
        [Op.Put [97] [49], Op.Delete [97], Op.DoDBTesting, Op.PutRandom, Op.RandomAct 4]
        demoEmpty).completed = true ∧
      Agrees (fun s => s) (runOps demoEnv
        [Op.Put [97] [49], Op.Delete [97], Op.DoDBTesting, Op.PutRandom, Op.RandomAct 4]
        demoEmpty).st ∧
      (DBTesting.TestAll demoEnv (runOps demoEnv
        [Op.Put [97] [49], Op.Delete [97], Op.DoDBTesting, Op.PutRandom, Op.RandomAct 4]
        demoEmpty).st).completed = true) ∧
    (demoState.Present.WF ∧ demoState.Deleted.WF ∧ Agrees (fun s => s) demoState ∧
      demoState.Rand ≠ none ∧
      (runOps demoEnv [Op.Put [99] [52], Op.PutRandom, Op.Delete [97], Op.RandomAct 4]
        demoState).completed = true ∧
      Agrees (fun s => s)
        (runOps demoEnv [Op.Put [99] [52], Op.PutRandom, Op.Delete [97], Op.RandomAct 4]
          demoState).st ∧
      (DBTesting.TestAll demoEnv
        (runOps demoEnv [Op.Put [99] [52], Op.PutRandom, Op.Delete [97], Op.RandomAct 4]
          demoState).st).completed = true) ∧
    (demoOneCandidate.Present.WF ∧ demoOneCandidate.Deleted.WF ∧
      Agrees (fun s => s) demoOneCandidate ∧
      (runOps demoEnv [Op.PutRandom] demoOneCandidate).res =
        .error ⟨FailureKind.NilRand, "nil pointer dereference"⟩ ∧
      (∀ f, (runOps demoEnv [Op.PutRandom] demoOneCandidate).res = .error f →
        f.kind = FailureKind.NilRand ∧
          (runOps demoEnv [Op.PutRandom] demoOneCandidate).st.Rand = none) ∧
      Agrees (fun s => s) (runOps demoEnv [Op.PutRandom] demoOneCandidate).st ∧
      (DBTesting.TestAll demoEnv
        (runOps demoEnv [Op.PutRandom] demoOneCandidate).st).completed = true) :=
  have hmap : BehavesAsMap demoEnv.DB (fun s => s) := mapStore_behaves []
  have hq : QuietHook demoEnv (fun s => s) := by
    intro fn hfn
    exact absurd hfn (by simp [demoEnv, mapEnv])
  have hsh : ∀ r n, ∀ i ∈ (demoEnv.Shuffle r (stepIndices n 1)).1, i < n := by
    intro r n i hi
    have : i ∈ stepIndices n 1 := hi
    rw [stepIndices_one] at this
    exact List.mem_range.1 this
  have hP0 : demoEmpty.Present.WF := by unfold KeyValue.WF; decide
  have hD0 : demoEmpty.Deleted.WF := by unfold KeyValue.WF; decide
  have hag0 : Agrees (fun s => s) demoEmpty := by
    constructor
    · intro k v hk
      exact absurd hk (by simp [demoEmpty, emptyState, KeyValue.Lookup, KeyValue.empty,
        lookupEntry])
    · intro k hk
      rfl
  have hP : demoState.Present.WF := by unfold KeyValue.WF; decide
  have hD : demoState.Deleted.WF := by unfold KeyValue.WF; decide
  have hag : Agrees (fun s => s) demoState := by
    constructor
    · intro k v hk
      unfold KeyValue.Lookup demoState lookupEntry lookupEntry at hk
      simp only at hk
      by_cases hkk : [97] = k
      · rw [if_pos hkk] at hk
        simp only [demoState, ← hkk, if_true]
        exact hk
      · rw [if_neg hkk] at hk
        exact absurd hk (by simp)
    · intro k hk
      have : k = [98] := by simpa [demoState, KeyValue.keys] using hk
      subst this
      decide
  have hP1 : demoOneCandidate.Present.WF := by unfold KeyValue.WF; decide
  have hD1 : demoOneCandidate.Deleted.WF := by unfold KeyValue.WF; decide
  have hag1 : Agrees (fun s => s) demoOneCandidate := by
    constructor
    · intro k v hk
      exact absurd hk (by simp [demoOneCandidate, KeyValue.Lookup, KeyValue.empty,
        lookupEntry])
    · intro k hk
      rfl
  ⟨hmap, hq, hsh,
    ⟨hP0, hD0, hag0, rfl,
      (C16_no_false_alarms demoEnv (fun s => s) hmap hq hsh demoEmpty hP0 hD0 hag0
        [Op.Put [97] [49], Op.Delete [97], Op.DoDBTesting, Op.PutRandom,
          Op.RandomAct 4]).1 (Or.inr rfl),
      (C16_no_false_alarms demoEnv (fun s => s) hmap hq hsh demoEmpty hP0 hD0 hag0 _).2.2.1,
      (C16_no_false_alarms demoEnv (fun s => s) hmap hq hsh demoEmpty hP0 hD0 hag0
        _).2.2.2.1⟩,
    ⟨hP, hD, hag, by simp [demoState],
      (C16_no_false_alarms demoEnv (fun s => s) hmap hq hsh demoState hP hD hag
        [Op.Put [99] [52], Op.PutRandom, Op.Delete [97], Op.RandomAct 4]).1
        (Or.inl (by simp [demoState])),
      (C16_no_false_alarms demoEnv (fun s => s) hmap hq hsh demoState hP hD hag _).2.2.1,
      (C16_no_false_alarms demoEnv (fun s => s) hmap hq hsh demoState hP hD hag _).2.2.2.1⟩,
    ⟨hP1, hD1, hag1, rfl,
      (C16_no_false_alarms demoEnv (fun s => s) hmap hq hsh demoOneCandidate hP1 hD1 hag1
        [Op.PutRandom]).2.1,
      (C16_no_false_alarms demoEnv (fun s => s) hmap hq hsh demoOneCandidate hP1 hD1 hag1
        _).2.2.1,
      (C16_no_false_alarms demoEnv (fun s => s) hmap hq hsh demoOneCandidate hP1 hD1 hag1
        _).2.2.2.1⟩⟩

/-- C16, as stated, fails: the map store is correct and agrees with the shadow (nothing
present, the deleted key `a` not stored), yet with no random source installed `PutRandom`
does not complete: it is aborted by the nil random source, before any store call. The same
holds for `DeleteRandom` once `a` is present, and for `RandomAct(1)`. -/
theorem C16_no_false_alarms_counterexample :
    BehavesAsMap demoEnv.DB (fun s => s) ∧ Agrees (fun s => s) demoOneCandidate ∧
    demoOneCandidate.Rand = none ∧ demoOneCandidate.Deleted.Len = 1 ∧
    (DBTesting.PutRandom demoEnv demoOneCandidate).completed = false ∧
    (DBTesting.PutRandom demoEnv demoOneCandidate).res =
      .error ⟨FailureKind.NilRand, "nil pointer dereference"⟩ ∧
    (DBTesting.PutRandom demoEnv demoOneCandidate).st.Calls = [] ∧
    (DBTesting.Put demoEnv demoOneCandidate [97] [49]).completed = true ∧
    (DBTesting.DeleteRandom demoEnv
      (DBTesting.Put demoEnv demoOneCandidate [97] [49]).st).completed = false ∧
    (DBTesting.RandomAct demoEnv demoOneCandidate 1).completed = false := by
  refine ⟨mapStore_behaves [], ⟨?_, ?_⟩, rfl, rfl, rfl, rfl, rfl, rfl, rfl, rfl⟩
  · intro k v hk
    exact absurd hk (by simp [demoOneCandidate, KeyValue.Lookup, KeyValue.empty, lookupEntry])
  · intro k hk
    rfl

theorem Sound_Inv [LinearOrder K] (view : σ → K → Option V) (s : DBTesting σ K V)
    (h : Sound view s) : s.Inv := by
  obtain ⟨hP, hD, hag, _⟩ := h
  refine ⟨hP, hD, ?_⟩
  intro k hk hk'
  cases hv : s.Present.Lookup k with
  | none => exact absurd hk ((lookupEntry_eq_none_iff k s.Present.entries).1 hv)
  | some v =>
    have h1 := hag.1 k v hv
    rw [hag.2 k hk'] at h1
    exact absurd h1 (by simp)

/-- A `PutRandom` on a non-empty `Deleted` moves one entry to `Present`. -/
theorem PutRandom_count [LinearOrder K] [DecidableEq V] (env : Env σ K V)
    (view : σ → K → Option V) (s : DBTesting σ K V) (h : Sound view s)
    (hpos : 0 < s.Deleted.Len) :
    (DBTesting.PutRandom env s).st.Present.Len = s.Present.Len + 1 ∧
      (DBTesting.PutRandom env s).st.Deleted.Len + 1 = s.Deleted.Len := by
  have hinv := Sound_Inv view s h
  cases hr : s.Rand with
  | none => exact absurd hr h.2.2.2
  | some r =>
    obtain ⟨e, he⟩ := Index_of_lt s.Deleted (r.draws r.pos % s.Deleted.Len)
      (Nat.mod_lt _ hpos)
    rw [PutRandom_of_pos env s r hr hpos e he, andThen_ok_true_st]
    have hnot : e.1 ∉ s.Present.keys := fun hm => hinv.2.2 e.1 hm (Index_mem_keys _ _ e he)
    have hc := (Put_Conserved env { s with Rand := some { r with pos := r.pos + 1 } }
      (Inv_of_shadow rfl rfl hinv) e (Index_mem _ _ e he)).2
    have hlen : (DBTesting.Put env { s with Rand := some { r with pos := r.pos + 1 } } e.1
        e.2).st.Present.Len = s.Present.Len + 1 := by
      rw [Put_Present]
      unfold KeyValue.PutU KeyValue.Len
      simp only
      rw [length_insertEntry, (insertEntry_new_iff e.1 e.2 _ hinv.1).2 hnot, if_pos rfl]
    simp only at hc
    omega

/-- A `DeleteRandom` on a non-empty `Present` moves one entry to `Deleted`. -/
theorem DeleteRandom_count [LinearOrder K] [DecidableEq V] (env : Env σ K V)
    (view : σ → K → Option V) (s : DBTesting σ K V) (h : Sound view s)
    (hpos : 0 < s.Present.Len) :
    (DBTesting.DeleteRandom env s).st.Present.Len + 1 = s.Present.Len ∧
      (DBTesting.DeleteRandom env s).st.Deleted.Len = s.Deleted.Len + 1 := by
  have hinv := Sound_Inv view s h
  cases hr : s.Rand with
  | none => exact absurd hr h.2.2.2
  | some r =>
    obtain ⟨key, he⟩ := KeyAt_of_lt s.Present (r.draws r.pos % s.Present.Len)
      (Nat.mod_lt _ hpos)
    rw [DeleteRandom_of_pos env s r hr hpos key he, andThen_ok_true_st]
    have hm : key ∈ s.Present.keys := KeyAt_mem_keys _ _ key he
    have hc := (Delete_Conserved env { s with Rand := some { r with pos := r.pos + 1 } }
      (Inv_of_shadow rfl rfl hinv) key hm).2
    have hlen : (DBTesting.Delete env { s with Rand := some { r with pos := r.pos + 1 } }
        key).st.Present.Len + 1 = s.Present.Len := by
      rw [Delete_Present]
      unfold KeyValue.Delete KeyValue.Len
      simp only
      have h2 := length_deleteEntry key s.Present.entries
      rw [deleteEntry_value _ _ hinv.1] at h2
      cases hv : lookupEntry key s.Present.entries with
      | none => exact absurd hm ((lookupEntry_eq_none_iff key s.Present.entries).1 hv)
      | some v =>
        rw [hv] at h2
        simpa using h2
    simp only at hc
    omega

/-- The warm-up loop entered with counter `i` below `|Deleted|` completes against a map
store and moves `i + 1` entries from `Deleted` to `Present`. -/
theorem warmupLoop_count [LinearOrder K] [DecidableEq V] (env : Env σ K V)
    (view : σ → K → Option V) (hmap : BehavesAsMap env.DB view) (hq : QuietHook env view)
    (i : Nat) (s : DBTesting σ K V) (h : Sound view s) (hi : i < s.Deleted.Len) :
    (warmupLoop env i s).completed = true ∧
      (warmupLoop env i s).st.Present.Len = s.Present.Len + (i + 1) ∧
      (warmupLoop env i s).st.Deleted.Len + (i + 1) = s.Deleted.Len := by
  induction i generalizing s with
  | zero =>
    obtain ⟨hc, _⟩ := PutRandom_sound env view hmap hq s h
    obtain ⟨h1, h2⟩ := PutRandom_count env view s h hi
    unfold warmupLoop
    cases hr : (DBTesting.PutRandom env s).res with
    | error e =>
      unfold Outcome.completed at hc
      rw [hr] at hc
      exact absurd hc (by simp)
    | ok b =>
      rw [andThen_eq_of_ok _ _ b hr]
      exact ⟨rfl, h1, h2⟩
  | succ i ih =>
    obtain ⟨hc, hs⟩ := PutRandom_sound env view hmap hq s h
    obtain ⟨h1, h2⟩ := PutRandom_count env view s h (by omega)
    unfold warmupLoop
    cases hr : (DBTesting.PutRandom env s).res with
    | error e =>
      unfold Outcome.completed at hc
      rw [hr] at hc
      exact absurd hc (by simp)
    | ok b =>
      rw [andThen_eq_of_ok _ _ b hr]
      obtain ⟨h3, h4, h5⟩ := ih (DBTesting.PutRandom env s).st hs (by omega)
      exact ⟨h3, by omega, by omega⟩

/-- C14, as stated, fails: from an empty `Present` and two candidate keys in `Deleted`, over
the empty map store, the warm-up completes and leaves `Deleted` empty: both keys end up in
`Present`. -/
theorem C14_warmup_mix_counterexample :
    demoTwoCandidates.Present.Len = 0 ∧ demoTwoCandidates.Deleted.Len = 2 ∧
      (warmup demoEnv (installRand demoEnv demoTwoCandidates)).completed = true ∧
      (warmup demoEnv (installRand demoEnv demoTwoCandidates)).st.Present.Len = 2 ∧
      (warmup demoEnv (installRand demoEnv demoTwoCandidates)).st.Deleted.Len = 0 := by
  decide

/-- C14, amended. Warm-up seeds a mix: for every start of `DoDBTesting` with `Present`
empty and at least three candidate keys in `Deleted`, over a store that behaves as a map
and stores none of them, the warm-up (the steps before `RandomAct`) completes and leaves
both `Present` and `Deleted` non-empty: with `n` candidates, `floor(n / 2) + 1` keys are
present and the other `n - floor(n / 2) - 1` deleted. -/
theorem C14_warmup_mix [LinearOrder K] [DecidableEq V] (env : Env σ K V)
    (view : σ → K → Option V) (hmap : BehavesAsMap env.DB view) (hq : QuietHook env view)
    (t : DBTesting σ K V) (hP : t.Present.Len = 0) (hD : t.Deleted.WF)
    (hn : 3 ≤ t.Deleted.Len) (hstore : ∀ k ∈ t.Deleted.keys, view t.DB k = none) :
    (warmup env (installRand env t)).completed = true ∧
      (warmup env (installRand env t)).st.Present.Len = t.Deleted.Len / 2 + 1 ∧
      (warmup env (installRand env t)).st.Deleted.Len + (t.Deleted.Len / 2 + 1) =
        t.Deleted.Len ∧
      0 < (warmup env (installRand env t)).st.Present.Len ∧
      0 < (warmup env (installRand env t)).st.Deleted.Len := by
  have hnil : t.Present.entries = [] := List.eq_nil_of_length_eq_zero hP
  have hPwf : t.Present.WF := by
    unfold KeyValue.WF KeyValue.keys; rw [hnil]; exact List.Pairwise.nil
  have hag : Agrees view t := by
    refine ⟨?_, hstore⟩
    intro k v hk
    unfold KeyValue.Lookup at hk
    rw [hnil] at hk
    exact absurd hk (by simp [lookupEntry])
  have h0 : Sound view (installRand env t) := installRand_sound env view t hPwf hD hag
  have hP0 : (installRand env t).Present.Len = 0 := by rw [installRand_Present]; exact hP
  have hD0 : (installRand env t).Deleted.Len = t.Deleted.Len := by rw [installRand_Deleted]
  generalize installRand env t = s0 at h0 hP0 hD0
  -- first `DeleteRandom`: nothing present
  unfold warmup
  rw [DeleteRandom_of_empty env s0 hP0, andThen_eq_of_ok _ _ false rfl]
  try simp only
  -- `PutRandom`: one candidate becomes present
  obtain ⟨hc1, hs1⟩ := PutRandom_sound env view hmap hq s0 h0
  obtain ⟨hp1, hd1⟩ := PutRandom_count env view s0 h0 (by omega)
  cases hr1 : (DBTesting.PutRandom env s0).res with
  | error e =>
    unfold Outcome.completed at hc1
    rw [hr1] at hc1
    exact absurd hc1 (by simp)
  | ok b1 =>
    rw [andThen_eq_of_ok _ _ b1 hr1]
    try simp only
    generalize (DBTesting.PutRandom env s0).st = s1 at hs1 hp1 hd1
    -- second `DeleteRandom`: it goes back
    obtain ⟨hc2, hs2⟩ := DeleteRandom_sound env view hmap hq s1 hs1
    obtain ⟨hp2, hd2⟩ := DeleteRandom_count env view s1 hs1 (by omega)
    cases hr2 : (DBTesting.DeleteRandom env s1).res with
    | error e =>
      unfold Outcome.completed at hc2
      rw [hr2] at hc2
      exact absurd hc2 (by simp)
    | ok b2 =>
      rw [andThen_eq_of_ok _ _ b2 hr2]
      try simp only
      generalize (DBTesting.DeleteRandom env s1).st = s2 at hs2 hp2 hd2
      -- third `DeleteRandom`: nothing present again
      have hP2 : s2.Present.Len = 0 := by omega
      rw [DeleteRandom_of_empty env s2 hP2, andThen_eq_of_ok _ _ false rfl]
      try simp only
      have hD2 : s2.Deleted.Len = t.Deleted.Len := by omega
      obtain ⟨h3, h4, h5⟩ := warmupLoop_count env view hmap hq (s2.Deleted.Len / 2) s2 hs2
        (by omega)
      rw [hD2] at h3 h4 h5
      rw [hD2]
      refine ⟨h3, by omega, by omega, by omega, by omega⟩

theorem C14_warmup_mix_witness :
    BehavesAsMap demoEnv.DB (fun s => s) ∧ QuietHook demoEnv (fun s => s) ∧
    demoThreeCandidates.Present.Len = 0 ∧ demoThreeCandidates.Deleted.WF ∧
    3 ≤ demoThreeCandidates.Deleted.Len ∧
    (∀ k ∈ demoThreeCandidates.Deleted.keys, demoThreeCandidates.DB k = none) ∧
    ((warmup demoEnv (installRand demoEnv demoThreeCandidates)).completed = true ∧
      (warmup demoEnv (installRand demoEnv demoThreeCandidates)).st.Present.Len =
        demoThreeCandidates.Deleted.Len / 2 + 1 ∧
      (warmup demoEnv (installRand demoEnv demoThreeCandidates)).st.Deleted.Len +
          (demoThreeCandidates.Deleted.Len / 2 + 1) = demoThreeCandidates.Deleted.Len ∧
      0 < (warmup demoEnv (installRand demoEnv demoThreeCandidates)).st.Present.Len ∧
      0 < (warmup demoEnv (installRand demoEnv demoThreeCandidates)).st.Deleted.Len) :=
  have hmap : BehavesAsMap demoEnv.DB (fun s => s) := mapStore_behaves []
  have hq : QuietHook demoEnv (fun s => s) := by
    intro fn hfn
    exact absurd hfn (by simp [demoEnv, mapEnv])
  have hD : demoThreeCandidates.Deleted.WF := by unfold KeyValue.WF; decide
  have hn : 3 ≤ demoThreeCandidates.Deleted.Len := by decide
  have hstore : ∀ k ∈ demoThreeCandidates.Deleted.keys, demoThreeCandidates.DB k = none :=
    fun _ _ => rfl
  ⟨hmap, hq, rfl, hD, hn, hstore,
    C14_warmup_mix demoEnv (fun s => s) hmap hq demoThreeCandidates rfl hD hn hstore⟩

end MapStoreClaims

end testutil
